import Mathlib

/-!
# CompareCSV: a shallow embedding of `SFileData` (src/MainWindow/MainWindow.cpp)

The development follows the C++ source function by function.

* A `QString` is modelled as the list of its characters; a `QStringList` as a list of those.
* `std::map` is a key-sorted association list, `std::set<int>` a sorted list without
  repetitions, `std::multimap` a key-sorted list that keeps equal keys in insertion order,
  `std::unordered_map` an association list used through `find` and `operator[]` (and through
  `begin()` in the second header loop of `loadFile`, where the head of the list stands for it).
* `fLHS` and `fRHS` are bound to a `QTableWidget` and `fMerged` to a `CMergedTableModel`
  (constructor of `CMainWindow`); the embedding keeps that binding, so the two sides are
  values of `SFileData` and the merged side is a value of `SMergedData`.
* The content hash `NSABUtils::getMd5` lives in an external library; every definition that
  needs it takes it as the parameter `getMd5`.
* The progress dialogs are never cancelled: `dlg.wasCanceled()` is `false` throughout, and
  the event pumping (`processEvents`) and background colours are display-only and left out.
-/

namespace CompareCSV

/-! ## Strings -/

/-- A `QString`, as the sequence of its characters. -/
abbrev QString := List Char

/-- A `QStringList`. -/
abbrev QStringList := List QString

/-- `QChar::isSpace`: the ASCII white space U+0009..U+000D and U+0020, U+0085, U+00A0 and the
Unicode separators (categories Zs, Zl, Zp). -/
def isSpace (c : Char) : Bool :=
  c.toNat == 0x20 || (0x09 ≤ c.toNat && c.toNat ≤ 0x0D) || c.toNat == 0x85 || c.toNat == 0xA0 ||
  c.toNat == 0x1680 || (0x2000 ≤ c.toNat && c.toNat ≤ 0x200A) || c.toNat == 0x2028 ||
  c.toNat == 0x2029 || c.toNat == 0x202F || c.toNat == 0x205F || c.toNat == 0x3000

/-- `QString::trimmed`: white space removed from both ends. -/
def trimmed (s : QString) : QString :=
  ((s.dropWhile isSpace).reverse.dropWhile isSpace).reverse

/-- `QString::toLower`, on the ASCII letters (the only ones in the names it is compared to). -/
def toLower (s : QString) : QString := s.map Char.toLower

/-- `QString::left( n )`. -/
def left (n : Nat) (s : QString) : QString := s.take n

/-- `QString::endsWith( "*" )`. -/
def endsWithStar (s : QString) : Bool := s.getLast? == some '*'

/-- `QStringList::join( sep )`. -/
def join (sep : QString) : QStringList → QString
  | [] => []
  | [s] => s
  | s :: t :: rest => s ++ sep ++ join sep (t :: rest)

/-! ## Containers -/

/-- `std::map::operator[]( k ) = v` on a key-sorted association list. -/
def mapInsert {κ β : Type} [LinearOrder κ] (k : κ) (v : β) : List (κ × β) → List (κ × β)
  | [] => [(k, v)]
  | (k', v') :: rest =>
      if k < k' then (k, v) :: (k', v') :: rest
      else if k = k' then (k, v) :: rest
      else (k', v') :: mapInsert k v rest

/-- `find( k )` of a `std::map` or `std::unordered_map`: the mapped value, `none` for `end()`. -/
def mapFind {κ β : Type} [DecidableEq κ] (k : κ) : List (κ × β) → Option β
  | [] => none
  | (k', v') :: rest => if k = k' then some v' else mapFind k rest

/-- `std::unordered_map::operator[]( k ) = v`: the value of an existing key is replaced, a new
key is added. -/
def umapInsert {κ β : Type} [DecidableEq κ] (k : κ) (v : β) : List (κ × β) → List (κ × β)
  | [] => [(k, v)]
  | (k', v') :: rest => if k = k' then (k, v) :: rest else (k', v') :: umapInsert k v rest

/-- `std::set<int>::insert`. -/
def setInsert (k : Nat) : List Nat → List Nat
  | [] => [k]
  | k' :: rest =>
      if k < k' then k :: k' :: rest
      else if k = k' then k' :: rest
      else k' :: setInsert k rest

/-- `std::multimap::insert`: the new entry goes after every entry whose key is not greater. -/
def multimapInsert {β : Type} (k : Int) (v : β) : List (Int × β) → List (Int × β)
  | [] => [(k, v)]
  | (k', v') :: rest =>
      if k < k' then (k, v) :: (k', v') :: rest
      else (k', v') :: multimapInsert k v rest

/-! ## The line tokenizer, `SFileData::getRow` -/

/-- The merge plan `TMergedType`: raw column ↦ (logical column, position in the group). -/
abbrev TMergedType := List (Nat × (Nat × Nat))

/-- The inner `for ( jj ... )` loop run at a quote met inside a quoted field: `true` when the
first character after the run of white space is a comma (the loop sets `inQuote = false`). -/
def quoteCloses : QString → Bool
  | [] => false
  | c :: rest => if isSpace c then quoteCloses rest else c == ','

/-- The `for ( ii ... )` loop of `getRow` over the remaining characters, with the loop state
`inQuote`, `currColumn`, `retVal`; at the end of the line `currColumn` is appended. -/
def scanLine : QString → Bool → QString → QStringList → QStringList
  | [], _, currColumn, retVal => retVal ++ [currColumn]
  | curr :: rest, true, currColumn, retVal =>
      if curr = '"' then scanLine rest (!quoteCloses rest) currColumn retVal
      else scanLine rest true (currColumn ++ [curr]) retVal
  | curr :: rest, false, currColumn, retVal =>
      if curr = ',' then scanLine rest false [] (retVal ++ [currColumn])
      else if curr = '"' then scanLine rest true currColumn retVal
      else scanLine rest false (currColumn ++ [curr]) retVal

/-- One step of the re-projection loop of `getRow` for raw column `ii` with raw value `field`. -/
def projectField (mergedData : TMergedType) (ii : Nat) (field : QString)
    (realRetVal : List (Nat × QStringList)) : List (Nat × QStringList) :=
  match mapFind ii mergedData with
  | none => mapInsert ii [field] realRetVal
  | some (newCol, posInList) =>
      let tmp := (mapFind newCol realRetVal).getD []
      let tmp := tmp ++ List.replicate (posInList + 1 - tmp.length) []
      mapInsert newCol (tmp.set posInList field) realRetVal

/-- The re-projection loop of `getRow` over the raw fields from raw column `ii` on. -/
def projectFields (mergedData : TMergedType) :
    Nat → QStringList → List (Nat × QStringList) → List (Nat × QStringList)
  | _, [], realRetVal => realRetVal
  | ii, field :: rest, realRetVal =>
      projectFields mergedData (ii + 1) rest (projectField mergedData ii field realRetVal)

/-- `SFileData::getRow`: `none` is the empty optional, the flag of the pair is always `true`. -/
def getRow (currLine : QString) (mergedData : TMergedType) : Option (Bool × QStringList) :=
  let currLine := trimmed currLine
  if currLine.isEmpty then none
  else
    let retVal := scanLine currLine false [] []
    if !mergedData.isEmpty then
      some (true, (projectFields mergedData 0 retVal []).map (fun ii => trimmed (join " ".toList ii.2)))
    else
      some (true, retVal)

/-! ## Datasets -/

/-- One side of the comparison: an `SFileData` bound to a `QTableWidget`. -/
structure SFileData (H : Type) where
  /-- Texts of the horizontal header items of the table widget; `columnCount()` is their number. -/
  header : QStringList := []
  /-- Texts of the items of the table widget, row by row; `rowCount()` is the number of rows. -/
  rows : List QStringList := []
  /-- Number shown in the sub-count line edit, `none` when it is empty. -/
  fSubCount : Option Int := none
  /-- Number shown in the total-count line edit, `none` when it is empty. -/
  fTotalCount : Option Int := none
  /-- Entries of the ignored-rows list: line number and raw line. -/
  fIgnoredRows : List (Nat × QString) := []
  /-- Row ↦ fingerprint, a `std::map`. -/
  fRowToMD5 : List (Nat × H) := []
  /-- Fingerprint ↦ row, a `std::unordered_map`. -/
  fMD5ToRow : List (H × Nat) := []
  /-- Header name ↦ column (the header item stored with it is the one of that column). -/
  fHeaderInfo : List (QString × Nat) := []
  /-- Extra column ↦ default text, a `std::map`. -/
  fExtraUnimportantCols : List (Nat × QString) := []
  /-- Important columns, a `std::set`. -/
  fImportantCols : List Nat := []

/-- The merged side: an `SFileData` bound to a `CMergedTableModel`. -/
structure SMergedData where
  /-- Header of the model, `CMergedTableModel::fHeaderInfo`. -/
  fHeaderInfo : QStringList := []
  /-- Rows of the model with their `leftOnly` and `rightOnly` flags, `CMergedTableModel::fData`. -/
  fData : List (QStringList × Bool × Bool) := []
  /-- Number shown in the sub-count line edit, `none` when it is empty. -/
  fSubCount : Option Int := none
  /-- Number shown in the total-count line edit, `none` when it is empty. -/
  fTotalCount : Option Int := none

namespace SFileData

variable {H : Type}

/-- `SFileData::rowCount`. -/
def rowCount (d : SFileData H) : Nat := d.rows.length

/-- `SFileData::columnCount`. -/
def columnCount (d : SFileData H) : Nat := d.header.length

/-- `SFileData::itemText`: the text of the item, empty when the table has no such item. -/
def itemText (d : SFileData H) (row : Int) (col : Nat) : QString :=
  if 0 ≤ row then (d.rows.getD row.toNat []).getD col [] else []

/-- `SFileData::getHeader( pos )`: the header text without one trailing `*`. -/
def getHeader (d : SFileData H) (pos : Nat) : QString :=
  let retVal := d.header.getD pos []
  if endsWithStar retVal then left (retVal.length - 1) retVal else retVal

/-- `SFileData::getHeader()`. -/
def getHeaders (d : SFileData H) : QStringList :=
  (List.range d.columnCount).map d.getHeader

/-- `SFileData::getData( row, col )`. -/
def getData (d : SFileData H) (row : Int) (col : Nat) : QString :=
  let retVal := if row = -1 then [] else d.itemText row col
  if retVal.isEmpty then
    match mapFind col d.fExtraUnimportantCols with
    | some dflt => dflt
    | none => retVal
  else retVal

/-- `SFileData::getData( row, cols )`, for the columns of a set or the keys of a map. -/
def getDataCols (d : SFileData H) (row : Int) (cols : List Nat) : QStringList :=
  if row ≥ (d.rowCount : Int) then [] else cols.map (d.getData row)

/-- `SFileData::getRowData`. -/
def getRowData (d : SFileData H) (row : Int) : QStringList :=
  d.getDataCols row d.fImportantCols

/-- `SFileData::getExtraData`. -/
def getExtraData (d : SFileData H) (row : Int) : QStringList :=
  d.getDataCols row (d.fExtraUnimportantCols.map Prod.fst)

/-- `SFileData::getEmptyExtraData`. -/
def getEmptyExtraData (d : SFileData H) : QStringList :=
  d.getDataCols (-1) (d.fExtraUnimportantCols.map Prod.fst)

/-- `SFileData::getColumns`. -/
def getColumns (d : SFileData H) : QStringList := d.fImportantCols.map d.getHeader

/-- `SFileData::getExtraColumns`. -/
def getExtraColumns (d : SFileData H) : QStringList :=
  d.fExtraUnimportantCols.map (fun ii => d.getHeader ii.1)

/-- `SFileData::clear`. -/
def clear (d : SFileData H) : SFileData H :=
  { d with header := [], rows := [], fSubCount := none, fTotalCount := none, fIgnoredRows := [],
           fRowToMD5 := [], fMD5ToRow := [], fHeaderInfo := [], fImportantCols := [] }

/-- `SFileData::computeHeaderInfo`. -/
def computeHeaderInfo (d : SFileData H) : SFileData H :=
  { d with fHeaderInfo :=
      (List.range d.columnCount).foldl (fun m ii => mapInsert (d.getHeader ii) ii m) d.fHeaderInfo }

/-- The list `importantData` built for row `ii` in `computeMD5s( label, parent )`. -/
def importantData (d : SFileData H) (ii : Nat) : QStringList :=
  d.fImportantCols.foldl
    (fun acc jj =>
      let text := d.itemText ii jj
      if !text.isEmpty then acc ++ [left 16 text] else acc) []

/-- The value `md5 = NSABUtils::getMd5( importantData )` of row `ii` in
`computeMD5s( label, parent )`. -/
def fingerprint (getMd5 : QStringList → H) (d : SFileData H) (ii : Nat) : H :=
  getMd5 (d.importantData ii)

/-- Body of the row loop of `computeMD5s( label, parent )` for row `ii`, on the pair of maps
(`fMD5ToRow`, `fRowToMD5`). -/
def fingerprintRow [DecidableEq H] (getMd5 : QStringList → H) (d : SFileData H)
    (m : List (H × Nat) × List (Nat × H)) (ii : Nat) : List (H × Nat) × List (Nat × H) :=
  (umapInsert (fingerprint getMd5 d ii) ii m.1, mapInsert ii (fingerprint getMd5 d ii) m.2)

/-- `SFileData::computeMD5s( label, parent )`: the fingerprints of all rows. -/
def computeMD5s [DecidableEq H] (getMd5 : QStringList → H) (d : SFileData H) : SFileData H :=
  { d with
    fMD5ToRow :=
      ((List.range d.rowCount).foldl (fingerprintRow getMd5 d) (d.fMD5ToRow, d.fRowToMD5)).1,
    fRowToMD5 :=
      ((List.range d.rowCount).foldl (fingerprintRow getMd5 d) (d.fMD5ToRow, d.fRowToMD5)).2 }

/-- Body of the loop of the static `computeMD5s( lhs, rhs, parent )` for the entry `ii` of
`lhs.fHeaderInfo`: a header name found in `rhs.fHeaderInfo` makes both columns important and
sets both header texts to the text of the `lhs` header with a `*` appended. -/
def markImportant (p : SFileData H × SFileData H) (ii : QString × Nat) :
    SFileData H × SFileData H :=
  match mapFind ii.1 p.2.fHeaderInfo with
  | none => p
  | some pos =>
      ({ p.1 with fImportantCols := setInsert ii.2 p.1.fImportantCols,
                  header := p.1.header.set ii.2 (p.1.header.getD ii.2 [] ++ ['*']) },
       { p.2 with fImportantCols := setInsert pos p.2.fImportantCols,
                  header := p.2.header.set pos (p.1.header.getD ii.2 [] ++ ['*']) })

/-- The loop over `lhs.fHeaderInfo` of the static `computeMD5s( lhs, rhs, parent )`. -/
def computeImportantColumns (lhs rhs : SFileData H) : SFileData H × SFileData H :=
  lhs.fHeaderInfo.foldl markImportant (lhs, rhs)

/-- The static `SFileData::computeMD5s( lhs, rhs, parent )`. -/
def computeMD5sBoth [DecidableEq H] (getMd5 : QStringList → H) (lhs rhs : SFileData H) :
    SFileData H × SFileData H :=
  let p := computeImportantColumns lhs rhs
  (computeMD5s getMd5 p.1, computeMD5s getMd5 p.2)

/-- The pair the first loop of `mergeData` stores for row `row` of `lhs` with fingerprint `md5`:
the row found for `md5` in `rhs.fMD5ToRow`, or `-1`. -/
def lhsPair [DecidableEq H] (rhs : SFileData H) (row : Nat) (md5 : H) : Int × Int :=
  match mapFind md5 rhs.fMD5ToRow with
  | none => ((row : Int), -1)
  | some pos => ((row : Int), (pos : Int))

/-- Body of the first loop of `mergeData` for the entry `ii` of `lhs.fRowToMD5`. -/
def mergeLhsRow [DecidableEq H] (rhs : SFileData H) (mergedData : List (Int × (Int × Int)))
    (ii : Nat × H) : List (Int × (Int × Int)) :=
  multimapInsert (ii.1 : Int) (lhsPair rhs ii.1 ii.2) mergedData

/-- Body of the second loop of `mergeData` for the entry `ii` of `rhs.fRowToMD5`. -/
def mergeRhsRow [DecidableEq H] (lhs : SFileData H) (mergedData : List (Int × (Int × Int)))
    (ii : Nat × H) : List (Int × (Int × Int)) :=
  match mapFind ii.2 lhs.fMD5ToRow with
  | none => multimapInsert (ii.1 : Int) (-1, (ii.1 : Int)) mergedData
  | some _ => mergedData

/-- The two loops of `mergeData` that fill the multimap `mergedData`
(key ↦ (row of `lhs`, row of `rhs`), `-1` for an absent row). -/
def buildMergedData [DecidableEq H] (lhs rhs : SFileData H) : List (Int × (Int × Int)) :=
  rhs.fRowToMD5.foldl (mergeRhsRow lhs) (lhs.fRowToMD5.foldl (mergeLhsRow rhs) [])

/-- The flag `leftOnly` of `mergeData`. -/
def isLeftOnly (currMergeInfo : Int × Int) : Bool :=
  currMergeInfo.1 != -1 && currMergeInfo.2 == -1

/-- The flag `rightOnly` of `mergeData`. -/
def isRightOnly (currMergeInfo : Int × Int) : Bool :=
  currMergeInfo.1 == -1 && currMergeInfo.2 != -1

/-- The flag `both` of `mergeData`. -/
def isBoth (currMergeInfo : Int × Int) : Bool :=
  currMergeInfo.1 != -1 && currMergeInfo.2 != -1

/-- The list `baseData` of `mergeData` for one entry of `mergedData`. -/
def baseData (lhs rhs : SFileData H) (currMergeInfo : Int × Int) : QStringList :=
  let baseData : QStringList :=
    if isLeftOnly currMergeInfo || isBoth currMergeInfo then lhs.getRowData currMergeInfo.1 else []
  if isRightOnly currMergeInfo || isBoth currMergeInfo then
    if isRightOnly currMergeInfo then baseData ++ rhs.getRowData currMergeInfo.2 else baseData
  else baseData

/-- The list `extraData` of `mergeData` for one entry of `mergedData`. -/
def extraData (lhs rhs : SFileData H) (currMergeInfo : Int × Int) : QStringList :=
  let extraData : QStringList :=
    if isLeftOnly currMergeInfo || isBoth currMergeInfo then lhs.getExtraData currMergeInfo.1
    else lhs.getEmptyExtraData
  if isRightOnly currMergeInfo || isBoth currMergeInfo then
    extraData ++ rhs.getExtraData currMergeInfo.2
  else extraData ++ rhs.getEmptyExtraData

/-- State of the last loop of `mergeData`: the rows added to the model and the counters. -/
structure SMergeLoop where
  /-- Rows of the merged model. -/
  fData : List (QStringList × Bool × Bool)
  /-- Counter `lhsOnlyCount`. -/
  lhsOnlyCount : Int
  /-- Counter `rhsOnlyCount`. -/
  rhsOnlyCount : Int
  /-- Counter `bothCount`. -/
  bothCount : Int

/-- The row `addRow` receives for one entry of `mergedData`: `baseData + extraData` with the
flags `leftOnly` and `rightOnly`. -/
def mergedRow (lhs rhs : SFileData H) (currMergeInfo : Int × Int) : QStringList × Bool × Bool :=
  (baseData lhs rhs currMergeInfo ++ extraData lhs rhs currMergeInfo,
    isLeftOnly currMergeInfo, isRightOnly currMergeInfo)

/-- Body of the last loop of `mergeData` for the entry `ii` of `mergedData`. -/
def addMergedRow (lhs rhs : SFileData H) (st : SMergeLoop) (ii : Int × (Int × Int)) :
    SMergeLoop :=
  { fData := st.fData ++ [mergedRow lhs rhs ii.2],
    lhsOnlyCount := if isLeftOnly ii.2 then st.lhsOnlyCount + 1 else st.lhsOnlyCount,
    rhsOnlyCount := if isRightOnly ii.2 then st.rhsOnlyCount + 1 else st.rhsOnlyCount,
    bothCount := if isBoth ii.2 then st.bothCount + 1 else st.bothCount }

/-- The last loop of `mergeData`, over the entries of `mergedData` in multimap order, started
with the rows the model holds and the three counters at zero. -/
def loadMergedData (lhs rhs : SFileData H) (mergedData : List (Int × (Int × Int)))
    (fData : List (QStringList × Bool × Bool)) : SMergeLoop :=
  mergedData.foldl (addMergedRow lhs rhs)
    { fData := fData, lhsOnlyCount := 0, rhsOnlyCount := 0, bothCount := 0 }

/-- Result of `mergeData`: the two sides and the merged side as the call leaves them. -/
structure SMergeResult (H : Type) where
  /-- The left side. -/
  lhs : SFileData H
  /-- The right side. -/
  rhs : SFileData H
  /-- The merged side. -/
  retVal : SMergedData

/-- Order of two entries of the multimap `mergedData`: the smaller key first and, for the same
key, the entry with a row of `lhs` before the entry of a row only `rhs` has. -/
def mergedBefore (x y : Int × (Int × Int)) : Prop :=
  x.1 < y.1 ∨ (x.1 = y.1 ∧ x.2.1 ≠ -1 ∧ y.2.1 = -1)

instance (x y : Int × (Int × Int)) : Decidable (mergedBefore x y) := by
  unfold mergedBefore; infer_instance

/-- Words of the spec: one pair for every row of `lhs` in load order, its partner the row of
`rhs` found for its fingerprint (class Both) or `-1` (class LeftOnly). -/
def lhsPairs [DecidableEq H] (getMd5 : QStringList → H) (lhs rhs : SFileData H) :
    List (Int × Int) :=
  (List.range lhs.rowCount).map (fun row => lhsPair rhs row (fingerprint getMd5 lhs row))

/-- Words of the spec: the rows of `rhs`, in load order, whose fingerprint is no key of
`lhs.fMD5ToRow`. -/
def rhsOnlyRows [DecidableEq H] (getMd5 : QStringList → H) (lhs rhs : SFileData H) : List Nat :=
  (List.range rhs.rowCount).filter
    (fun row => (mapFind (fingerprint getMd5 rhs row) lhs.fMD5ToRow).isNone)

/-- Words of the spec: one pair of class RightOnly for every row of `rhsOnlyRows`. -/
def rhsPairs [DecidableEq H] (getMd5 : QStringList → H) (lhs rhs : SFileData H) :
    List (Int × Int) :=
  (rhsOnlyRows getMd5 lhs rhs).map (fun (row : Nat) => ((-1 : Int), (row : Int)))

/-- `SFileData::mergeData`. -/
def mergeData [DecidableEq H] (getMd5 : QStringList → H) (lhs rhs : SFileData H)
    (retVal : SMergedData) : SMergeResult H :=
  let p := computeMD5sBoth getMd5 lhs rhs
  let lhs := p.1
  let rhs := p.2
  let mergedData := buildMergedData lhs rhs
  let header := lhs.getColumns ++ lhs.getExtraColumns ++ rhs.getExtraColumns
  let st := loadMergedData lhs rhs mergedData retVal.fData
  { lhs := { lhs with fSubCount := some st.lhsOnlyCount },
    rhs := { rhs with fSubCount := some st.lhsOnlyCount },
    retVal := { retVal with fHeaderInfo := header, fData := st.fData,
                            fSubCount := some st.bothCount,
                            fTotalCount := some (st.fData.length : Int) } }

end SFileData

/-! ## Loading a file, `SFileData::loadFile` -/

/-- `SFileData::isIgnoredRow`. -/
def isIgnoredRow : QStringList → Bool
  | [] => true
  | ii :: rest => if ii = "0".toList || ii.isEmpty then isIgnoredRow rest else false

/-- State of the header loops of `loadFile`. -/
structure SHeaderState where
  /-- The working header `headerRow`. -/
  headerRow : QStringList
  /-- The merge plan `merged`. -/
  merged : TMergedType
  /-- The table `fExtraUnimportantCols` of the dataset. -/
  fExtraUnimportantCols : List (Nat × QString)

/-- Body of the first header loop of `loadFile` for column `ii`. -/
def classifyColumn (st : SHeaderState) (ii : Nat) : SHeaderState :=
  if toLower (st.headerRow.getD ii []) = "first name".toList then
    { st with merged := umapInsert ii (ii, 0) st.merged,
              headerRow := st.headerRow.set ii "Name".toList }
  else if toLower (st.headerRow.getD ii []) = "remarks".toList then
    { st with fExtraUnimportantCols := mapInsert ii [] st.fExtraUnimportantCols }
  else if toLower (st.headerRow.getD ii []) = "call type".toList then
    { st with fExtraUnimportantCols := mapInsert ii "Private Call".toList st.fExtraUnimportantCols }
  else if toLower (st.headerRow.getD ii []) = "call alert".toList then
    { st with fExtraUnimportantCols := mapInsert ii "None".toList st.fExtraUnimportantCols }
  else st

/-- The second header loop of `loadFile`: with a non-empty merge plan, the first column named
`last name` joins the group of `*merged.begin()` (the head of the association list; the plan has
one entry when the header has one `first name` column) and leaves the working header. -/
def mergeLastName (st : SHeaderState) : SHeaderState :=
  match st.merged with
  | [] => st
  | first :: _ =>
      match st.headerRow.findIdx? (fun name => toLower name = "last name".toList) with
      | none => st
      | some ii =>
          { st with merged := umapInsert ii (first.2.1, 1) st.merged,
                    headerRow := st.headerRow.eraseIdx ii }

/-- The two header loops of `loadFile` on the tokenized header line; the table
`fExtraUnimportantCols` of the dataset is extended, never reset. -/
def classifyHeader (headerRow : QStringList) (fExtraUnimportantCols : List (Nat × QString)) :
    SHeaderState :=
  mergeLastName ((List.range headerRow.length).foldl classifyColumn
    { headerRow := headerRow, merged := [], fExtraUnimportantCols := fExtraUnimportantCols })

/-- The loop `while ( firstLine.isEmpty() ) firstLine = ts.readLine().trimmed()`: at the end of
the stream `readLine` returns an empty string and the loop goes on; `none` when `fuel`
iterations have not found a line. The result is the line and the rest of the stream. -/
def findFirstLine : Nat → List QString → Option (QString × List QString)
  | 0, _ => none
  | fuel + 1, ts =>
      if (trimmed (ts.headD [])).isEmpty then findFirstLine fuel ts.tail
      else some (trimmed (ts.headD []), ts.tail)

/-- State of the row loop of `loadFile`. -/
structure SRowState where
  /-- Rows stored in the table so far; `rowNum` is their number. -/
  rows : List QStringList
  /-- Counter `lineNum`. -/
  lineNum : Nat
  /-- Entries added to the ignored-rows list. -/
  fIgnoredRows : List (Nat × QString)

/-- The row loop of `loadFile` over the remaining lines of the stream: the flag is `false`
when a row has not as many fields as the working header. -/
def loadRows (merged : TMergedType) (columnCount : Nat) : List QString → SRowState → Bool × SRowState
  | [], st => (true, st)
  | currLine :: ts, st =>
      match getRow currLine merged with
      | none => loadRows merged columnCount ts st
      | some (ok, currRowData) =>
          if !ok then (false, st)
          else if isIgnoredRow currRowData then
            loadRows merged columnCount ts
              { st with lineNum := st.lineNum + 1,
                        fIgnoredRows := st.fIgnoredRows ++ [(st.lineNum + 1, currLine)] }
          else if currRowData.length ≠ columnCount then (false, { st with lineNum := st.lineNum + 1 })
          else
            loadRows merged columnCount ts
              { st with lineNum := st.lineNum + 1, rows := st.rows ++ [currRowData] }

/-- `SFileData::loadFile` on the lines of a file that could be opened (release build). The
result is `none` when the search for the header line has not ended within `fuel` iterations;
otherwise the returned flag and the dataset as the call leaves it. -/
def SFileData.loadFile {H : Type} (fuel : Nat) (lines : List QString) (d : SFileData H) :
    Option (Bool × SFileData H) :=
  match findFirstLine fuel lines with
  | none => none
  | some (firstLine, ts) =>
      match getRow firstLine [] with
      | none => some (false, d)
      | some (ok, headerRow) =>
          if !ok || headerRow.isEmpty then some (false, d)
          else
            let hs := classifyHeader headerRow d.fExtraUnimportantCols
            let res := loadRows hs.merged hs.headerRow.length ts
              { rows := [], lineNum := 0, fIgnoredRows := d.fIgnoredRows }
            if res.1 then
              let d1 : SFileData H :=
                { d with header := hs.headerRow, rows := res.2.rows,
                         fIgnoredRows := res.2.fIgnoredRows,
                         fExtraUnimportantCols := hs.fExtraUnimportantCols }
              let d2 := d1.computeHeaderInfo
              some (true, { d2 with fTotalCount := some (d2.rowCount : Int) })
            else
              some (false,
                { d with header := hs.headerRow,
                         rows := res.2.rows ++
                           List.replicate (lines.length - 1 - res.2.rows.length) [],
                         fIgnoredRows := res.2.fIgnoredRows,
                         fExtraUnimportantCols := hs.fExtraUnimportantCols })

/-! ## Merge plans -/

/-- A merge plan whose logical columns are raw columns of the plan: every group is placed at the
index of one of its own raw columns, as in the plans `loadFile` builds. -/
def planClosed (mergedData : TMergedType) : Prop :=
  ∀ k newCol posInList, mapFind k mergedData = some (newCol, posInList) →
    mapFind newCol mergedData ≠ none

/-! ## Saving, `SFileData::save` and `SFileData::writeRow` -/

/-- `QString::number( n )` of a row number: its decimal digits. -/
def number (n : Nat) : QString := Nat.toDigits 10 n

/-- `SFileData::writeRow`: the line sent to the stream, every field wrapped in double quotes and
the fields joined by commas. -/
def writeRow (rowData : QStringList) : QString :=
  join [','] (rowData.map (fun ii => '"' :: (ii ++ ['"'])))

/-- `SFileData::save` on the merged side: the lines written for the header of the model and the
rows of the proxy model in their presentation order. -/
def saveLines (header : QStringList) (proxyRows : List QStringList) : List QString :=
  writeRow ("No.".toList :: header) ::
    proxyRows.enum.map (fun ii => writeRow (number (ii.1 + 1) :: ii.2))

/-! ## The window, `CMainWindow` -/

/-- `SFileData::clear` on the merged side. -/
def SMergedData.clear (_d : SMergedData) : SMergedData :=
  { fHeaderInfo := [], fData := [], fSubCount := none, fTotalCount := none }

/-- The three datasets of `CMainWindow`. -/
structure CMainWindow (H : Type) where
  /-- The left side. -/
  fLHS : SFileData H := {}
  /-- The right side. -/
  fRHS : SFileData H := {}
  /-- The merged side. -/
  fMerged : SMergedData := {}

/-- `CMainWindow::clear`. -/
def CMainWindow.clear {H : Type} (w : CMainWindow H) : CMainWindow H :=
  { fLHS := w.fLHS.clear, fRHS := w.fRHS.clear, fMerged := w.fMerged.clear }

/-- `CMainWindow::loadFiles` on the lines of the two files: `none` when a `loadFile` has not
ended within `fuel` iterations of its header search; a failed load leaves the cleared window. -/
def CMainWindow.loadFiles {H : Type} [DecidableEq H] (getMd5 : QStringList → H) (fuel : Nat)
    (lhsFile rhsFile : List QString) (w : CMainWindow H) : Option (CMainWindow H) :=
  match w.clear.fLHS.loadFile fuel lhsFile with
  | none => none
  | some (false, lhs) => some (CMainWindow.clear { w.clear with fLHS := lhs })
  | some (true, lhs) =>
      match w.clear.fRHS.loadFile fuel rhsFile with
      | none => none
      | some (false, rhs) => some (CMainWindow.clear { w.clear with fLHS := lhs, fRHS := rhs })
      | some (true, rhs) =>
          some { fLHS := (SFileData.mergeData getMd5 lhs rhs w.clear.fMerged).lhs,
                 fRHS := (SFileData.mergeData getMd5 lhs rhs w.clear.fMerged).rhs,
                 fMerged := (SFileData.mergeData getMd5 lhs rhs w.clear.fMerged).retVal }

/-! ## Freshly loaded datasets -/

/-- A freshly loaded dataset, as `loadFile` leaves a cleared `SFileData`: its header info is the
one `computeHeaderInfo` builds from the header in an empty map, and it has no important column
yet. -/
def SFileData.freshlyLoaded {H : Type} (d : SFileData H) : Prop :=
  d.fHeaderInfo
      = (List.range d.columnCount).foldl (fun m ii => mapInsert (d.getHeader ii) ii m) [] ∧
    d.fImportantCols = []

instance {H : Type} (d : SFileData H) : Decidable d.freshlyLoaded := by
  unfold SFileData.freshlyLoaded; infer_instance

/-! ## Words of the spec on fingerprints -/

/-- Words of the spec: the values of the important columns of row `ii` taken in ascending column
index, without the empty ones, each cut to its first 16 characters. -/
def SFileData.truncatedValues {H : Type} (d : SFileData H) (ii : Nat) : QStringList :=
  ((((d.fImportantCols.insertionSort (· ≤ ·)).map (d.itemText ii)).filter
    (fun text => !text.isEmpty))).map (left 16)

/-! ## Example data -/

/-- Stand-in for the content hash in the examples: the hashed list itself, which is a hash
without collisions. -/
def idealMd5 : QStringList → QStringList := id

/-- The dataset `loadFile` leaves in a new `SFileData` for the given lines (the header is the
first line); an empty dataset when loading fails. -/
def loaded (lines : List String) : SFileData QStringList :=
  match SFileData.loadFile 1 (lines.map String.toList) {} with
  | some (true, d) => d
  | _ => {}

/-! ## Lemmas on the tokenizer -/

theorem join_cons_of_ne_nil (sep s : QString) (l : QStringList) (h : l ≠ []) :
    join sep (s :: l) = s ++ sep ++ join sep l := by
  cases l with
  | nil => exact absurd rfl h
  | cons t rest => rfl

theorem scanLine_acc (rest : QString) :
    ∀ (inQuote : Bool) (cur : QString) (acc : QStringList),
      scanLine rest inQuote cur acc = acc ++ scanLine rest inQuote cur [] := by
  induction rest with
  | nil => intro inQuote cur acc; simp [scanLine]
  | cons c rest ih =>
    intro inQuote cur acc
    cases inQuote with
    | true =>
      by_cases hc : c = '"'
      · simp only [scanLine, hc, if_true]; exact ih _ _ _
      · simp only [scanLine, hc, if_false]; exact ih _ _ _
    | false =>
      by_cases hcomma : c = ','
      · simp only [scanLine, hcomma, if_true]
        rw [ih false [] (acc ++ [cur]), ih false [] ([] ++ [cur])]
        simp
      · by_cases hc : c = '"'
        · simp only [scanLine, hcomma, hc, if_true, if_false]; exact ih _ _ _
        · simp only [scanLine, hcomma, hc, if_false]; exact ih _ _ _

theorem scanLine_quote_free (rest : QString) (hq : '"' ∉ rest) :
    ∀ (cur : QString),
      (scanLine rest false cur []).length = rest.count ',' + 1 ∧
      join [','] (scanLine rest false cur []) = cur ++ rest ∧
      (',' ∉ cur → ∀ f ∈ scanLine rest false cur [], ',' ∉ f) := by
  induction rest with
  | nil => intro cur; simp [scanLine, join]
  | cons c rest ih =>
    intro cur
    have hq' : '"' ∉ rest := fun h => hq (List.mem_cons_of_mem _ h)
    have hc : c ≠ '"' := fun h => hq (by simp [h])
    by_cases hcomma : c = ','
    · obtain ⟨h2, h3, h4⟩ := ih hq' []
      have hs : scanLine (c :: rest) false cur [] = cur :: scanLine rest false [] [] := by
        simp only [scanLine, hcomma, if_true]
        rw [scanLine_acc]; simp
      have hne : scanLine rest false [] [] ≠ [] := by
        intro h; rw [h] at h2; simp at h2
      refine ⟨?_, ?_, ?_⟩
      · rw [hs]; simp [hcomma, h2]
      · rw [hs, join_cons_of_ne_nil _ _ _ hne, h3, hcomma]; simp
      · intro hcur f hf
        rw [hs] at hf
        rcases List.mem_cons.1 hf with h | h
        · rw [h]; exact hcur
        · exact h4 (by simp) f h
    · obtain ⟨h2, h3, h4⟩ := ih hq' (cur ++ [c])
      have hs : scanLine (c :: rest) false cur [] = scanLine rest false (cur ++ [c]) [] := by
        simp only [scanLine, hcomma, hc, if_false]
      refine ⟨?_, ?_, ?_⟩
      · rw [hs, h2, List.count_cons_of_ne (Ne.symm hcomma)]
      · rw [hs, h3]; simp
      · intro hcur
        rw [hs]
        apply h4
        intro h
        rcases List.mem_append.1 h with h | h
        · exact hcur h
        · simp at h; exact hcomma h.symm

theorem scanLine_quoted (s : QString) (hs : '"' ∉ s) (t : QString) :
    ∀ (cur : QString) (acc : QStringList),
      scanLine (s ++ '"' :: ',' :: t) true cur acc = scanLine t false [] (acc ++ [cur ++ s]) := by
  induction s with
  | nil =>
    intro cur acc
    have h1 : quoteCloses (',' :: t) = true := by
      simp [quoteCloses, isSpace]
    simp [scanLine, h1]
  | cons c s ih =>
    intro cur acc
    have hq' : '"' ∉ s := fun h => hs (List.mem_cons_of_mem _ h)
    have hc : c ≠ '"' := fun h => hs (by simp [h])
    have h1 : scanLine ((c :: s) ++ '"' :: ',' :: t) true cur acc
        = scanLine (s ++ '"' :: ',' :: t) true (cur ++ [c]) acc := by
      simp only [List.cons_append, scanLine, hc, if_false]
      rfl
    rw [h1, ih hq']; simp

theorem not_mem_trimmed (c : Char) (s : QString) (h : c ∉ s) : c ∉ trimmed s := by
  intro hm
  unfold trimmed at hm
  rw [List.mem_reverse] at hm
  have h1 := (List.dropWhile_sublist isSpace).subset hm
  rw [List.mem_reverse] at h1
  exact h ((List.dropWhile_sublist isSpace).subset h1)

theorem trimmed_eq_rdropWhile (s : QString) :
    trimmed s = (s.dropWhile isSpace).rdropWhile isSpace := rfl

theorem rdropWhile_append_comma (a t : QString) :
    (a ++ ',' :: t).rdropWhile isSpace = a ++ ',' :: t.rdropWhile isSpace := by
  induction t using List.reverseRecOn with
  | nil =>
    rw [List.rdropWhile_nil, List.rdropWhile_concat_neg]
    simp [isSpace]
  | append_singleton t x ih =>
    have h : a ++ ',' :: (t ++ [x]) = (a ++ ',' :: t) ++ [x] := by simp
    rw [h]
    by_cases hx : isSpace x = true
    · rw [List.rdropWhile_concat_pos _ _ _ hx, List.rdropWhile_concat_pos _ _ _ hx, ih]
    · rw [List.rdropWhile_concat_neg _ _ _ hx, List.rdropWhile_concat_neg _ _ _ hx]
      simp

theorem rdropWhile_eq_of_trimmed_eq (t : QString) (h : trimmed t = t) :
    t.rdropWhile isSpace = t := by
  have h1 : (t.dropWhile isSpace).length ≤ t.length := (List.dropWhile_sublist isSpace).length_le
  have h2 : ((t.dropWhile isSpace).rdropWhile isSpace).length ≤ (t.dropWhile isSpace).length :=
    (List.rdropWhile_prefix isSpace _).length_le
  rw [trimmed_eq_rdropWhile] at h
  have h3 : t.dropWhile isSpace = t :=
    (List.dropWhile_sublist isSpace).eq_of_length_le (by rw [h] at h2; exact h2)
  rw [h3] at h
  exact h

/-! ## Lemmas on the containers -/

theorem mapFind_mapInsert {κ β : Type} [LinearOrder κ] [DecidableEq κ] (j k : κ) (v : β)
    (l : List (κ × β)) :
    mapFind j (mapInsert k v l) = if j = k then some v else mapFind j l := by
  induction l with
  | nil =>
    by_cases hj : j = k
    · simp [mapInsert, mapFind, hj]
    · simp [mapInsert, mapFind, hj]
  | cons e rest ih =>
    obtain ⟨k', v'⟩ := e
    unfold mapInsert
    by_cases h1 : k < k'
    · simp only [h1, if_true]
      by_cases hj : j = k
      · simp [mapFind, hj]
      · simp [mapFind, hj]
    · simp only [h1, if_false]
      by_cases h2 : k = k'
      · simp only [h2, if_true]
        by_cases hj : j = k'
        · simp [mapFind, hj]
        · simp [mapFind, hj]
      · simp only [h2, if_false]
        by_cases hj : j = k
        · subst hj
          simp [mapFind, h2, ih]
        · by_cases hjk : j = k'
          · subst hjk
            simp [mapFind, hj]
          · simp [mapFind, hjk, ih, hj]

theorem mapFind_umapInsert {κ β : Type} [DecidableEq κ] (j k : κ) (v : β) (l : List (κ × β)) :
    mapFind j (umapInsert k v l) = if j = k then some v else mapFind j l := by
  induction l with
  | nil => simp [umapInsert, mapFind]
  | cons e rest ih =>
    obtain ⟨k', v'⟩ := e
    unfold umapInsert
    by_cases h2 : k = k'
    · simp only [h2, if_true]
      by_cases hj : j = k'
      · simp [mapFind, hj]
      · simp [mapFind, hj]
    · simp only [h2, if_false]
      by_cases hj : j = k
      · subst hj
        simp [mapFind, h2, ih]
      · by_cases hjk : j = k'
        · subst hjk
          simp [mapFind, hj]
        · simp [mapFind, hjk, ih, hj]

theorem mem_of_mapFind {κ β : Type} [DecidableEq κ] (k : κ) (v : β) (l : List (κ × β))
    (h : mapFind k l = some v) : (k, v) ∈ l := by
  induction l with
  | nil => simp [mapFind] at h
  | cons e rest ih =>
    obtain ⟨k', v'⟩ := e
    by_cases hk : k = k'
    · simp [mapFind, hk] at h
      simp [hk, h]
    · simp [mapFind, hk] at h
      exact List.mem_cons_of_mem _ (ih h)

theorem mapFind_of_mem_of_nodup {κ β : Type} [DecidableEq κ] (k : κ) (v : β) (l : List (κ × β))
    (hn : (l.map Prod.fst).Nodup) (h : (k, v) ∈ l) : mapFind k l = some v := by
  induction l with
  | nil => simp at h
  | cons e rest ih =>
    obtain ⟨k', v'⟩ := e
    simp only [List.map_cons, List.nodup_cons] at hn
    rcases List.mem_cons.1 h with h | h
    · simp at h; simp [mapFind, h.1, h.2]
    · have hk : k ≠ k' := by
        intro hk
        apply hn.1
        rw [← hk]
        exact List.mem_map_of_mem Prod.fst h
      simp only [mapFind, hk, if_false]
      exact ih hn.2 h

theorem mem_mapInsert {κ β : Type} [LinearOrder κ] (e : κ × β) (k : κ) (v : β) (l : List (κ × β))
    (h : e ∈ mapInsert k v l) : e = (k, v) ∨ e ∈ l := by
  induction l with
  | nil => simp [mapInsert] at h; exact Or.inl h
  | cons e' rest ih =>
    obtain ⟨k', v'⟩ := e'
    unfold mapInsert at h
    by_cases h1 : k < k'
    · simp only [h1, if_true] at h
      rcases List.mem_cons.1 h with h | h
      · exact Or.inl h
      · exact Or.inr h
    · simp only [h1, if_false] at h
      by_cases h2 : k = k'
      · simp only [h2, if_true] at h
        rcases List.mem_cons.1 h with h | h
        · exact Or.inl (by rw [h, h2])
        · exact Or.inr (List.mem_cons_of_mem _ h)
      · simp only [h2, if_false] at h
        rcases List.mem_cons.1 h with h | h
        · exact Or.inr (by rw [h]; exact List.mem_cons_self _ _)
        · rcases ih h with h | h
          · exact Or.inl h
          · exact Or.inr (List.mem_cons_of_mem _ h)

theorem sorted_mapInsert {κ β : Type} [LinearOrder κ] (k : κ) (v : β) (l : List (κ × β))
    (hs : (l.map Prod.fst).Sorted (· < ·)) : ((mapInsert k v l).map Prod.fst).Sorted (· < ·) := by
  induction l with
  | nil => simp [mapInsert]
  | cons e' rest ih =>
    obtain ⟨k', v'⟩ := e'
    simp only [List.map_cons, List.sorted_cons] at hs
    unfold mapInsert
    by_cases h1 : k < k'
    · simp only [h1, if_true, List.map_cons, List.sorted_cons]
      refine ⟨?_, hs⟩
      intro b hb
      rcases List.mem_cons.1 hb with hb | hb
      · rw [hb]; exact h1
      · exact lt_trans h1 (hs.1 b hb)
    · simp only [h1, if_false]
      by_cases h2 : k = k'
      · simp only [h2, if_true, List.map_cons, List.sorted_cons]
        exact hs
      · simp only [h2, if_false, List.map_cons, List.sorted_cons]
        refine ⟨?_, ih hs.2⟩
        intro b hb
        obtain ⟨e, he, rfl⟩ := List.mem_map.1 hb
        rcases mem_mapInsert e k v rest he with h | h
        · rw [h]
          exact lt_of_le_of_ne (not_lt.1 h1) (Ne.symm h2)
        · exact hs.1 _ (List.mem_map_of_mem Prod.fst h)

theorem mapInsert_of_forall_lt {κ β : Type} [LinearOrder κ] (k : κ) (v : β) (l : List (κ × β))
    (h : ∀ e ∈ l, e.1 < k) : mapInsert k v l = l ++ [(k, v)] := by
  induction l with
  | nil => rfl
  | cons e' rest ih =>
    obtain ⟨k', v'⟩ := e'
    have h0 : k' < k := h (k', v') (List.mem_cons_self _ _)
    have h1 : ¬ k < k' := not_lt.2 (le_of_lt h0)
    have h2 : ¬ k = k' := fun h => (ne_of_lt h0) h.symm
    unfold mapInsert
    simp only [h1, h2, if_false, List.cons_append]
    rw [ih (fun e he => h e (List.mem_cons_of_mem _ he))]

theorem mem_setInsert (x k : Nat) (l : List Nat) : x ∈ setInsert k l ↔ x = k ∨ x ∈ l := by
  induction l with
  | nil => simp [setInsert]
  | cons k' rest ih =>
    unfold setInsert
    by_cases h1 : k < k'
    · simp [h1]
    · simp only [h1, if_false]
      by_cases h2 : k = k'
      · simp only [h2, if_true, List.mem_cons]
        tauto
      · simp only [h2, if_false, List.mem_cons, ih]
        tauto

theorem sorted_setInsert (k : Nat) (l : List Nat) (hs : l.Sorted (· < ·)) :
    (setInsert k l).Sorted (· < ·) := by
  induction l with
  | nil => simp [setInsert]
  | cons k' rest ih =>
    simp only [List.sorted_cons] at hs
    unfold setInsert
    by_cases h1 : k < k'
    · simp only [h1, if_true, List.sorted_cons]
      refine ⟨?_, hs⟩
      intro b hb
      rcases List.mem_cons.1 hb with hb | hb
      · rw [hb]; exact h1
      · exact lt_trans h1 (hs.1 b hb)
    · simp only [h1, if_false]
      by_cases h2 : k = k'
      · simp only [h2, if_true, List.sorted_cons]
        exact hs
      · simp only [h2, if_false, List.sorted_cons]
        refine ⟨?_, ih hs.2⟩
        intro b hb
        rcases (mem_setInsert b k rest).1 hb with h | h
        · rw [h]; omega
        · exact hs.1 _ h

theorem perm_multimapInsert {β : Type} (k : Int) (v : β) (l : List (Int × β)) :
    (multimapInsert k v l).Perm ((k, v) :: l) := by
  induction l with
  | nil => simp [multimapInsert]
  | cons e' rest ih =>
    obtain ⟨k', v'⟩ := e'
    unfold multimapInsert
    by_cases h1 : k < k'
    · simp [h1]
    · simp only [h1, if_false]
      exact (ih.cons (k', v')).trans (List.Perm.swap _ _ rest)

/-! ## Lemmas on fingerprinting and merging -/

namespace SFileData

variable {H : Type}

theorem foldl_markImportant_fields (l : List (QString × Nat)) :
    ∀ p : SFileData H × SFileData H,
      (l.foldl markImportant p).1.rows = p.1.rows ∧
      (l.foldl markImportant p).1.fRowToMD5 = p.1.fRowToMD5 ∧
      (l.foldl markImportant p).1.fMD5ToRow = p.1.fMD5ToRow ∧
      (l.foldl markImportant p).1.fExtraUnimportantCols = p.1.fExtraUnimportantCols ∧
      (l.foldl markImportant p).1.fHeaderInfo = p.1.fHeaderInfo ∧
      (l.foldl markImportant p).2.rows = p.2.rows ∧
      (l.foldl markImportant p).2.fRowToMD5 = p.2.fRowToMD5 ∧
      (l.foldl markImportant p).2.fMD5ToRow = p.2.fMD5ToRow ∧
      (l.foldl markImportant p).2.fExtraUnimportantCols = p.2.fExtraUnimportantCols ∧
      (l.foldl markImportant p).2.fHeaderInfo = p.2.fHeaderInfo := by
  induction l with
  | nil => intro p; simp
  | cons e rest ih =>
    intro p
    have hstep : (markImportant p e).1.rows = p.1.rows ∧
        (markImportant p e).1.fRowToMD5 = p.1.fRowToMD5 ∧
        (markImportant p e).1.fMD5ToRow = p.1.fMD5ToRow ∧
        (markImportant p e).1.fExtraUnimportantCols = p.1.fExtraUnimportantCols ∧
        (markImportant p e).1.fHeaderInfo = p.1.fHeaderInfo ∧
        (markImportant p e).2.rows = p.2.rows ∧
        (markImportant p e).2.fRowToMD5 = p.2.fRowToMD5 ∧
        (markImportant p e).2.fMD5ToRow = p.2.fMD5ToRow ∧
        (markImportant p e).2.fExtraUnimportantCols = p.2.fExtraUnimportantCols ∧
        (markImportant p e).2.fHeaderInfo = p.2.fHeaderInfo := by
      unfold markImportant
      cases mapFind e.1 p.2.fHeaderInfo <;> simp
    have h := ih (markImportant p e)
    simp only [List.foldl_cons]
    obtain ⟨a1, a2, a3, a4, a5, a6, a7, a8, a9, a10⟩ := h
    obtain ⟨b1, b2, b3, b4, b5, b6, b7, b8, b9, b10⟩ := hstep
    exact ⟨a1.trans b1, a2.trans b2, a3.trans b3, a4.trans b4, a5.trans b5, a6.trans b6,
      a7.trans b7, a8.trans b8, a9.trans b9, a10.trans b10⟩

theorem foldl_fingerprintRow_snd [DecidableEq H] (getMd5 : QStringList → H) (d : SFileData H)
    (l : List Nat) :
    ∀ m : List (H × Nat) × List (Nat × H),
      (l.foldl (fingerprintRow getMd5 d) m).2
        = l.foldl (fun m2 ii => mapInsert ii (fingerprint getMd5 d ii) m2) m.2 := by
  induction l with
  | nil => intro m; rfl
  | cons e rest ih => intro m; simp only [List.foldl_cons]; rw [ih]; rfl

theorem foldl_fingerprintRow_fst [DecidableEq H] (getMd5 : QStringList → H) (d : SFileData H)
    (l : List Nat) :
    ∀ m : List (H × Nat) × List (Nat × H),
      (l.foldl (fingerprintRow getMd5 d) m).1
        = l.foldl (fun m1 ii => umapInsert (fingerprint getMd5 d ii) ii m1) m.1 := by
  induction l with
  | nil => intro m; rfl
  | cons e rest ih => intro m; simp only [List.foldl_cons]; rw [ih]; rfl

theorem foldl_mapInsert_range {β : Type} (f : Nat → β) (n : Nat) :
    (List.range n).foldl (fun m2 ii => mapInsert ii (f ii) m2) []
      = (List.range n).map (fun ii => (ii, f ii)) := by
  induction n with
  | zero => rfl
  | succ n ih =>
    rw [List.range_succ, List.foldl_append, ih, List.map_append]
    simp only [List.foldl_cons, List.foldl_nil, List.map_cons, List.map_nil]
    apply mapInsert_of_forall_lt
    intro e he
    obtain ⟨i, hi, rfl⟩ := List.mem_map.1 he
    exact List.mem_range.1 hi

theorem mapFind_foldl_mapInsert_range {β : Type} (f : Nat → β) (m0 : List (Nat × β)) (n r : Nat) :
    mapFind r ((List.range n).foldl (fun m2 ii => mapInsert ii (f ii) m2) m0)
      = if r < n then some (f r) else mapFind r m0 := by
  induction n with
  | zero => simp
  | succ n ih =>
    rw [List.range_succ, List.foldl_append]
    simp only [List.foldl_cons, List.foldl_nil]
    rw [mapFind_mapInsert, ih]
    by_cases h1 : r = n
    · simp [h1]
    · by_cases h2 : r < n
      · have h3 : r < n + 1 := by omega
        simp [h1, h2, h3]
      · have h3 : ¬ r < n + 1 := by omega
        simp [h1, h2, h3]

theorem mapFind_foldl_umapInsert_lt [DecidableEq H] (f : Nat → H) (n : Nat) (h : H) (pos : Nat)
    (hf : mapFind h ((List.range n).foldl (fun m1 ii => umapInsert (f ii) ii m1) []) = some pos) :
    pos < n := by
  induction n with
  | zero => simp [mapFind] at hf
  | succ n ih =>
    rw [List.range_succ, List.foldl_append] at hf
    simp only [List.foldl_cons, List.foldl_nil] at hf
    rw [mapFind_umapInsert] at hf
    by_cases h1 : h = f n
    · simp [h1] at hf; omega
    · simp only [h1, if_false] at hf
      have := ih hf
      omega

theorem computeMD5s_fRowToMD5 [DecidableEq H] (getMd5 : QStringList → H) (d : SFileData H)
    (hd : d.fRowToMD5 = []) :
    (computeMD5s getMd5 d).fRowToMD5
      = (List.range d.rowCount).map (fun ii => (ii, fingerprint getMd5 d ii)) := by
  unfold computeMD5s
  simp only
  rw [foldl_fingerprintRow_snd, hd, foldl_mapInsert_range]

theorem computeMD5s_find_row [DecidableEq H] (getMd5 : QStringList → H) (d : SFileData H)
    (r : Nat) (hr : r < d.rowCount) :
    mapFind r (computeMD5s getMd5 d).fRowToMD5 = some (fingerprint getMd5 d r) := by
  unfold computeMD5s
  simp only
  rw [foldl_fingerprintRow_snd, mapFind_foldl_mapInsert_range]
  simp [hr]

theorem computeMD5s_find_md5_lt [DecidableEq H] (getMd5 : QStringList → H) (d : SFileData H)
    (hd : d.fMD5ToRow = []) (h : H) (pos : Nat)
    (hf : mapFind h (computeMD5s getMd5 d).fMD5ToRow = some pos) : pos < d.rowCount := by
  unfold computeMD5s at hf
  simp only at hf
  rw [foldl_fingerprintRow_fst, hd] at hf
  exact mapFind_foldl_umapInsert_lt _ _ _ _ hf

theorem multimapInsert_of_forall_le {β : Type} (k : Int) (v : β) (l : List (Int × β))
    (h : ∀ e ∈ l, e.1 ≤ k) : multimapInsert k v l = l ++ [(k, v)] := by
  induction l with
  | nil => rfl
  | cons e' rest ih =>
    obtain ⟨k', v'⟩ := e'
    have h0 : k' ≤ k := h (k', v') (List.mem_cons_self _ _)
    have h1 : ¬ k < k' := not_lt.2 h0
    unfold multimapInsert
    simp only [h1, if_false, List.cons_append]
    rw [ih (fun e he => h e (List.mem_cons_of_mem _ he))]

theorem pairwise_multimapInsert (k : Int) (v : Int × Int) (m : List (Int × (Int × Int)))
    (hp : m.Pairwise mergedBefore) (hk : ∀ e ∈ m, e.1 = k → e.2.1 ≠ -1 ∧ v.1 = -1) :
    (multimapInsert k v m).Pairwise mergedBefore := by
  induction m with
  | nil => simp [multimapInsert]
  | cons e' rest ih =>
    obtain ⟨k', v'⟩ := e'
    rw [List.pairwise_cons] at hp
    unfold multimapInsert
    by_cases h1 : k < k'
    · simp only [h1, if_true]
      rw [List.pairwise_cons]
      refine ⟨?_, List.pairwise_cons.2 hp⟩
      intro y hy
      rcases List.mem_cons.1 hy with hy | hy
      · rw [hy]; exact Or.inl h1
      · rcases hp.1 y hy with h | h
        · exact Or.inl (lt_trans h1 h)
        · exact Or.inl (by rw [← h.1]; exact h1)
    · simp only [h1, if_false]
      rw [List.pairwise_cons]
      refine ⟨?_, ih hp.2 (fun e he => hk e (List.mem_cons_of_mem _ he))⟩
      intro y hy
      rcases List.mem_cons.1 ((perm_multimapInsert k v rest).subset hy) with hy | hy
      · rw [hy]
        rcases lt_or_eq_of_le (not_lt.1 h1) with h | h
        · exact Or.inl h
        · exact Or.inr ⟨h, hk (k', v') (List.mem_cons_self _ _) h⟩
      · exact hp.1 y hy

theorem perm_foldl_mergeRhsRow [DecidableEq H] (lhs : SFileData H) (l : List (Nat × H)) :
    ∀ m0 : List (Int × (Int × Int)),
      (l.foldl (mergeRhsRow lhs) m0).Perm
        (m0 ++ (l.filter (fun ii => (mapFind ii.2 lhs.fMD5ToRow).isNone)).map
          (fun ii => ((ii.1 : Int), ((-1 : Int), (ii.1 : Int))))) := by
  induction l with
  | nil => intro m0; simp
  | cons e rest ih =>
    intro m0
    simp only [List.foldl_cons]
    refine (ih _).trans ?_
    unfold mergeRhsRow
    cases hf : mapFind e.2 lhs.fMD5ToRow with
    | none =>
      simp only [List.filter_cons, hf, Option.isNone_none, if_true, List.map_cons]
      refine ((perm_multimapInsert _ _ m0).append_right _).trans ?_
      simp only [List.cons_append]
      exact List.perm_middle.symm
    | some pos =>
      simp [List.filter_cons, hf]

theorem foldl_mergeLhsRow_range [DecidableEq H] (rhs : SFileData H) (f : Nat → H) (n : Nat) :
    ((List.range n).map (fun ii => (ii, f ii))).foldl (mergeLhsRow rhs) []
      = (List.range n).map (fun (ii : Nat) => ((ii : Int), lhsPair rhs ii (f ii))) := by
  induction n with
  | zero => rfl
  | succ n ih =>
    rw [List.range_succ, List.map_append, List.foldl_append, ih, List.map_append]
    simp only [List.map_cons, List.map_nil, List.foldl_cons, List.foldl_nil]
    unfold mergeLhsRow
    apply multimapInsert_of_forall_le
    intro e he
    obtain ⟨i, hi, rfl⟩ := List.mem_map.1 he
    have := List.mem_range.1 hi
    simp only
    omega

theorem lhsPair_fst [DecidableEq H] (rhs : SFileData H) (row : Nat) (md5 : H) :
    (lhsPair rhs row md5).1 = (row : Int) := by
  unfold lhsPair
  cases mapFind md5 rhs.fMD5ToRow <;> rfl

theorem foldl_mergeRhsRow_range [DecidableEq H] (lhs : SFileData H) (f : Nat → H)
    (m1 : List (Int × (Int × Int))) (h1 : m1.Pairwise mergedBefore)
    (h2 : ∀ e ∈ m1, e.2.1 ≠ -1) (n : Nat) :
    (((List.range n).map (fun ii => (ii, f ii))).foldl (mergeRhsRow lhs) m1).Pairwise mergedBefore ∧
    ∀ e ∈ ((List.range n).map (fun ii => (ii, f ii))).foldl (mergeRhsRow lhs) m1,
      e.2.1 = -1 → e.1 < (n : Int) := by
  induction n with
  | zero =>
    refine ⟨h1, ?_⟩
    intro e he h
    exact absurd h (h2 e he)
  | succ n ih =>
    rw [List.range_succ, List.map_append, List.foldl_append]
    simp only [List.map_cons, List.map_nil, List.foldl_cons, List.foldl_nil]
    unfold mergeRhsRow
    cases hf : mapFind (f n) lhs.fMD5ToRow with
    | some pos =>
      simp only [hf]
      refine ⟨ih.1, ?_⟩
      intro e he h
      have := ih.2 e he h
      push_cast
      omega
    | none =>
      simp only [hf]
      refine ⟨pairwise_multimapInsert _ _ _ ih.1 ?_, ?_⟩
      · intro e he hk
        refine ⟨?_, rfl⟩
        intro h
        have := ih.2 e he h
        omega
      · intro e he h
        rcases List.mem_cons.1 ((perm_multimapInsert _ _ _).subset he) with he | he
        · rw [he]; push_cast; simp
        · have := ih.2 e he h
          push_cast
          omega

theorem foldl_addMergedRow (lhs rhs : SFileData H) (md : List (Int × (Int × Int))) :
    ∀ st : SMergeLoop,
      (md.foldl (addMergedRow lhs rhs) st).fData
        = st.fData ++ md.map (fun ii => mergedRow lhs rhs ii.2) ∧
      (md.foldl (addMergedRow lhs rhs) st).lhsOnlyCount
        = st.lhsOnlyCount + ((md.map Prod.snd).countP isLeftOnly : Int) ∧
      (md.foldl (addMergedRow lhs rhs) st).rhsOnlyCount
        = st.rhsOnlyCount + ((md.map Prod.snd).countP isRightOnly : Int) ∧
      (md.foldl (addMergedRow lhs rhs) st).bothCount
        = st.bothCount + ((md.map Prod.snd).countP isBoth : Int) := by
  induction md with
  | nil => intro st; simp
  | cons e rest ih =>
    intro st
    obtain ⟨a1, a2, a3, a4⟩ := ih (addMergedRow lhs rhs st e)
    simp only [List.foldl_cons, List.map_cons, List.countP_cons]
    refine ⟨?_, ?_, ?_, ?_⟩
    · rw [a1]; simp [addMergedRow]
    · rw [a2]; simp only [addMergedRow]
      by_cases h : isLeftOnly e.2 = true
      · simp only [h, if_true]; push_cast; omega
      · simp [h]
    · rw [a3]; simp only [addMergedRow]
      by_cases h : isRightOnly e.2 = true
      · simp only [h, if_true]; push_cast; omega
      · simp [h]
    · rw [a4]; simp only [addMergedRow]
      by_cases h : isBoth e.2 = true
      · simp only [h, if_true]; push_cast; omega
      · simp [h]

theorem computeMD5sBoth_rowCount [DecidableEq H] (getMd5 : QStringList → H) (A B : SFileData H) :
    (computeMD5sBoth getMd5 A B).1.rowCount = A.rowCount ∧
    (computeMD5sBoth getMd5 A B).2.rowCount = B.rowCount := by
  obtain ⟨h1, -, -, -, -, h6, -⟩ := foldl_markImportant_fields A.fHeaderInfo (A, B)
  constructor
  · show (computeImportantColumns A B).1.rows.length = A.rows.length
    unfold computeImportantColumns; rw [h1]
  · show (computeImportantColumns A B).2.rows.length = B.rows.length
    unfold computeImportantColumns; rw [h6]

theorem computeMD5sBoth_fRowToMD5 [DecidableEq H] (getMd5 : QStringList → H) (A B : SFileData H) :
    (A.fRowToMD5 = [] →
      (computeMD5sBoth getMd5 A B).1.fRowToMD5
        = (List.range (computeMD5sBoth getMd5 A B).1.rowCount).map
            (fun ii => (ii, fingerprint getMd5 (computeMD5sBoth getMd5 A B).1 ii))) ∧
    (B.fRowToMD5 = [] →
      (computeMD5sBoth getMd5 A B).2.fRowToMD5
        = (List.range (computeMD5sBoth getMd5 A B).2.rowCount).map
            (fun ii => (ii, fingerprint getMd5 (computeMD5sBoth getMd5 A B).2 ii))) := by
  obtain ⟨-, h2, -, -, -, -, h7, -⟩ := foldl_markImportant_fields A.fHeaderInfo (A, B)
  constructor
  · intro hA
    exact computeMD5s_fRowToMD5 getMd5 (computeImportantColumns A B).1
      (by unfold computeImportantColumns; rw [h2]; exact hA)
  · intro hB
    exact computeMD5s_fRowToMD5 getMd5 (computeImportantColumns A B).2
      (by unfold computeImportantColumns; rw [h7]; exact hB)

theorem buildMergedData_spec [DecidableEq H] (getMd5 : QStringList → H) (L R : SFileData H)
    (hL : L.fRowToMD5 = (List.range L.rowCount).map (fun ii => (ii, fingerprint getMd5 L ii)))
    (hR : R.fRowToMD5 = (List.range R.rowCount).map (fun ii => (ii, fingerprint getMd5 R ii))) :
    (buildMergedData L R).Perm
      ((List.range L.rowCount).map
          (fun (ii : Nat) => ((ii : Int), lhsPair R ii (fingerprint getMd5 L ii))) ++
        (rhsOnlyRows getMd5 L R).map (fun (ii : Nat) => ((ii : Int), ((-1 : Int), (ii : Int))))) ∧
    (buildMergedData L R).Pairwise mergedBefore := by
  unfold buildMergedData
  rw [hL, foldl_mergeLhsRow_range, hR]
  constructor
  · refine (perm_foldl_mergeRhsRow L _ _).trans ?_
    apply List.Perm.append_left
    unfold rhsOnlyRows
    rw [List.filter_map, List.map_map]
    exact List.Perm.refl _
  · refine (foldl_mergeRhsRow_range L _ _ ?_ ?_ _).1
    · rw [List.pairwise_map]
      refine (List.pairwise_lt_range _).imp ?_
      intro a b hab
      left
      simp only
      omega
    · intro e he
      obtain ⟨i, -, rfl⟩ := List.mem_map.1 he
      simp only [lhsPair_fst]
      omega

theorem class_lhsPair [DecidableEq H] (rhs : SFileData H) (row : Nat) (md5 : H) :
    isBoth (lhsPair rhs row md5) = (mapFind md5 rhs.fMD5ToRow).isSome ∧
    isLeftOnly (lhsPair rhs row md5) = (mapFind md5 rhs.fMD5ToRow).isNone ∧
    isRightOnly (lhsPair rhs row md5) = false := by
  have h0 : ((row : Int) == -1) = false := by
    simp only [beq_eq_false_iff_ne]; omega
  unfold lhsPair
  cases mapFind md5 rhs.fMD5ToRow with
  | none => simp [isBoth, isLeftOnly, isRightOnly, h0]
  | some pos =>
    have h1 : ((pos : Int) == -1) = false := by
      simp only [beq_eq_false_iff_ne]; omega
    simp [isBoth, isLeftOnly, isRightOnly, h0, h1]

theorem class_rhsPair (row : Nat) :
    isRightOnly ((-1 : Int), (row : Int)) = true ∧
    isLeftOnly ((-1 : Int), (row : Int)) = false ∧
    isBoth ((-1 : Int), (row : Int)) = false := by
  have h0 : ((row : Int) == -1) = false := by
    simp only [beq_eq_false_iff_ne]; omega
  simp [isBoth, isLeftOnly, isRightOnly, h0]

theorem mergedBefore_antisymm (a b : Int × (Int × Int)) (hab : mergedBefore a b)
    (hba : mergedBefore b a) : a = b := by
  unfold mergedBefore at hab hba
  exfalso
  rcases hab with h | h <;> rcases hba with h' | h'
  · exact lt_asymm h h'
  · exact (ne_of_lt h) h'.1.symm
  · exact (ne_of_lt h') h.1.symm
  · exact h.2.1 h'.2.2

theorem buildMergedData_filter [DecidableEq H] (getMd5 : QStringList → H) (L R : SFileData H)
    (hL : L.fRowToMD5 = (List.range L.rowCount).map (fun ii => (ii, fingerprint getMd5 L ii)))
    (hR : R.fRowToMD5 = (List.range R.rowCount).map (fun ii => (ii, fingerprint getMd5 R ii))) :
    ((buildMergedData L R).map Prod.snd).filter (fun e => e.1 != -1) = lhsPairs getMd5 L R ∧
    ((buildMergedData L R).map Prod.snd).filter (fun e => e.1 == -1) = rhsPairs getMd5 L R ∧
    ∀ e ∈ buildMergedData L R, e.1 = if e.2.1 = -1 then e.2.2 else e.2.1 := by
  obtain ⟨hperm, hpw⟩ := buildMergedData_spec getMd5 L R hL hR
  haveI : IsAntisymm (Int × (Int × Int)) mergedBefore := ⟨mergedBefore_antisymm⟩
  have hl1 : ∀ e ∈ (List.range L.rowCount).map
      (fun (ii : Nat) => ((ii : Int), lhsPair R ii (fingerprint getMd5 L ii))),
      e.2.1 ≠ -1 ∧ e.1 = e.2.1 := by
    intro e he
    obtain ⟨i, -, rfl⟩ := List.mem_map.1 he
    refine ⟨?_, ?_⟩
    · simp only [lhsPair_fst]; omega
    · simp only [lhsPair_fst]
  have hr1 : ∀ e ∈ (rhsOnlyRows getMd5 L R).map
      (fun (ii : Nat) => ((ii : Int), ((-1 : Int), (ii : Int)))),
      e.2.1 = -1 ∧ e.1 = e.2.2 := by
    intro e he
    obtain ⟨i, -, rfl⟩ := List.mem_map.1 he
    exact ⟨rfl, rfl⟩
  have hs1 : ((List.range L.rowCount).map
      (fun (ii : Nat) => ((ii : Int), lhsPair R ii (fingerprint getMd5 L ii)))).Sorted
      mergedBefore := by
    unfold List.Sorted
    rw [List.pairwise_map]
    refine (List.pairwise_lt_range _).imp ?_
    intro a b hab
    left
    simp only
    omega
  have hs2 : ((rhsOnlyRows getMd5 L R).map
      (fun (ii : Nat) => ((ii : Int), ((-1 : Int), (ii : Int))))).Sorted mergedBefore := by
    unfold List.Sorted rhsOnlyRows
    rw [List.pairwise_map]
    refine ((List.pairwise_lt_range _).filter _).imp ?_
    intro a b hab
    left
    simp only
    omega
  refine ⟨?_, ?_, ?_⟩
  · rw [List.filter_map]
    have e1 : List.filter ((fun e : Int × Int => e.1 != -1) ∘ Prod.snd)
        ((List.range L.rowCount).map
          (fun (ii : Nat) => ((ii : Int), lhsPair R ii (fingerprint getMd5 L ii))))
        = (List.range L.rowCount).map
          (fun (ii : Nat) => ((ii : Int), lhsPair R ii (fingerprint getMd5 L ii))) := by
      apply List.filter_eq_self.2
      intro e he
      simp [(hl1 e he).1]
    have e2 : List.filter ((fun e : Int × Int => e.1 != -1) ∘ Prod.snd)
        ((rhsOnlyRows getMd5 L R).map
          (fun (ii : Nat) => ((ii : Int), ((-1 : Int), (ii : Int))))) = [] := by
      apply List.filter_eq_nil_iff.2
      intro e he
      simp [(hr1 e he).1]
    have hp := hperm.filter ((fun e : Int × Int => e.1 != -1) ∘ Prod.snd)
    rw [List.filter_append, e1, e2, List.append_nil] at hp
    rw [List.eq_of_perm_of_sorted hp (hpw.filter _) hs1, List.map_map]
    rfl
  · rw [List.filter_map]
    have e1 : List.filter ((fun e : Int × Int => e.1 == -1) ∘ Prod.snd)
        ((List.range L.rowCount).map
          (fun (ii : Nat) => ((ii : Int), lhsPair R ii (fingerprint getMd5 L ii)))) = [] := by
      apply List.filter_eq_nil_iff.2
      intro e he
      simp [(hl1 e he).1]
    have e2 : List.filter ((fun e : Int × Int => e.1 == -1) ∘ Prod.snd)
        ((rhsOnlyRows getMd5 L R).map
          (fun (ii : Nat) => ((ii : Int), ((-1 : Int), (ii : Int)))))
        = (rhsOnlyRows getMd5 L R).map
          (fun (ii : Nat) => ((ii : Int), ((-1 : Int), (ii : Int)))) := by
      apply List.filter_eq_self.2
      intro e he
      simp [(hr1 e he).1]
    have hp := hperm.filter ((fun e : Int × Int => e.1 == -1) ∘ Prod.snd)
    rw [List.filter_append, e1, e2, List.nil_append] at hp
    rw [List.eq_of_perm_of_sorted hp (hpw.filter _) hs2, List.map_map]
    rfl
  · intro e he
    rcases List.mem_append.1 (hperm.subset he) with h | h
    · obtain ⟨h1, h2⟩ := hl1 e h
      simp [h1, h2]
    · obtain ⟨h1, h2⟩ := hr1 e h
      simp [h1, h2]

theorem getDataCols_of_lt (d : SFileData H) (row : Int) (cols : List Nat)
    (h : row < (d.rowCount : Int)) : d.getDataCols row cols = cols.map (d.getData row) := by
  unfold getDataCols
  simp [not_le.2 h]

theorem mem_buildMergedData [DecidableEq H] (getMd5 : QStringList → H) (L R : SFileData H)
    (hL : L.fRowToMD5 = (List.range L.rowCount).map (fun ii => (ii, fingerprint getMd5 L ii)))
    (hR : R.fRowToMD5 = (List.range R.rowCount).map (fun ii => (ii, fingerprint getMd5 R ii)))
    (hRm : ∀ md5 pos, mapFind md5 R.fMD5ToRow = some pos → pos < R.rowCount)
    (e : Int × (Int × Int)) (he : e ∈ buildMergedData L R) :
    (∃ i : Nat, i < L.rowCount ∧ e.2 = ((i : Int), (-1 : Int))) ∨
    (∃ i pos : Nat, i < L.rowCount ∧ pos < R.rowCount ∧ e.2 = ((i : Int), (pos : Int))) ∨
    (∃ j : Nat, j < R.rowCount ∧ e.2 = ((-1 : Int), (j : Int))) := by
  obtain ⟨hperm, -⟩ := buildMergedData_spec getMd5 L R hL hR
  rcases List.mem_append.1 (hperm.subset he) with h | h
  · obtain ⟨i, hi, rfl⟩ := List.mem_map.1 h
    have hi' := List.mem_range.1 hi
    simp only
    unfold lhsPair
    cases hf : mapFind (fingerprint getMd5 L i) R.fMD5ToRow with
    | none => exact Or.inl ⟨i, hi', rfl⟩
    | some pos => exact Or.inr (Or.inl ⟨i, pos, hi', hRm _ _ hf, rfl⟩)
  · obtain ⟨j, hj, rfl⟩ := List.mem_map.1 h
    unfold rhsOnlyRows at hj
    have hj' := List.mem_range.1 (List.mem_filter.1 hj).1
    exact Or.inr (Or.inr ⟨j, hj', rfl⟩)

theorem getData_default (d : SFileData H) (row : Int) (col : Nat) (dflt : QString)
    (hc : mapFind col d.fExtraUnimportantCols = some dflt)
    (h : row = -1 ∨ d.itemText row col = []) : d.getData row col = dflt := by
  unfold getData
  rcases h with h | h
  · simp [h, hc]
  · by_cases hr : row = -1
    · simp [hr, hc]
    · simp [hr, h, hc]

theorem getData_cell (d : SFileData H) (row : Int) (col : Nat)
    (hr : row ≠ -1) (h : d.itemText row col ≠ [] ∨ mapFind col d.fExtraUnimportantCols = none) :
    d.getData row col = d.itemText row col := by
  unfold getData
  rcases h with h | h
  · simp [hr, h]
  · simp only [hr, if_false, h]
    split <;> rfl

end SFileData

/-! ## Lemmas on the header info and the important columns -/

theorem mapFind_headerInfo {κ : Type} [LinearOrder κ] [DecidableEq κ] (g : Nat → κ) (n : Nat)
    (name : κ) (c : Nat) :
    mapFind name ((List.range n).foldl (fun m ii => mapInsert (g ii) ii m) []) = some c ↔
      c < n ∧ g c = name ∧ ∀ c', c < c' → c' < n → g c' ≠ name := by
  induction n with
  | zero => simp [mapFind]
  | succ n ih =>
    rw [List.range_succ, List.foldl_append]
    simp only [List.foldl_cons, List.foldl_nil]
    rw [mapFind_mapInsert]
    by_cases hn : name = g n
    · simp only [hn, if_true, Option.some.injEq]
      constructor
      · intro h
        subst h
        exact ⟨by omega, rfl, fun c' h1 h2 => by omega⟩
      · intro ⟨h1, h2, h3⟩
        by_contra hne
        have hlt : c < n := by
          rcases Nat.lt_or_ge c n with h | h
          · exact h
          · exact absurd (by omega : n = c) hne
        exact h3 n hlt (by omega) rfl
    · simp only [hn, if_false]
      rw [ih]
      constructor
      · intro ⟨h1, h2, h3⟩
        refine ⟨by omega, h2, ?_⟩
        intro c' hc1 hc2
        by_cases hc : c' = n
        · rw [hc]; exact fun h => hn h.symm
        · exact h3 c' hc1 (by omega)
      · intro ⟨h1, h2, h3⟩
        have hcn : c ≠ n := by
          intro h
          rw [h] at h2
          exact hn h2.symm
        exact ⟨by omega, h2, fun c' hc1 hc2 => h3 c' hc1 (by omega)⟩

theorem mapFind_headerInfo_isSome {κ : Type} [LinearOrder κ] [DecidableEq κ] (g : Nat → κ)
    (n : Nat) (name : κ) :
    (mapFind name ((List.range n).foldl (fun m ii => mapInsert (g ii) ii m) [])).isSome = true ↔
      ∃ c, c < n ∧ g c = name := by
  induction n with
  | zero => simp [mapFind]
  | succ n ih =>
    rw [List.range_succ, List.foldl_append]
    simp only [List.foldl_cons, List.foldl_nil]
    rw [mapFind_mapInsert]
    by_cases hn : name = g n
    · simp only [hn, if_true, Option.isSome_some, true_iff]
      exact ⟨n, by omega, rfl⟩
    · simp only [hn, if_false]
      rw [ih]
      constructor
      · intro ⟨c, h1, h2⟩
        exact ⟨c, by omega, h2⟩
      · intro ⟨c, h1, h2⟩
        have hcn : c ≠ n := by
          intro h
          rw [h] at h2
          exact hn h2.symm
        exact ⟨c, by omega, h2⟩

theorem sorted_headerInfo {κ : Type} [LinearOrder κ] (g : Nat → κ) (n : Nat) :
    (((List.range n).foldl (fun m ii => mapInsert (g ii) ii m) []).map Prod.fst).Sorted
      (· < ·) := by
  induction n with
  | zero => simp
  | succ n ih =>
    rw [List.range_succ, List.foldl_append]
    simp only [List.foldl_cons, List.foldl_nil]
    exact sorted_mapInsert _ _ _ ih

namespace SFileData

variable {H : Type}

theorem markImportant_mem (p : SFileData H × SFileData H) (e : QString × Nat) (c : Nat) :
    (c ∈ (markImportant p e).1.fImportantCols ↔
      c ∈ p.1.fImportantCols ∨ (e.2 = c ∧ (mapFind e.1 p.2.fHeaderInfo).isSome = true)) ∧
    (c ∈ (markImportant p e).2.fImportantCols ↔
      c ∈ p.2.fImportantCols ∨ mapFind e.1 p.2.fHeaderInfo = some c) ∧
    (markImportant p e).2.fHeaderInfo = p.2.fHeaderInfo := by
  unfold markImportant
  cases hf : mapFind e.1 p.2.fHeaderInfo with
  | none => simp
  | some pos =>
    simp only [mem_setInsert, Option.isSome_some, and_true, Option.some.injEq]
    refine ⟨?_, ?_⟩
    · constructor
      · rintro (h | h)
        · exact Or.inr h.symm
        · exact Or.inl h
      · rintro (h | h)
        · exact Or.inr h
        · exact Or.inl h.symm
    · constructor
      · rintro (h | h)
        · exact Or.inr h.symm
        · exact Or.inl h
      · rintro (h | h)
        · exact Or.inr h
        · exact Or.inl h.symm

theorem mem_foldl_markImportant (l : List (QString × Nat)) :
    ∀ (p : SFileData H × SFileData H) (c : Nat),
      (c ∈ (l.foldl markImportant p).1.fImportantCols ↔
        c ∈ p.1.fImportantCols ∨
          ∃ e ∈ l, e.2 = c ∧ (mapFind e.1 p.2.fHeaderInfo).isSome = true) ∧
      (c ∈ (l.foldl markImportant p).2.fImportantCols ↔
        c ∈ p.2.fImportantCols ∨ ∃ e ∈ l, mapFind e.1 p.2.fHeaderInfo = some c) := by
  induction l with
  | nil => intro p c; simp
  | cons e rest ih =>
    intro p c
    obtain ⟨s1, s2, s3⟩ := markImportant_mem p e c
    obtain ⟨i1, i2⟩ := ih (markImportant p e) c
    simp only [List.foldl_cons]
    rw [i1, i2, s1, s2, s3]
    constructor
    · constructor
      · rintro ((h | h) | ⟨e', he', h⟩)
        · exact Or.inl h
        · exact Or.inr ⟨e, List.mem_cons_self _ _, h⟩
        · exact Or.inr ⟨e', List.mem_cons_of_mem _ he', h⟩
      · rintro (h | ⟨e', he', h⟩)
        · exact Or.inl (Or.inl h)
        · rcases List.mem_cons.1 he' with he' | he'
          · subst he'; exact Or.inl (Or.inr h)
          · exact Or.inr ⟨e', he', h⟩
    · constructor
      · rintro ((h | h) | ⟨e', he', h⟩)
        · exact Or.inl h
        · exact Or.inr ⟨e, List.mem_cons_self _ _, h⟩
        · exact Or.inr ⟨e', List.mem_cons_of_mem _ he', h⟩
      · rintro (h | ⟨e', he', h⟩)
        · exact Or.inl (Or.inl h)
        · rcases List.mem_cons.1 he' with he' | he'
          · subst he'; exact Or.inl (Or.inr h)
          · exact Or.inr ⟨e', he', h⟩

theorem sorted_foldl_markImportant (l : List (QString × Nat)) :
    ∀ p : SFileData H × SFileData H,
      p.1.fImportantCols.Sorted (· < ·) → p.2.fImportantCols.Sorted (· < ·) →
      (l.foldl markImportant p).1.fImportantCols.Sorted (· < ·) ∧
      (l.foldl markImportant p).2.fImportantCols.Sorted (· < ·) := by
  induction l with
  | nil => intro p h1 h2; exact ⟨h1, h2⟩
  | cons e rest ih =>
    intro p h1 h2
    simp only [List.foldl_cons]
    apply ih
    · unfold markImportant
      cases mapFind e.1 p.2.fHeaderInfo with
      | none => exact h1
      | some pos => exact sorted_setInsert _ _ h1
    · unfold markImportant
      cases mapFind e.1 p.2.fHeaderInfo with
      | none => exact h2
      | some pos => exact sorted_setInsert _ _ h2

theorem mem_computeImportantColumns (A B : SFileData H) (hA : A.freshlyLoaded)
    (hB : B.freshlyLoaded) (c : Nat) :
    (c ∈ (computeImportantColumns A B).1.fImportantCols ↔
      c < A.columnCount ∧
      (∀ c', c < c' → c' < A.columnCount → A.getHeader c' ≠ A.getHeader c) ∧
      ∃ c2, c2 < B.columnCount ∧ B.getHeader c2 = A.getHeader c) ∧
    (c ∈ (computeImportantColumns A B).2.fImportantCols ↔
      c < B.columnCount ∧
      (∀ c', c < c' → c' < B.columnCount → B.getHeader c' ≠ B.getHeader c) ∧
      ∃ c1, c1 < A.columnCount ∧ A.getHeader c1 = B.getHeader c) := by
  obtain ⟨m1, m2⟩ := mem_foldl_markImportant A.fHeaderInfo (A, B) c
  have hnd : (A.fHeaderInfo.map Prod.fst).Nodup := by
    rw [hA.1]
    exact (sorted_headerInfo A.getHeader A.columnCount).nodup
  unfold computeImportantColumns
  rw [m1, m2]
  simp only [hA.2, hB.2, List.not_mem_nil, false_or]
  constructor
  · constructor
    · rintro ⟨e, he, hc, hs⟩
      have hf := mapFind_of_mem_of_nodup e.1 e.2 A.fHeaderInfo hnd he
      rw [hA.1, mapFind_headerInfo] at hf
      rw [hB.1, mapFind_headerInfo_isSome] at hs
      obtain ⟨h1, h2, h3⟩ := hf
      obtain ⟨c2, h4, h5⟩ := hs
      subst hc
      refine ⟨h1, ?_, c2, h4, ?_⟩
      · intro c' hc1 hc2
        rw [h2]
        exact h3 c' hc1 hc2
      · rw [h2]; exact h5
    · rintro ⟨h1, h3, c2, h4, h5⟩
      refine ⟨(A.getHeader c, c), ?_, rfl, ?_⟩
      · apply mem_of_mapFind
        rw [hA.1, mapFind_headerInfo]
        exact ⟨h1, rfl, h3⟩
      · rw [hB.1, mapFind_headerInfo_isSome]
        exact ⟨c2, h4, h5⟩
  · constructor
    · rintro ⟨e, he, hf2⟩
      have hf := mapFind_of_mem_of_nodup e.1 e.2 A.fHeaderInfo hnd he
      rw [hA.1, mapFind_headerInfo] at hf
      rw [hB.1, mapFind_headerInfo] at hf2
      obtain ⟨h1, h2, -⟩ := hf
      obtain ⟨h4, h5, h6⟩ := hf2
      refine ⟨h4, ?_, e.2, h1, ?_⟩
      · intro c' hc1 hc2
        rw [h5]
        exact h6 c' hc1 hc2
      · rw [h2, h5]
    · rintro ⟨h4, h6, c1, h1, h2⟩
      have hs : (mapFind (B.getHeader c) A.fHeaderInfo).isSome = true := by
        rw [hA.1, mapFind_headerInfo_isSome]
        exact ⟨c1, h1, h2⟩
      obtain ⟨i, hi⟩ := Option.isSome_iff_exists.1 hs
      refine ⟨(B.getHeader c, i), mem_of_mapFind _ _ _ hi, ?_⟩
      rw [hB.1, mapFind_headerInfo]
      exact ⟨h4, rfl, h6⟩

theorem sorted_computeImportantColumns (A B : SFileData H) (hA : A.freshlyLoaded)
    (hB : B.freshlyLoaded) :
    (computeImportantColumns A B).1.fImportantCols.Sorted (· < ·) ∧
    (computeImportantColumns A B).2.fImportantCols.Sorted (· < ·) := by
  unfold computeImportantColumns
  apply sorted_foldl_markImportant
  · simp [hA.2]
  · simp [hB.2]

/-- A successful `loadFile` into a cleared dataset leaves a freshly loaded dataset without
fingerprints. -/
theorem loadFile_freshlyLoaded {H : Type} (fuel : Nat) (lines : List QString)
    (d d' : SFileData H) (h : loadFile fuel lines d = some (true, d'))
    (h1 : d.fHeaderInfo = []) (h2 : d.fImportantCols = []) (h3 : d.fRowToMD5 = [])
    (h4 : d.fMD5ToRow = []) :
    d'.freshlyLoaded ∧ d'.fRowToMD5 = [] ∧ d'.fMD5ToRow = [] := by
  unfold loadFile at h
  split at h
  · exact absurd h (by simp)
  · split at h
    · exact absurd h (by simp)
    · split at h
      · exact absurd h (by simp)
      · simp only at h
        split at h
        · simp only [Option.some.injEq, Prod.mk.injEq, true_and] at h
          subst h
          refine ⟨⟨?_, ?_⟩, ?_, ?_⟩
          · simp [computeHeaderInfo, h1, columnCount, getHeader]
          · simpa [computeHeaderInfo] using h2
          · simpa [computeHeaderInfo] using h3
          · simpa [computeHeaderInfo] using h4
        · exact absurd h (by simp)

end SFileData

/-! ## The tokenizer on lines without quotes and on a leading quoted field -/

/-- C9: for every line without a double quote that is not empty after trimming, `getRow` with
an empty merge plan returns the trimmed line split at every comma: the number of fields is the
number of commas plus one, joining the fields with `,` gives back the trimmed line, and no
field contains a comma; the line `a,b,c` gives the fields `a`, `b`, `c`. -/
theorem getRow_quote_free :
    (∀ currLine : QString, '"' ∉ currLine → trimmed currLine ≠ [] →
      ∃ fields, getRow currLine [] = some (true, fields) ∧
        fields.length = (trimmed currLine).count ',' + 1 ∧
        join [','] fields = trimmed currLine ∧
        ∀ f ∈ fields, ',' ∉ f) ∧
    getRow "a,b,c".toList [] = some (true, ["a".toList, "b".toList, "c".toList]) := by
  refine ⟨?_, by decide⟩
  intro currLine hq hne
  have hq' := not_mem_trimmed _ _ hq
  obtain ⟨h1, h2, h3⟩ := scanLine_quote_free (trimmed currLine) hq' []
  refine ⟨scanLine (trimmed currLine) false [] [], ?_, h1, by simpa using h2, h3 (by simp)⟩
  simp [getRow, hne]

/-- Witness of C9 at the line ` x,,y z ` (white space at both ends, an empty field). -/
theorem getRow_quote_free_witness :
    '"' ∉ " x,,y z ".toList ∧ trimmed " x,,y z ".toList ≠ [] ∧
    getRow " x,,y z ".toList [] = some (true, ["x".toList, [], "y z".toList]) ∧
    ∃ fields, getRow " x,,y z ".toList [] = some (true, fields) ∧
      fields.length = (trimmed " x,,y z ".toList).count ',' + 1 ∧
      join [','] fields = trimmed " x,,y z ".toList ∧
      ∀ f ∈ fields, ',' ∉ f :=
  ⟨by decide, by decide, by decide, getRow_quote_free.1 _ (by decide) (by decide)⟩

/-- C10: for every quote-free `s` (commas allowed) and quote-free `t`, the line `"s",t` is
tokenized to `s`, verbatim and unsplit, followed by the fields of `t`: the pieces of `t` between
its commas, `t` taken without the trailing white space that trimming the line removes; when `t` is
itself a trimmed non-empty line these are the fields `getRow` gives for `t`. The line `"a,b",c`
gives the fields `a,b` and `c`. -/
theorem getRow_quoted_first :
    (∀ s t : QString, '"' ∉ s → '"' ∉ t →
      ∃ fs, getRow ('"' :: (s ++ '"' :: ',' :: t)) [] = some (true, s :: fs) ∧
        fs.length = (t.rdropWhile isSpace).count ',' + 1 ∧
        join [','] fs = t.rdropWhile isSpace ∧
        (∀ f ∈ fs, ',' ∉ f) ∧
        (trimmed t = t → t ≠ [] → getRow t [] = some (true, fs))) ∧
    getRow "\"a,b\",c".toList [] = some (true, ["a,b".toList, "c".toList]) := by
  refine ⟨?_, by decide⟩
  intro s t hs ht
  have ht' : '"' ∉ t.rdropWhile isSpace :=
    fun h => ht ((List.rdropWhile_prefix isSpace t).subset h)
  obtain ⟨h1, h2, h3⟩ := scanLine_quote_free (t.rdropWhile isSpace) ht' []
  have htrim : trimmed ('"' :: (s ++ '"' :: ',' :: t))
      = '"' :: (s ++ '"' :: ',' :: t.rdropWhile isSpace) := by
    rw [trimmed_eq_rdropWhile]
    have hd : List.dropWhile isSpace ('"' :: (s ++ '"' :: ',' :: t))
        = ('"' :: (s ++ ['"'])) ++ ',' :: t := by
      rw [List.dropWhile_cons_of_neg (by simp [isSpace])]; simp
    rw [hd, rdropWhile_append_comma]; simp
  have hscan : scanLine ('"' :: (s ++ '"' :: ',' :: t.rdropWhile isSpace)) false [] []
      = s :: scanLine (t.rdropWhile isSpace) false [] [] := by
    have h0 : scanLine ('"' :: (s ++ '"' :: ',' :: t.rdropWhile isSpace)) false [] []
        = scanLine (s ++ '"' :: ',' :: t.rdropWhile isSpace) true [] [] := by
      simp [scanLine]
    rw [h0, scanLine_quoted s hs, scanLine_acc]; simp
  refine ⟨scanLine (t.rdropWhile isSpace) false [] [], ?_, h1, by simpa using h2,
    h3 (by simp), ?_⟩
  · simp only [getRow, htrim, hscan]; simp
  · intro htt hne
    have hr := rdropWhile_eq_of_trimmed_eq t htt
    rw [hr]
    simp [getRow, htt, hne]

/-- Witness of C10 at `s = a,b` and the trimmed line `t = c , d`. -/
theorem getRow_quoted_first_witness :
    '"' ∉ "a,b".toList ∧ '"' ∉ "c , d".toList ∧
    trimmed "c , d".toList = "c , d".toList ∧ "c , d".toList ≠ [] ∧
    ∃ fs, getRow ('"' :: ("a,b".toList ++ '"' :: ',' :: "c , d".toList)) []
        = some (true, "a,b".toList :: fs) ∧
      fs.length = ("c , d".toList.rdropWhile isSpace).count ',' + 1 ∧
      join [','] fs = "c , d".toList.rdropWhile isSpace ∧
      (∀ f ∈ fs, ',' ∉ f) ∧
      getRow "c , d".toList [] = some (true, fs) :=
  ⟨by decide, by decide, by decide, by decide,
    (getRow_quoted_first.1 _ _ (by decide) (by decide)).imp
      (fun _ h => ⟨h.1, h.2.1, h.2.2.1, h.2.2.2.1, h.2.2.2.2 (by decide) (by decide)⟩)⟩

/-! ## The merge: completeness, order, counts and row assembly -/

namespace SFileData

/-- C1: for datasets `A` and `B` without stale fingerprints and an empty merged model, with
`L` and `R` the two datasets as fingerprinted by `mergeData`: the rows of the merged model are
the rows assembled for the pairs of the multimap; these pairs are, up to order, one pair per row
of `A` (class Both when the fingerprint of the row is a key of the fingerprint-to-row map of `R`,
class LeftOnly otherwise) and one pair of class RightOnly per row of `B` whose fingerprint is no
key of the map of `L`, and nothing else, the fingerprint of a row being the one its dataset
records for it; so the model has `|A|` plus the number of `B`-only rows, and the three counters
are the numbers of pairs of each class. -/
theorem mergeData_complete {H : Type} [DecidableEq H] (getMd5 : QStringList → H)
    (A B L R : SFileData H) (M : SMergedData)
    (hA : A.fRowToMD5 = []) (hB : B.fRowToMD5 = []) (hM : M.fData = [])
    (hLR : computeMD5sBoth getMd5 A B = (L, R)) :
    (mergeData getMd5 A B M).retVal.fData
      = ((buildMergedData L R).map Prod.snd).map (mergedRow L R) ∧
    ((buildMergedData L R).map Prod.snd).Perm (lhsPairs getMd5 L R ++ rhsPairs getMd5 L R) ∧
    (L.rowCount = A.rowCount ∧ R.rowCount = B.rowCount) ∧
    (L.fRowToMD5 = (List.range L.rowCount).map (fun ii => (ii, fingerprint getMd5 L ii)) ∧
      R.fRowToMD5 = (List.range R.rowCount).map (fun ii => (ii, fingerprint getMd5 R ii))) ∧
    (∀ row : Nat,
      isBoth (lhsPair R row (fingerprint getMd5 L row))
        = (mapFind (fingerprint getMd5 L row) R.fMD5ToRow).isSome ∧
      isLeftOnly (lhsPair R row (fingerprint getMd5 L row))
        = (mapFind (fingerprint getMd5 L row) R.fMD5ToRow).isNone ∧
      isRightOnly (lhsPair R row (fingerprint getMd5 L row)) = false) ∧
    (∀ e ∈ rhsPairs getMd5 L R, isRightOnly e = true ∧ isLeftOnly e = false ∧ isBoth e = false) ∧
    (mergeData getMd5 A B M).retVal.fData.length
      = A.rowCount + (rhsOnlyRows getMd5 L R).length ∧
    (loadMergedData L R (buildMergedData L R) M.fData).bothCount
      = (((buildMergedData L R).map Prod.snd).countP isBoth : Int) ∧
    (loadMergedData L R (buildMergedData L R) M.fData).lhsOnlyCount
      = (((buildMergedData L R).map Prod.snd).countP isLeftOnly : Int) ∧
    (loadMergedData L R (buildMergedData L R) M.fData).rhsOnlyCount
      = (((buildMergedData L R).map Prod.snd).countP isRightOnly : Int) := by
  have hL1 : L = (computeMD5sBoth getMd5 A B).1 := by rw [hLR]
  have hR1 : R = (computeMD5sBoth getMd5 A B).2 := by rw [hLR]
  have hcount := computeMD5sBoth_rowCount getMd5 A B
  rw [← hL1, ← hR1] at hcount
  have hrows := computeMD5sBoth_fRowToMD5 getMd5 A B
  rw [← hL1, ← hR1] at hrows
  obtain ⟨hperm, -⟩ := buildMergedData_spec getMd5 L R (hrows.1 hA) (hrows.2 hB)
  obtain ⟨f1, f2, f3, f4⟩ := foldl_addMergedRow L R (buildMergedData L R)
    { fData := M.fData, lhsOnlyCount := 0, rhsOnlyCount := 0, bothCount := 0 }
  have hpairs : ((buildMergedData L R).map Prod.snd).Perm
      (lhsPairs getMd5 L R ++ rhsPairs getMd5 L R) := by
    have h := hperm.map Prod.snd
    rw [List.map_append, List.map_map, List.map_map] at h
    exact h
  have hdata : (mergeData getMd5 A B M).retVal.fData
      = ((buildMergedData L R).map Prod.snd).map (mergedRow L R) := by
    have h0 : (mergeData getMd5 A B M).retVal.fData
        = (loadMergedData L R (buildMergedData L R) M.fData).fData := by
      unfold mergeData; simp only [hLR]
    rw [h0]
    unfold loadMergedData
    rw [f1, hM, List.map_map]
    rfl
  refine ⟨hdata, hpairs, hcount, ⟨hrows.1 hA, hrows.2 hB⟩, ?_, ?_, ?_, ?_, ?_, ?_⟩
  · intro row
    exact class_lhsPair R row _
  · intro e he
    obtain ⟨row, -, rfl⟩ := List.mem_map.1 he
    exact class_rhsPair row
  · rw [hdata, List.length_map, hpairs.length_eq, List.length_append]
    simp [lhsPairs, rhsPairs, hcount.1]
  · unfold loadMergedData; rw [f4]; simp
  · unfold loadMergedData; rw [f2]; simp
  · unfold loadMergedData; rw [f3]; simp

/-- Witness of C1, the scenario of the spec: `A` holds `Al,100` and `Bo,200`, `B` holds `Al,100`
and `Cy,300`; the merged rows are of class Both, LeftOnly, RightOnly and every counter is 1. -/
theorem mergeData_complete_witness :
    (loaded ["Name,Ext", "Al,100", "Bo,200"]).fRowToMD5 = [] ∧
    (loaded ["Name,Ext", "Al,100", "Cy,300"]).fRowToMD5 = [] ∧
    (mergeData idealMd5 (loaded ["Name,Ext", "Al,100", "Bo,200"])
        (loaded ["Name,Ext", "Al,100", "Cy,300"]) {}).retVal.fData
      = [(["Al".toList, "100".toList], false, false), (["Bo".toList, "200".toList], true, false),
         (["Cy".toList, "300".toList], false, true)] ∧
    ((buildMergedData
        (computeMD5sBoth idealMd5 (loaded ["Name,Ext", "Al,100", "Bo,200"])
          (loaded ["Name,Ext", "Al,100", "Cy,300"])).1
        (computeMD5sBoth idealMd5 (loaded ["Name,Ext", "Al,100", "Bo,200"])
          (loaded ["Name,Ext", "Al,100", "Cy,300"])).2).map Prod.snd).countP isBoth = 1 ∧
    ((buildMergedData
        (computeMD5sBoth idealMd5 (loaded ["Name,Ext", "Al,100", "Bo,200"])
          (loaded ["Name,Ext", "Al,100", "Cy,300"])).1
        (computeMD5sBoth idealMd5 (loaded ["Name,Ext", "Al,100", "Bo,200"])
          (loaded ["Name,Ext", "Al,100", "Cy,300"])).2).map Prod.snd).countP isLeftOnly = 1 ∧
    ((buildMergedData
        (computeMD5sBoth idealMd5 (loaded ["Name,Ext", "Al,100", "Bo,200"])
          (loaded ["Name,Ext", "Al,100", "Cy,300"])).1
        (computeMD5sBoth idealMd5 (loaded ["Name,Ext", "Al,100", "Bo,200"])
          (loaded ["Name,Ext", "Al,100", "Cy,300"])).2).map Prod.snd).countP isRightOnly = 1 ∧
    (mergeData idealMd5 (loaded ["Name,Ext", "Al,100", "Bo,200"])
        (loaded ["Name,Ext", "Al,100", "Cy,300"]) {}).retVal.fData.length
      = (loaded ["Name,Ext", "Al,100", "Bo,200"]).rowCount +
        (rhsOnlyRows idealMd5
          (computeMD5sBoth idealMd5 (loaded ["Name,Ext", "Al,100", "Bo,200"])
            (loaded ["Name,Ext", "Al,100", "Cy,300"])).1
          (computeMD5sBoth idealMd5 (loaded ["Name,Ext", "Al,100", "Bo,200"])
            (loaded ["Name,Ext", "Al,100", "Cy,300"])).2).length :=
  ⟨by decide, by decide, by decide, by decide, by decide, by decide,
    (mergeData_complete idealMd5 (loaded ["Name,Ext", "Al,100", "Bo,200"])
      (loaded ["Name,Ext", "Al,100", "Cy,300"]) _ _ {} (by decide) (by decide) rfl
      rfl).2.2.2.2.2.2.1⟩

/-! ### Order of the merged rows -/

/-- Counterexample to C2: `A` holds the rows `Al`, `Bo` and `B` holds `Cy`, `Al`. The merged rows
come out as `Al`, `Cy`, `Bo`: the row `Cy`, which only `B` has, is emitted before the row `Bo` of
`A`, so the pairs are not the rows of `A` followed by the `B`-only rows. -/
theorem mergeData_order_counterexample :
    (mergeData idealMd5 (loaded ["Name", "Al", "Bo"])
        (loaded ["Name", "Cy", "Al"]) {}).retVal.fData.map Prod.fst
      = [["Al".toList], ["Cy".toList], ["Bo".toList]] ∧
    (buildMergedData
        (computeMD5sBoth idealMd5 (loaded ["Name", "Al", "Bo"]) (loaded ["Name", "Cy", "Al"])).1
        (computeMD5sBoth idealMd5 (loaded ["Name", "Al", "Bo"])
          (loaded ["Name", "Cy", "Al"])).2).map Prod.snd
      ≠ lhsPairs idealMd5
          (computeMD5sBoth idealMd5 (loaded ["Name", "Al", "Bo"]) (loaded ["Name", "Cy", "Al"])).1
          (computeMD5sBoth idealMd5 (loaded ["Name", "Al", "Bo"]) (loaded ["Name", "Cy", "Al"])).2
        ++ rhsPairs idealMd5
          (computeMD5sBoth idealMd5 (loaded ["Name", "Al", "Bo"]) (loaded ["Name", "Cy", "Al"])).1
          (computeMD5sBoth idealMd5 (loaded ["Name", "Al", "Bo"])
            (loaded ["Name", "Cy", "Al"])).2 := by
  constructor <;> decide

/-- C2, amended: for datasets `A` and `B` without stale fingerprints and an empty merged model,
with `L` and `R` the two datasets as fingerprinted by `mergeData`, the merged rows are assembled
from the entries of the multimap in its order, which is the order of the row index (the key is the
row of `A`, or the row of `B` for a `B`-only entry): an entry comes before every entry of a
greater row index and, at the same row index, the row of `A` comes before the `B`-only row. The
rows of `A` keep their load order among themselves, and so do the `B`-only rows. -/
theorem mergeData_order {H : Type} [DecidableEq H] (getMd5 : QStringList → H)
    (A B L R : SFileData H) (M : SMergedData)
    (hA : A.fRowToMD5 = []) (hB : B.fRowToMD5 = []) (hM : M.fData = [])
    (hLR : computeMD5sBoth getMd5 A B = (L, R)) :
    (mergeData getMd5 A B M).retVal.fData
      = (buildMergedData L R).map (fun e => mergedRow L R e.2) ∧
    (buildMergedData L R).Pairwise mergedBefore ∧
    (∀ e ∈ buildMergedData L R, e.1 = if e.2.1 = -1 then e.2.2 else e.2.1) ∧
    ((buildMergedData L R).map Prod.snd).filter (fun e => e.1 != -1) = lhsPairs getMd5 L R ∧
    ((buildMergedData L R).map Prod.snd).filter (fun e => e.1 == -1) = rhsPairs getMd5 L R := by
  have hL1 : L = (computeMD5sBoth getMd5 A B).1 := by rw [hLR]
  have hR1 : R = (computeMD5sBoth getMd5 A B).2 := by rw [hLR]
  have hrows := computeMD5sBoth_fRowToMD5 getMd5 A B
  rw [← hL1, ← hR1] at hrows
  obtain ⟨-, hpw⟩ := buildMergedData_spec getMd5 L R (hrows.1 hA) (hrows.2 hB)
  obtain ⟨g1, g2, g3⟩ := buildMergedData_filter getMd5 L R (hrows.1 hA) (hrows.2 hB)
  obtain ⟨f1, -⟩ := foldl_addMergedRow L R (buildMergedData L R)
    { fData := M.fData, lhsOnlyCount := 0, rhsOnlyCount := 0, bothCount := 0 }
  refine ⟨?_, hpw, g3, g1, g2⟩
  have h0 : (mergeData getMd5 A B M).retVal.fData
      = (loadMergedData L R (buildMergedData L R) M.fData).fData := by
    unfold mergeData; simp only [hLR]
  rw [h0]
  unfold loadMergedData
  rw [f1, hM]
  rfl

/-- Witness of C2, amended, at the datasets of the counterexample: the multimap holds `Al` (row 0
of `A`, found at row 1 of `B`), `Cy` (row 0 of `B`), `Bo` (row 1 of `A`). -/
theorem mergeData_order_witness :
    (loaded ["Name", "Al", "Bo"]).fRowToMD5 = [] ∧
    (loaded ["Name", "Cy", "Al"]).fRowToMD5 = [] ∧
    buildMergedData
        (computeMD5sBoth idealMd5 (loaded ["Name", "Al", "Bo"]) (loaded ["Name", "Cy", "Al"])).1
        (computeMD5sBoth idealMd5 (loaded ["Name", "Al", "Bo"]) (loaded ["Name", "Cy", "Al"])).2
      = [(0, (0, 1)), (0, (-1, 0)), (1, (1, -1))] ∧
    (buildMergedData
        (computeMD5sBoth idealMd5 (loaded ["Name", "Al", "Bo"]) (loaded ["Name", "Cy", "Al"])).1
        (computeMD5sBoth idealMd5 (loaded ["Name", "Al", "Bo"])
          (loaded ["Name", "Cy", "Al"])).2).Pairwise mergedBefore :=
  ⟨by decide, by decide, by decide,
    (mergeData_order idealMd5 (loaded ["Name", "Al", "Bo"]) (loaded ["Name", "Cy", "Al"]) _ _ {}
      (by decide) (by decide) rfl rfl).2.1⟩

/-! ### Sub-counts -/

/-- The sub-counts `mergeData` records: the counter `lhsOnlyCount` on both sides and the counter
`bothCount` on the merged dataset; `rhsOnlyCount` is recorded nowhere. -/
theorem mergeData_subCounts {H : Type} [DecidableEq H] (getMd5 : QStringList → H)
    (A B L R : SFileData H) (M : SMergedData) (hLR : computeMD5sBoth getMd5 A B = (L, R)) :
    (mergeData getMd5 A B M).lhs.fSubCount
      = some (((buildMergedData L R).map Prod.snd).countP isLeftOnly : Int) ∧
    (mergeData getMd5 A B M).rhs.fSubCount
      = some (((buildMergedData L R).map Prod.snd).countP isLeftOnly : Int) ∧
    (mergeData getMd5 A B M).retVal.fSubCount
      = some (((buildMergedData L R).map Prod.snd).countP isBoth : Int) := by
  obtain ⟨-, f2, -, f4⟩ := foldl_addMergedRow L R (buildMergedData L R)
    { fData := M.fData, lhsOnlyCount := 0, rhsOnlyCount := 0, bothCount := 0 }
  unfold mergeData
  simp only [hLR]
  unfold loadMergedData
  rw [f2, f4]
  simp

/-- C3, the code at the failing input: `A` holds `Al`, `Bo` and `B` holds `Al`, so the merged
rows are one of class Both and one of class LeftOnly and none of class RightOnly; `mergeData`
records the sub-count 1 on `A`, 1 on the merged dataset, and 1 on `B`, which has no row of its
own (the call `rhs.setSubCount( lhsOnlyCount )`). -/
theorem mergeData_subCount_rhs :
    (mergeData idealMd5 (loaded ["Name", "Al", "Bo"]) (loaded ["Name", "Al"]) {}).retVal.fData
      = [(["Al".toList], false, false), (["Bo".toList], true, false)] ∧
    (mergeData idealMd5 (loaded ["Name", "Al", "Bo"]) (loaded ["Name", "Al"]) {}).lhs.fSubCount
      = some 1 ∧
    (mergeData idealMd5 (loaded ["Name", "Al", "Bo"]) (loaded ["Name", "Al"]) {}).retVal.fSubCount
      = some 1 ∧
    (mergeData idealMd5 (loaded ["Name", "Al", "Bo"]) (loaded ["Name", "Al"]) {}).rhs.fSubCount
      = some 1 ∧
    ((mergeData idealMd5 (loaded ["Name", "Al", "Bo"])
        (loaded ["Name", "Al"]) {}).retVal.fData.filter (fun row => row.2.2)).length = 0 := by
  refine ⟨?_, ?_, ?_, ?_, ?_⟩ <;> decide

/-! ### Assembly of a merged row -/

/-- C4: for datasets `A` and `B` without stale fingerprints and an empty merged model, with `L`
and `R` the two datasets as fingerprinted by `mergeData`, every merged row is assembled from an
entry `(a, b)` of the multimap as base fields followed by extra fields. The entry is of class
LeftOnly, Both or RightOnly; the base fields are the values `getData` gives for row `a` of `L` in
its important columns when the class is LeftOnly or Both, and the values for row `b` of `R` in the
important columns of `R` when it is RightOnly; the extra fields are the values for row `a` in the
extra columns of `L` followed by the values for row `b` in the extra columns of `R`. For an extra
column `getData` gives the default of the column when the row is absent (`-1`) or the stored cell
is empty, and the stored cell otherwise. -/
theorem mergeData_rows {H : Type} [DecidableEq H] (getMd5 : QStringList → H)
    (A B L R : SFileData H) (M : SMergedData)
    (hA : A.fRowToMD5 = []) (hB : B.fRowToMD5 = []) (hBm : B.fMD5ToRow = []) (hM : M.fData = [])
    (hLR : computeMD5sBoth getMd5 A B = (L, R)) :
    (mergeData getMd5 A B M).retVal.fData
      = (buildMergedData L R).map
          (fun e => (baseData L R e.2 ++ extraData L R e.2, isLeftOnly e.2, isRightOnly e.2)) ∧
    (∀ e ∈ buildMergedData L R,
      (isLeftOnly e.2 = true ∨ isBoth e.2 = true ∨ isRightOnly e.2 = true) ∧
      (isLeftOnly e.2 = true ∨ isBoth e.2 = true →
        baseData L R e.2 = L.fImportantCols.map (L.getData e.2.1)) ∧
      (isRightOnly e.2 = true → baseData L R e.2 = R.fImportantCols.map (R.getData e.2.2)) ∧
      extraData L R e.2
        = (L.fExtraUnimportantCols.map Prod.fst).map (L.getData e.2.1) ++
          (R.fExtraUnimportantCols.map Prod.fst).map (R.getData e.2.2)) ∧
    (∀ (d : SFileData H) (row : Int) (col : Nat) (dflt : QString),
      mapFind col d.fExtraUnimportantCols = some dflt →
      (row = -1 ∨ d.itemText row col = [] → d.getData row col = dflt) ∧
      (row ≠ -1 → d.itemText row col ≠ [] → d.getData row col = d.itemText row col)) := by
  have hL1 : L = (computeMD5sBoth getMd5 A B).1 := by rw [hLR]
  have hR1 : R = (computeMD5sBoth getMd5 A B).2 := by rw [hLR]
  have hrows := computeMD5sBoth_fRowToMD5 getMd5 A B
  rw [← hL1, ← hR1] at hrows
  have hRm : ∀ md5 pos, mapFind md5 R.fMD5ToRow = some pos → pos < R.rowCount := by
    intro md5 pos hf
    rw [hR1] at hf ⊢
    obtain ⟨-, -, -, -, -, -, -, h8, -⟩ := foldl_markImportant_fields A.fHeaderInfo (A, B)
    exact computeMD5s_find_md5_lt getMd5 (computeImportantColumns A B).2
      (by unfold computeImportantColumns; rw [h8]; exact hBm) md5 pos hf
  obtain ⟨f1, -⟩ := foldl_addMergedRow L R (buildMergedData L R)
    { fData := M.fData, lhsOnlyCount := 0, rhsOnlyCount := 0, bothCount := 0 }
  refine ⟨?_, ?_, ?_⟩
  · have h0 : (mergeData getMd5 A B M).retVal.fData
        = (loadMergedData L R (buildMergedData L R) M.fData).fData := by
      unfold mergeData; simp only [hLR]
    rw [h0]
    unfold loadMergedData
    rw [f1, hM]
    rfl
  · intro e he
    have hneg : ((-1 : Int) < (L.rowCount : Int)) ∧ ((-1 : Int) < (R.rowCount : Int)) := by
      constructor <;> omega
    rcases mem_buildMergedData getMd5 L R (hrows.1 hA) (hrows.2 hB) hRm e he with
      ⟨i, hi, h⟩ | ⟨i, pos, hi, hpos, h⟩ | ⟨j, hj, h⟩
    · have h0 : ((i : Int) == -1) = false := by
        simp only [beq_eq_false_iff_ne]; omega
      have hi' : (i : Int) < (L.rowCount : Int) := by omega
      rw [h]
      simp [isLeftOnly, isBoth, isRightOnly, baseData, extraData, h0, getRowData, getExtraData,
        getEmptyExtraData, getDataCols_of_lt _ _ _ hi', getDataCols_of_lt _ _ _ hneg.2]
    · have h0 : ((i : Int) == -1) = false := by
        simp only [beq_eq_false_iff_ne]; omega
      have h1 : ((pos : Int) == -1) = false := by
        simp only [beq_eq_false_iff_ne]; omega
      have hi' : (i : Int) < (L.rowCount : Int) := by omega
      have hpos' : (pos : Int) < (R.rowCount : Int) := by omega
      rw [h]
      simp [isLeftOnly, isBoth, isRightOnly, baseData, extraData, h0, h1, getRowData,
        getExtraData, getDataCols_of_lt _ _ _ hi', getDataCols_of_lt _ _ _ hpos']
    · have h0 : ((j : Int) == -1) = false := by
        simp only [beq_eq_false_iff_ne]; omega
      have hj' : (j : Int) < (R.rowCount : Int) := by omega
      rw [h]
      simp [isLeftOnly, isBoth, isRightOnly, baseData, extraData, h0, getRowData, getExtraData,
        getEmptyExtraData, getDataCols_of_lt _ _ _ hj', getDataCols_of_lt _ _ _ hneg.1]
  · intro d row col dflt hc
    exact ⟨getData_default d row col dflt hc, fun hr h => getData_cell d row col hr (Or.inl h)⟩

/-- Witness of C4: `A` has the extra column `Call Type` (default `Private Call`) and `B` the extra
column `Remarks` (default empty). The row `Al` of class Both takes its base field from `A`, the
default for the empty `Call Type` cell and the `Remarks` of `B`; the row `Bo` of class LeftOnly
takes the default of `Remarks` for the absent row of `B`; the row `Cy` of class RightOnly takes
its base field from `B` and the default of `Call Type` for the absent row of `A`. -/
theorem mergeData_rows_witness :
    (loaded ["Name,Call Type", "Al,", "Bo,Group"]).fRowToMD5 = [] ∧
    (loaded ["Name,Remarks", "Al,hi", "Cy,"]).fRowToMD5 = [] ∧
    (loaded ["Name,Remarks", "Al,hi", "Cy,"]).fMD5ToRow = [] ∧
    (mergeData idealMd5 (loaded ["Name,Call Type", "Al,", "Bo,Group"])
        (loaded ["Name,Remarks", "Al,hi", "Cy,"]) {}).retVal.fData
      = [(["Al".toList, "Private Call".toList, "hi".toList], false, false),
         (["Bo".toList, "Group".toList, []], true, false),
         (["Cy".toList, "Private Call".toList, []], false, true)] ∧
    (mergeData idealMd5 (loaded ["Name,Call Type", "Al,", "Bo,Group"])
        (loaded ["Name,Remarks", "Al,hi", "Cy,"]) {}).retVal.fData
      = (buildMergedData
          (computeMD5sBoth idealMd5 (loaded ["Name,Call Type", "Al,", "Bo,Group"])
            (loaded ["Name,Remarks", "Al,hi", "Cy,"])).1
          (computeMD5sBoth idealMd5 (loaded ["Name,Call Type", "Al,", "Bo,Group"])
            (loaded ["Name,Remarks", "Al,hi", "Cy,"])).2).map
          (fun e =>
            (baseData
                (computeMD5sBoth idealMd5 (loaded ["Name,Call Type", "Al,", "Bo,Group"])
                  (loaded ["Name,Remarks", "Al,hi", "Cy,"])).1
                (computeMD5sBoth idealMd5 (loaded ["Name,Call Type", "Al,", "Bo,Group"])
                  (loaded ["Name,Remarks", "Al,hi", "Cy,"])).2 e.2 ++
              extraData
                (computeMD5sBoth idealMd5 (loaded ["Name,Call Type", "Al,", "Bo,Group"])
                  (loaded ["Name,Remarks", "Al,hi", "Cy,"])).1
                (computeMD5sBoth idealMd5 (loaded ["Name,Call Type", "Al,", "Bo,Group"])
                  (loaded ["Name,Remarks", "Al,hi", "Cy,"])).2 e.2,
              isLeftOnly e.2, isRightOnly e.2)) :=
  ⟨by decide, by decide, by decide, by decide,
    (mergeData_rows idealMd5 (loaded ["Name,Call Type", "Al,", "Bo,Group"])
      (loaded ["Name,Remarks", "Al,hi", "Cy,"]) _ _ {} (by decide) (by decide) (by decide) rfl
      rfl).1⟩

/-! ## Fingerprints -/

theorem foldl_importantData {H : Type} (d : SFileData H) (ii : Nat) (cols : List Nat) :
    ∀ acc : QStringList,
      cols.foldl
        (fun acc jj =>
          let text := d.itemText ii jj
          if !text.isEmpty then acc ++ [left 16 text] else acc) acc
        = acc ++ ((cols.map (d.itemText ii)).filter (fun text => !text.isEmpty)).map (left 16) := by
  induction cols with
  | nil => intro acc; simp
  | cons c rest ih =>
    intro acc
    simp only [List.foldl_cons, List.map_cons, List.filter_cons]
    rw [ih]
    by_cases h : (d.itemText (ii : Int) c).isEmpty = true
    · simp [h]
    · simp [h]

theorem importantData_eq {H : Type} (d : SFileData H) (ii : Nat) :
    d.importantData ii
      = ((d.fImportantCols.map (d.itemText ii)).filter (fun text => !text.isEmpty)).map
          (left 16) := by
  unfold importantData
  rw [foldl_importantData]
  simp

/-- C5: in a dataset whose important columns form a `std::set` (strictly ascending), two rows
`r1` and `r2` with the same sequence of important-column values, taken in ascending column
index, without the empty ones and each cut to 16 characters, receive the same fingerprint from
`computeMD5s`: the hash of that sequence. -/
theorem computeMD5s_deterministic {H : Type} [DecidableEq H] (getMd5 : QStringList → H)
    (d : SFileData H) (r1 r2 : Nat) (hs : d.fImportantCols.Sorted (· < ·))
    (h1 : r1 < d.rowCount) (h2 : r2 < d.rowCount)
    (h : d.truncatedValues r1 = d.truncatedValues r2) :
    mapFind r1 (computeMD5s getMd5 d).fRowToMD5 = some (getMd5 (d.truncatedValues r1)) ∧
    mapFind r2 (computeMD5s getMd5 d).fRowToMD5 = mapFind r1 (computeMD5s getMd5 d).fRowToMD5 := by
  have hsort : d.fImportantCols.insertionSort (· ≤ ·) = d.fImportantCols :=
    List.Sorted.insertionSort_eq (hs.imp (fun h => le_of_lt h))
  have hv : ∀ r, d.truncatedValues r = d.importantData r := by
    intro r
    rw [importantData_eq]
    unfold truncatedValues
    rw [hsort]
  rw [computeMD5s_find_row getMd5 d r1 h1, computeMD5s_find_row getMd5 d r2 h2]
  unfold fingerprint
  rw [← hv r1, ← hv r2, h]
  exact ⟨rfl, rfl⟩

/-- Witness of C5: with both columns important, the rows `("Al", "")` and `("", "Al")`
fingerprint identically, and so do two rows that differ in the 17th character only. -/
theorem computeMD5s_deterministic_witness :
    (mapFind 1 (computeMD5s idealMd5
        { rows := [["Al".toList, []], [[], "Al".toList]], fImportantCols := [0, 1] }).fRowToMD5
      = mapFind 0 (computeMD5s idealMd5
        { rows := [["Al".toList, []], [[], "Al".toList]], fImportantCols := [0, 1] }).fRowToMD5) ∧
    (mapFind 1 (computeMD5s idealMd5
        { rows := [["0123456789abcdefX".toList, "u".toList], ["0123456789abcdefY".toList,
            "u".toList]], fImportantCols := [0, 1] }).fRowToMD5
      = mapFind 0 (computeMD5s idealMd5
        { rows := [["0123456789abcdefX".toList, "u".toList], ["0123456789abcdefY".toList,
            "u".toList]], fImportantCols := [0, 1] }).fRowToMD5) :=
  ⟨(computeMD5s_deterministic idealMd5
      { rows := [["Al".toList, []], [[], "Al".toList]], fImportantCols := [0, 1] } 0 1
      (by decide) (by decide) (by decide) (by decide)).2,
    (computeMD5s_deterministic idealMd5
      { rows := [["0123456789abcdefX".toList, "u".toList], ["0123456789abcdefY".toList,
          "u".toList]], fImportantCols := [0, 1] } 0 1
      (by decide) (by decide) (by decide) (by decide)).2⟩

/-! ### Extra columns and the fingerprint -/

theorem foldl_markImportant_congr {H : Type} (l : List (QString × Nat)) :
    ∀ p p' : SFileData H × SFileData H,
      p'.1.fImportantCols = p.1.fImportantCols → p'.2.fImportantCols = p.2.fImportantCols →
      p'.2.fHeaderInfo = p.2.fHeaderInfo →
      (l.foldl markImportant p').1.fImportantCols = (l.foldl markImportant p).1.fImportantCols ∧
      (l.foldl markImportant p').2.fImportantCols = (l.foldl markImportant p).2.fImportantCols := by
  induction l with
  | nil => intro p p' h1 h2 _; exact ⟨h1, h2⟩
  | cons e rest ih =>
    intro p p' h1 h2 h3
    simp only [List.foldl_cons]
    apply ih
    · unfold markImportant
      rw [h3]
      cases mapFind e.1 p.2.fHeaderInfo with
      | none => exact h1
      | some pos => simp only [h1]
    · unfold markImportant
      rw [h3]
      cases mapFind e.1 p.2.fHeaderInfo with
      | none => exact h2
      | some pos => simp only [h2]
    · unfold markImportant
      rw [h3]
      cases mapFind e.1 p.2.fHeaderInfo with
      | none => exact h3
      | some pos => exact h3

theorem importantData_congr {H : Type} (d d' : SFileData H) (r : Nat)
    (hc : d'.fImportantCols = d.fImportantCols)
    (ht : ∀ col ∈ d.fImportantCols, d'.itemText r col = d.itemText r col) :
    d'.importantData r = d.importantData r := by
  rw [importantData_eq, importantData_eq, hc, List.map_congr_left ht]

theorem itemText_of_rows_eq {H : Type} (d d' : SFileData H) (h : d'.rows = d.rows) (row : Int)
    (col : Nat) : d'.itemText row col = d.itemText row col := by
  unfold itemText
  rw [h]

/-- Counterexample to C6: both headers are `Name,Remarks`. The column `Remarks` (column 1) is
recorded in the extra-column table of `A` and is also in its important-column set, and changing
the `Remarks` value of the row `Al` of `A` from `x` to `y` changes its fingerprint: against
`B` with the row `Al,x`, the row is of class Both before the change and of class LeftOnly after
it. -/
theorem extra_column_counterexample :
    mapFind 1 (loaded ["Name,Remarks", "Al,x"]).fExtraUnimportantCols = some [] ∧
    1 ∈ (computeMD5sBoth idealMd5 (loaded ["Name,Remarks", "Al,x"])
      (loaded ["Name,Remarks", "Al,x"])).1.fImportantCols ∧
    fingerprint idealMd5 (computeMD5sBoth idealMd5 (loaded ["Name,Remarks", "Al,y"])
        (loaded ["Name,Remarks", "Al,x"])).1 0
      ≠ fingerprint idealMd5 (computeMD5sBoth idealMd5 (loaded ["Name,Remarks", "Al,x"])
        (loaded ["Name,Remarks", "Al,x"])).1 0 ∧
    (mergeData idealMd5 (loaded ["Name,Remarks", "Al,x"])
        (loaded ["Name,Remarks", "Al,x"]) {}).retVal.fData.map Prod.snd = [(false, false)] ∧
    (mergeData idealMd5 (loaded ["Name,Remarks", "Al,y"])
        (loaded ["Name,Remarks", "Al,x"]) {}).retVal.fData.map Prod.snd
      = [(true, false), (false, true)] := by
  refine ⟨?_, ?_, ?_, ?_, ?_⟩ <;> decide

/-- C6, amended: for freshly loaded datasets `A` and `B`, a column `c` of `A` whose header name
no column of `B` has (so in particular an extra column that only `A` has) is not in the
important-column set of `A`, and replacing the rows of `A` by rows that differ in column `c`
only leaves the fingerprint of every row unchanged; and likewise for a column of `B` whose header
name no column of `A` has. -/
theorem extra_column_fingerprint {H : Type} [DecidableEq H] (getMd5 : QStringList → H)
    (A B : SFileData H) (hA : A.freshlyLoaded) (hB : B.freshlyLoaded) :
    (∀ (c : Nat) (rows2 : List QStringList),
      (∀ c2, c2 < B.columnCount → B.getHeader c2 ≠ A.getHeader c) →
      (∀ (row : Int) (col : Nat), col ≠ c →
        ({ A with rows := rows2 } : SFileData H).itemText row col = A.itemText row col) →
      c ∉ (computeMD5sBoth getMd5 A B).1.fImportantCols ∧
      ∀ r : Nat, fingerprint getMd5 (computeMD5sBoth getMd5 { A with rows := rows2 } B).1 r
        = fingerprint getMd5 (computeMD5sBoth getMd5 A B).1 r) ∧
    (∀ (c : Nat) (rows2 : List QStringList),
      (∀ c1, c1 < A.columnCount → A.getHeader c1 ≠ B.getHeader c) →
      (∀ (row : Int) (col : Nat), col ≠ c →
        ({ B with rows := rows2 } : SFileData H).itemText row col = B.itemText row col) →
      c ∉ (computeMD5sBoth getMd5 A B).2.fImportantCols ∧
      ∀ r : Nat, fingerprint getMd5 (computeMD5sBoth getMd5 A { B with rows := rows2 }).2 r
        = fingerprint getMd5 (computeMD5sBoth getMd5 A B).2 r) := by
  have hm := mem_computeImportantColumns A B hA hB
  obtain ⟨r1, -, -, -, -, r6, -⟩ := foldl_markImportant_fields A.fHeaderInfo (A, B)
  constructor
  · intro c rows2 hname hcells
    have hnot : c ∉ (computeImportantColumns A B).1.fImportantCols := by
      intro hc
      obtain ⟨-, -, c2, h4, h5⟩ := (hm c).1.1 hc
      exact hname c2 h4 h5
    refine ⟨hnot, ?_⟩
    intro r
    obtain ⟨g1, -⟩ := foldl_markImportant_congr A.fHeaderInfo (A, B)
      (({ A with rows := rows2 } : SFileData H), B) rfl rfl rfl
    obtain ⟨q1, -⟩ := foldl_markImportant_fields A.fHeaderInfo
      (({ A with rows := rows2 } : SFileData H), B)
    show getMd5 (importantData (computeImportantColumns { A with rows := rows2 } B).1 r)
      = getMd5 (importantData (computeImportantColumns A B).1 r)
    congr 1
    apply importantData_congr
    · exact g1
    · intro col hcol
      have hne : col ≠ c := fun h => hnot (h ▸ hcol)
      rw [itemText_of_rows_eq _ _ (show (computeImportantColumns
            ({ A with rows := rows2 } : SFileData H) B).1.rows
          = ({ A with rows := rows2 } : SFileData H).rows from q1),
        itemText_of_rows_eq A (computeImportantColumns A B).1 r1]
      exact hcells r col hne
  · intro c rows2 hname hcells
    have hnot : c ∉ (computeImportantColumns A B).2.fImportantCols := by
      intro hc
      obtain ⟨-, -, c1, h4, h5⟩ := (hm c).2.1 hc
      exact hname c1 h4 h5
    refine ⟨hnot, ?_⟩
    intro r
    obtain ⟨-, g2⟩ := foldl_markImportant_congr A.fHeaderInfo (A, B)
      (A, ({ B with rows := rows2 } : SFileData H)) rfl rfl rfl
    obtain ⟨-, -, -, -, -, q6, -⟩ := foldl_markImportant_fields A.fHeaderInfo
      (A, ({ B with rows := rows2 } : SFileData H))
    show getMd5 (importantData (computeImportantColumns A { B with rows := rows2 }).2 r)
      = getMd5 (importantData (computeImportantColumns A B).2 r)
    congr 1
    apply importantData_congr
    · exact g2
    · intro col hcol
      have hne : col ≠ c := fun h => hnot (h ▸ hcol)
      rw [itemText_of_rows_eq _ _ (show (computeImportantColumns A
            ({ B with rows := rows2 } : SFileData H)).2.rows
          = ({ B with rows := rows2 } : SFileData H).rows from q6),
        itemText_of_rows_eq B (computeImportantColumns A B).2 r6]
      exact hcells r col hne

/-- Witness of C6, amended: `A` has the header `Name,Remarks` and `B` the header `Name,Ext`; the
extra column `Remarks` of `A` is not important and changing its value from `x` to `y` leaves the
fingerprints of `A` unchanged. -/
theorem extra_column_fingerprint_witness :
    (loaded ["Name,Remarks", "Al,x"]).freshlyLoaded ∧
    (loaded ["Name,Ext", "Al,100"]).freshlyLoaded ∧
    mapFind 1 (loaded ["Name,Remarks", "Al,x"]).fExtraUnimportantCols = some [] ∧
    (computeMD5sBoth idealMd5 (loaded ["Name,Remarks", "Al,x"])
      (loaded ["Name,Ext", "Al,100"])).1.fImportantCols = [0] ∧
    (1 ∉ (computeMD5sBoth idealMd5 (loaded ["Name,Remarks", "Al,x"])
        (loaded ["Name,Ext", "Al,100"])).1.fImportantCols ∧
      ∀ r : Nat,
        fingerprint idealMd5 (computeMD5sBoth idealMd5
            { loaded ["Name,Remarks", "Al,x"] with rows := [["Al".toList, "y".toList]] }
            (loaded ["Name,Ext", "Al,100"])).1 r
          = fingerprint idealMd5 (computeMD5sBoth idealMd5 (loaded ["Name,Remarks", "Al,x"])
            (loaded ["Name,Ext", "Al,100"])).1 r) := by
  refine ⟨by decide, by decide, by decide, by decide,
    (extra_column_fingerprint idealMd5 (loaded ["Name,Remarks", "Al,x"])
      (loaded ["Name,Ext", "Al,100"]) (by decide) (by decide)).1 1
      [["Al".toList, "y".toList]] (by decide) ?_⟩
  intro row col hcol
  have hr : (loaded ["Name,Remarks", "Al,x"]).rows = [["Al".toList, "x".toList]] := by decide
  unfold itemText
  simp only [hr]
  by_cases h0 : 0 ≤ row
  · simp only [h0, if_true]
    cases row.toNat with
    | zero =>
      cases col with
      | zero => rfl
      | succ col =>
        cases col with
        | zero => exact absurd rfl hcol
        | succ col => rfl
    | succ n => rfl
  · simp only [h0, if_false]

/-! ## Important columns -/

/-- Counterexample to C7: with header `Name` in `A` and `name` in `B` no column of either dataset
is marked important (the names are compared as they are written); and with the header
`Name,Name` in `A` and `Name` in `B` only the last of the two columns of `A` is marked. -/
theorem computeImportantColumns_counterexample :
    (computeImportantColumns (loaded ["Name", "Al"]) (loaded ["name", "Al"])).1.fImportantCols
      = [] ∧
    (computeImportantColumns (loaded ["Name", "Al"]) (loaded ["name", "Al"])).2.fImportantCols
      = [] ∧
    toLower ((loaded ["Name", "Al"]).getHeader 0) = toLower ((loaded ["name", "Al"]).getHeader 0) ∧
    (computeImportantColumns (loaded ["Name,Name", "Al,Al"])
      (loaded ["Name", "Al"])).1.fImportantCols = [1] := by
  refine ⟨?_, ?_, ?_, ?_⟩ <;> decide

/-- C7, amended: for freshly loaded datasets `A` and `B`, the important-column step marks column
`c` of `A` exactly when `c` is the last column of `A` with its header name and some column of `B`
has the same header name, the names being the header texts without one trailing `*`, compared as
they are written (no lower-casing); and symmetrically for the columns of `B`. -/
theorem computeImportantColumns_iff {H : Type} (A B : SFileData H) (hA : A.freshlyLoaded)
    (hB : B.freshlyLoaded) (c : Nat) :
    (c ∈ (computeImportantColumns A B).1.fImportantCols ↔
      c < A.columnCount ∧
      (∀ c', c < c' → c' < A.columnCount → A.getHeader c' ≠ A.getHeader c) ∧
      ∃ c2, c2 < B.columnCount ∧ B.getHeader c2 = A.getHeader c) ∧
    (c ∈ (computeImportantColumns A B).2.fImportantCols ↔
      c < B.columnCount ∧
      (∀ c', c < c' → c' < B.columnCount → B.getHeader c' ≠ B.getHeader c) ∧
      ∃ c1, c1 < A.columnCount ∧ A.getHeader c1 = B.getHeader c) :=
  mem_computeImportantColumns A B hA hB c

/-- Witness of C7, amended: with the headers `Ext,Name` and `Name,Id` the column 1 of the first
and the column 0 of the second dataset are marked important. -/
theorem computeImportantColumns_iff_witness :
    (loaded ["Ext,Name", "1,Al"]).freshlyLoaded ∧ (loaded ["Name,Id", "Al,7"]).freshlyLoaded ∧
    (computeImportantColumns (loaded ["Ext,Name", "1,Al"])
      (loaded ["Name,Id", "Al,7"])).1.fImportantCols = [1] ∧
    (computeImportantColumns (loaded ["Ext,Name", "1,Al"])
      (loaded ["Name,Id", "Al,7"])).2.fImportantCols = [0] ∧
    (1 ∈ (computeImportantColumns (loaded ["Ext,Name", "1,Al"])
        (loaded ["Name,Id", "Al,7"])).1.fImportantCols ↔
      1 < (loaded ["Ext,Name", "1,Al"]).columnCount ∧
      (∀ c', 1 < c' → c' < (loaded ["Ext,Name", "1,Al"]).columnCount →
        (loaded ["Ext,Name", "1,Al"]).getHeader c' ≠ (loaded ["Ext,Name", "1,Al"]).getHeader 1) ∧
      ∃ c2, c2 < (loaded ["Name,Id", "Al,7"]).columnCount ∧
        (loaded ["Name,Id", "Al,7"]).getHeader c2 = (loaded ["Ext,Name", "1,Al"]).getHeader 1) :=
  ⟨by decide, by decide, by decide, by decide,
    (computeImportantColumns_iff (loaded ["Ext,Name", "1,Al"]) (loaded ["Name,Id", "Al,7"])
      (by decide) (by decide) 1).1⟩

end SFileData

theorem exists_last_of_exists {κ : Type} [LinearOrder κ] [DecidableEq κ] (g : Nat → κ) (n : Nat)
    (name : κ) (h : ∃ c, c < n ∧ g c = name) :
    ∃ c, c < n ∧ g c = name ∧ ∀ c', c < c' → c' < n → g c' ≠ name := by
  have hs := (mapFind_headerInfo_isSome g n name).2 h
  obtain ⟨i, hi⟩ := Option.isSome_iff_exists.1 hs
  exact ⟨i, (mapFind_headerInfo g n name i).1 hi⟩

theorem eq_of_sorted_of_mem_iff (l1 l2 : List Nat) (h1 : l1.Sorted (· < ·))
    (h2 : l2.Sorted (· < ·)) (h : ∀ c, c ∈ l1 ↔ c ∈ l2) : l1 = l2 :=
  List.eq_of_perm_of_sorted ((List.perm_ext_iff_of_nodup h1.nodup h2.nodup).2 h) h1 h2

namespace SFileData

theorem length_computeImportantColumns {H : Type} (A B : SFileData H) (hA : A.freshlyLoaded)
    (hB : B.freshlyLoaded) :
    (computeImportantColumns A B).1.fImportantCols.length
      = (computeImportantColumns A B).2.fImportantCols.length := by
  obtain ⟨s1, s2⟩ := sorted_computeImportantColumns A B hA hB
  have hm := mem_computeImportantColumns A B hA hB
  have n1 : ((computeImportantColumns A B).1.fImportantCols.map A.getHeader).Nodup := by
    refine List.Nodup.map_on ?_ s1.nodup
    intro c hc c' hc' hcc
    obtain ⟨-, hl, -⟩ := (hm c).1.1 hc
    obtain ⟨-, hl', -⟩ := (hm c').1.1 hc'
    have b := ((hm c).1.1 hc).1
    have b' := ((hm c').1.1 hc').1
    rcases Nat.lt_trichotomy c c' with h | h | h
    · exact absurd hcc.symm (hl c' h b')
    · exact h
    · exact absurd hcc (hl' c h b)
  have n2 : ((computeImportantColumns A B).2.fImportantCols.map B.getHeader).Nodup := by
    refine List.Nodup.map_on ?_ s2.nodup
    intro c hc c' hc' hcc
    obtain ⟨-, hl, -⟩ := (hm c).2.1 hc
    obtain ⟨-, hl', -⟩ := (hm c').2.1 hc'
    have b := ((hm c).2.1 hc).1
    have b' := ((hm c').2.1 hc').1
    rcases Nat.lt_trichotomy c c' with h | h | h
    · exact absurd hcc.symm (hl c' h b')
    · exact h
    · exact absurd hcc (hl' c h b)
  have hmem : ∀ name, name ∈ (computeImportantColumns A B).1.fImportantCols.map A.getHeader ↔
      name ∈ (computeImportantColumns A B).2.fImportantCols.map B.getHeader := by
    intro name
    simp only [List.mem_map]
    constructor
    · rintro ⟨c, hc, rfl⟩
      obtain ⟨h1, -, c2, h4, h5⟩ := (hm c).1.1 hc
      obtain ⟨i, g1, g2, g3⟩ := exists_last_of_exists B.getHeader B.columnCount _ ⟨c2, h4, h5⟩
      refine ⟨i, (hm i).2.2 ⟨g1, ?_, c, h1, g2.symm⟩, g2⟩
      intro c' hc1 hc2
      rw [g2]
      exact g3 c' hc1 hc2
    · rintro ⟨c, hc, rfl⟩
      obtain ⟨h1, -, c2, h4, h5⟩ := (hm c).2.1 hc
      obtain ⟨i, g1, g2, g3⟩ := exists_last_of_exists A.getHeader A.columnCount _ ⟨c2, h4, h5⟩
      refine ⟨i, (hm i).1.2 ⟨g1, ?_, c, h1, g2.symm⟩, g2⟩
      intro c' hc1 hc2
      rw [g2]
      exact g3 c' hc1 hc2
  have hp := ((List.perm_ext_iff_of_nodup n1 n2).2 hmem).length_eq
  simpa using hp

/-- C8: for freshly loaded datasets `A` and `B`, running the important-column step on `(A, B)`
and on `(B, A)` marks the same columns of `A` and the same columns of `B`; and the set of `A` and
the set of `B` have the same number of elements. -/
theorem computeImportantColumns_symm {H : Type} (A B : SFileData H) (hA : A.freshlyLoaded)
    (hB : B.freshlyLoaded) :
    (computeImportantColumns A B).1.fImportantCols
      = (computeImportantColumns B A).2.fImportantCols ∧
    (computeImportantColumns A B).2.fImportantCols
      = (computeImportantColumns B A).1.fImportantCols ∧
    (computeImportantColumns A B).1.fImportantCols.length
      = (computeImportantColumns A B).2.fImportantCols.length := by
  obtain ⟨s1, s2⟩ := sorted_computeImportantColumns A B hA hB
  obtain ⟨t1, t2⟩ := sorted_computeImportantColumns B A hB hA
  refine ⟨eq_of_sorted_of_mem_iff _ _ s1 t2 ?_, eq_of_sorted_of_mem_iff _ _ s2 t1 ?_,
    length_computeImportantColumns A B hA hB⟩
  · intro c
    rw [(mem_computeImportantColumns A B hA hB c).1, (mem_computeImportantColumns B A hB hA c).2]
  · intro c
    rw [(mem_computeImportantColumns A B hA hB c).2, (mem_computeImportantColumns B A hB hA c).1]

/-- Witness of C8 at the headers `Ext,Name,Id` and `Id,Name,Tel`: columns 1 and 2 of the first
dataset and columns 0 and 1 of the second are marked, in either order of the two datasets. -/
theorem computeImportantColumns_symm_witness :
    (loaded ["Ext,Name,Id", "1,Al,7"]).freshlyLoaded ∧
    (loaded ["Id,Name,Tel", "7,Al,555"]).freshlyLoaded ∧
    (computeImportantColumns (loaded ["Ext,Name,Id", "1,Al,7"])
      (loaded ["Id,Name,Tel", "7,Al,555"])).1.fImportantCols = [1, 2] ∧
    (computeImportantColumns (loaded ["Ext,Name,Id", "1,Al,7"])
      (loaded ["Id,Name,Tel", "7,Al,555"])).2.fImportantCols = [0, 1] ∧
    (computeImportantColumns (loaded ["Ext,Name,Id", "1,Al,7"])
        (loaded ["Id,Name,Tel", "7,Al,555"])).1.fImportantCols
      = (computeImportantColumns (loaded ["Id,Name,Tel", "7,Al,555"])
        (loaded ["Ext,Name,Id", "1,Al,7"])).2.fImportantCols :=
  ⟨by decide, by decide, by decide, by decide,
    (computeImportantColumns_symm (loaded ["Ext,Name,Id", "1,Al,7"])
      (loaded ["Id,Name,Tel", "7,Al,555"]) (by decide) (by decide)).1⟩

end SFileData

/-! ## The tokenizer: closing quotes, totality -/

theorem ne_of_isSpace (c : Char) (h : isSpace c = true) : c ≠ ',' ∧ c ≠ '"' := by
  constructor
  · intro hc; rw [hc] at h; exact absurd h (by decide)
  · intro hc; rw [hc] at h; exact absurd h (by decide)

theorem quoteCloses_space_comma (w t : QString) (hw : ∀ c ∈ w, isSpace c = true) :
    quoteCloses (w ++ ',' :: t) = true := by
  induction w with
  | nil => simp [quoteCloses, isSpace]
  | cons c w ih =>
    have hc : isSpace c = true := hw c (List.mem_cons_self _ _)
    simp only [List.cons_append, quoteCloses, hc, if_true]
    exact ih (fun c' hc' => hw c' (List.mem_cons_of_mem _ hc'))

theorem scanLine_space_comma (w t : QString) (hw : ∀ c ∈ w, isSpace c = true) :
    ∀ (cur : QString) (acc : QStringList),
      scanLine (w ++ ',' :: t) false cur acc = scanLine t false [] (acc ++ [cur ++ w]) := by
  induction w with
  | nil => intro cur acc; simp [scanLine]
  | cons c w ih =>
    intro cur acc
    obtain ⟨h1, h2⟩ := ne_of_isSpace c (hw c (List.mem_cons_self _ _))
    have hstep : scanLine ((c :: w) ++ ',' :: t) false cur acc
        = scanLine (w ++ ',' :: t) false (cur ++ [c]) acc := by
      simp only [List.cons_append, scanLine, h1, h2, if_false]
      rfl
    rw [hstep, ih (fun c' hc' => hw c' (List.mem_cons_of_mem _ hc'))]
    simp

theorem scanLine_ne_nil (rest : QString) :
    ∀ (inQuote : Bool) (cur : QString) (acc : QStringList), scanLine rest inQuote cur acc ≠ [] := by
  induction rest with
  | nil => intro inQuote cur acc; simp [scanLine]
  | cons c rest ih =>
    intro inQuote cur acc
    cases inQuote with
    | true =>
      by_cases hc : c = '"'
      · simp only [scanLine, hc, if_true]; exact ih _ _ _
      · simp only [scanLine, hc, if_false]; exact ih _ _ _
    | false =>
      by_cases hcomma : c = ','
      · simp only [scanLine, hcomma, if_true]; exact ih _ _ _
      · by_cases hc : c = '"'
        · simp only [scanLine, hcomma, hc, if_true, if_false]; exact ih _ _ _
        · simp only [scanLine, hcomma, hc, if_false]; exact ih _ _ _

theorem mapInsert_ne_nil {κ β : Type} [LinearOrder κ] (k : κ) (v : β) (l : List (κ × β)) :
    mapInsert k v l ≠ [] := by
  cases l with
  | nil => simp [mapInsert]
  | cons e rest =>
    obtain ⟨k', v'⟩ := e
    unfold mapInsert
    split
    · simp
    · split <;> simp

theorem projectField_ne_nil (mergedData : TMergedType) (ii : Nat) (field : QString)
    (m : List (Nat × QStringList)) : projectField mergedData ii field m ≠ [] := by
  unfold projectField
  split
  · exact mapInsert_ne_nil _ _ _
  · exact mapInsert_ne_nil _ _ _

theorem projectFields_ne_nil (mergedData : TMergedType) (fields : QStringList) :
    ∀ (ii : Nat) (m : List (Nat × QStringList)), (fields ≠ [] ∨ m ≠ []) →
      projectFields mergedData ii fields m ≠ [] := by
  induction fields with
  | nil =>
    intro ii m h
    rcases h with h | h
    · exact absurd rfl h
    · simpa [projectFields] using h
  | cons f rest ih =>
    intro ii m _
    simp only [projectFields]
    exact ih _ _ (Or.inr (projectField_ne_nil _ _ _ _))

/-- Counterexample to C11: the line `"a"  ,b` is tokenized to `a` followed by the two spaces, and
`b`; the white space between the closing quote and the comma is appended to the field. -/
theorem getRow_closing_quote_counterexample :
    getRow "\"a\"  ,b".toList [] = some (true, ["a  ".toList, "b".toList]) ∧
    getRow "\"a\"  ,b".toList [] ≠ some (true, ["a".toList, "b".toList]) := by
  constructor <;> decide

/-- C11, amended: when the scan is inside a quoted field and meets a quote that is followed by a
run `w` of white space and then a comma, it leaves quote mode, the quote is not copied, the
white space `w` is appended to the current field, and the comma ends that field as an ordinary
separator; so the line `"s"w,t` with quote-free `s` has the first field `s` followed by `w`, and
the scan continues with `t` (for `getRow`, with `t` as it stands in the trimmed line). -/
theorem scanLine_closing_quote (w t : QString) (hw : ∀ c ∈ w, isSpace c = true) :
    (∀ (cur : QString) (acc : QStringList),
      scanLine ('"' :: (w ++ ',' :: t)) true cur acc
        = scanLine t false [] (acc ++ [cur ++ w])) ∧
    (∀ s : QString, '"' ∉ s →
      scanLine ('"' :: (s ++ '"' :: (w ++ ',' :: t))) false [] []
        = (s ++ w) :: scanLine t false [] []) ∧
    (∀ s : QString, '"' ∉ s →
      getRow ('"' :: (s ++ '"' :: (w ++ ',' :: t))) []
        = some (true, (s ++ w) :: scanLine (t.rdropWhile isSpace) false [] [])) := by
  have hscan : ∀ t' : QString,
      (∀ (cur : QString) (acc : QStringList),
        scanLine ('"' :: (w ++ ',' :: t')) true cur acc
          = scanLine t' false [] (acc ++ [cur ++ w])) ∧
      (∀ s : QString, '"' ∉ s →
        scanLine ('"' :: (s ++ '"' :: (w ++ ',' :: t'))) false [] []
          = (s ++ w) :: scanLine t' false [] []) := by
    intro t
    have h1 : ∀ (cur : QString) (acc : QStringList),
        scanLine ('"' :: (w ++ ',' :: t)) true cur acc
          = scanLine t false [] (acc ++ [cur ++ w]) := by
      intro cur acc
      have hstep : scanLine ('"' :: (w ++ ',' :: t)) true cur acc
          = scanLine (w ++ ',' :: t) false cur acc := by
        simp [scanLine, quoteCloses_space_comma w t hw]
      rw [hstep, scanLine_space_comma w t hw]
    refine ⟨h1, ?_⟩
    intro s hs
    have hopen : scanLine ('"' :: (s ++ '"' :: (w ++ ',' :: t))) false [] []
        = scanLine (s ++ '"' :: (w ++ ',' :: t)) true [] [] := by
      simp [scanLine]
    have hin : ∀ (s : QString), '"' ∉ s → ∀ cur : QString,
        scanLine (s ++ '"' :: (w ++ ',' :: t)) true cur []
          = scanLine ('"' :: (w ++ ',' :: t)) true (cur ++ s) [] := by
      intro s
      induction s with
      | nil => intro _ cur; simp
      | cons c s ih =>
        intro hs cur
        have hq' : '"' ∉ s := fun h => hs (List.mem_cons_of_mem _ h)
        have hc : c ≠ '"' := fun h => hs (by simp [h])
        have hstep : scanLine ((c :: s) ++ '"' :: (w ++ ',' :: t)) true cur []
            = scanLine (s ++ '"' :: (w ++ ',' :: t)) true (cur ++ [c]) [] := by
          simp only [List.cons_append, scanLine, hc, if_false]
          rfl
        rw [hstep, ih hq']
        simp
    rw [hopen, hin s hs, h1, scanLine_acc]
    simp
  refine ⟨(hscan t).1, (hscan t).2, ?_⟩
  intro s hs
  have htrim : trimmed ('"' :: (s ++ '"' :: (w ++ ',' :: t)))
      = '"' :: (s ++ '"' :: (w ++ ',' :: t.rdropWhile isSpace)) := by
    rw [trimmed_eq_rdropWhile]
    have hd : List.dropWhile isSpace ('"' :: (s ++ '"' :: (w ++ ',' :: t)))
        = ('"' :: (s ++ '"' :: w)) ++ ',' :: t := by
      rw [List.dropWhile_cons_of_neg (by simp [isSpace])]; simp
    rw [hd, rdropWhile_append_comma]; simp
  simp only [getRow, htrim, (hscan (t.rdropWhile isSpace)).2 s hs]
  simp

/-- Witness of C11, amended, at the line `"a"  ,b`: `w` is two spaces and `t` is `b`. -/
theorem scanLine_closing_quote_witness :
    (∀ c ∈ "  ".toList, isSpace c = true) ∧ '"' ∉ "a".toList ∧
    scanLine ('"' :: ("a".toList ++ '"' :: ("  ".toList ++ ',' :: "b".toList))) false [] []
      = ("a".toList ++ "  ".toList) :: scanLine "b".toList false [] [] ∧
    getRow "\"a\"  ,b".toList [] = some (true, ["a  ".toList, "b".toList]) :=
  ⟨by decide, by decide,
    (scanLine_closing_quote "  ".toList "b".toList (by decide)).2.1 "a".toList (by decide),
    by decide⟩

/-- C12: `isIgnoredRow` is true exactly for the rows whose fields are all empty or the text
`0`; the row `0`, empty, `0` is ignored and the row `0`, `1` is not. -/
theorem isIgnoredRow_iff :
    (∀ currRowData : QStringList,
      isIgnoredRow currRowData = true ↔ ∀ ii ∈ currRowData, ii = [] ∨ ii = "0".toList) ∧
    isIgnoredRow ["0".toList, [], "0".toList] = true ∧
    isIgnoredRow ["0".toList, "1".toList] = false := by
  refine ⟨?_, by decide, by decide⟩
  intro currRowData
  induction currRowData with
  | nil => simp [isIgnoredRow]
  | cons ii rest ih =>
    by_cases h : ii = "0".toList ∨ ii = []
    · have hb : (decide (ii = "0".toList) || ii.isEmpty) = true := by
        rcases h with h | h
        · simp [h]
        · simp [h]
      simp only [isIgnoredRow, hb, if_true, ih, List.mem_cons, forall_eq_or_imp]
      constructor
      · intro hr
        exact ⟨h.symm, hr⟩
      · intro hr
        exact hr.2
    · have hb : (decide (ii = "0".toList) || ii.isEmpty) = false := by
        simp only [not_or] at h
        have e1 : decide (ii = "0".toList) = false := decide_eq_false h.1
        have e2 : ii.isEmpty = false := by
          cases ii with
          | nil => exact absurd rfl h.2
          | cons _ _ => rfl
        rw [e1, e2]
        rfl
      simp only [isIgnoredRow, hb, List.mem_cons, forall_eq_or_imp]
      constructor
      · intro hr
        exact absurd hr (by simp)
      · intro hr
        exact absurd hr.1.symm h

/-- Witness of C12 at the row `0`, empty, `0`. -/
theorem isIgnoredRow_iff_witness :
    (∀ ii ∈ [("0".toList : QString), [], "0".toList], ii = [] ∨ ii = "0".toList) ∧
    isIgnoredRow ["0".toList, [], "0".toList] = true :=
  ⟨by decide, (isIgnoredRow_iff.1 _).2 (by decide)⟩

/-- C17: `getRow` is a total function (its scan is a recursion on the characters of the line, so
it ends on every line, also with an unterminated quote); it gives no row exactly when the line
is empty after trimming, and otherwise the success flag with at least one field, for every merge
plan; the line `"a,b` with an unterminated quote gives the one field `a,b`. -/
theorem getRow_total :
    (∀ (currLine : QString) (mergedData : TMergedType),
      (getRow currLine mergedData = none ↔ trimmed currLine = []) ∧
      (trimmed currLine ≠ [] →
        ∃ retVal, getRow currLine mergedData = some (true, retVal) ∧ retVal ≠ [])) ∧
    getRow "\"a,b".toList [] = some (true, ["a,b".toList]) := by
  refine ⟨?_, by decide⟩
  intro currLine mergedData
  have hsome : trimmed currLine ≠ [] →
      ∃ retVal, getRow currLine mergedData = some (true, retVal) ∧ retVal ≠ [] := by
    intro hne
    by_cases hm : mergedData = []
    · refine ⟨scanLine (trimmed currLine) false [] [], ?_, scanLine_ne_nil _ _ _ _⟩
      simp [getRow, hne, hm]
    · refine ⟨(projectFields mergedData 0 (scanLine (trimmed currLine) false [] []) []).map
          (fun ii => trimmed (join " ".toList ii.2)), ?_, ?_⟩
      · simp [getRow, hne, hm]
      · intro h
        exact projectFields_ne_nil mergedData _ 0 [] (Or.inl (scanLine_ne_nil _ _ _ _))
          (List.map_eq_nil_iff.1 h)
  refine ⟨?_, hsome⟩
  constructor
  · intro h
    by_contra hne
    obtain ⟨retVal, hr, -⟩ := hsome hne
    rw [hr] at h
    exact absurd h (by simp)
  · intro h
    simp [getRow, h]

/-- Witness of C17 at the line ` "x` (an unterminated quote after a space) with a merge plan. -/
theorem getRow_total_witness :
    trimmed " \"x".toList ≠ [] ∧
    getRow " \"x".toList [(0, (0, 0))] = some (true, ["x".toList]) ∧
    ∃ retVal, getRow " \"x".toList [(0, (0, 0))] = some (true, retVal) ∧ retVal ≠ [] :=
  ⟨by decide, by decide, (getRow_total.1 _ _).2 (by decide)⟩

/-! ## Saving and tokenizing again -/

theorem digitChar_ne_quote : ∀ n, n < 10 → Nat.digitChar n ≠ '"' := by
  decide

theorem toDigitsCore_quote_free (fuel : Nat) :
    ∀ (n : Nat) (ds : List Char), '"' ∉ ds → '"' ∉ Nat.toDigitsCore 10 fuel n ds := by
  induction fuel with
  | zero => intro n ds h; simpa [Nat.toDigitsCore] using h
  | succ fuel ih =>
    intro n ds h
    have hd : '"' ∉ Nat.digitChar (n % 10) :: ds := by
      intro hm
      rcases List.mem_cons.1 hm with hm | hm
      · exact digitChar_ne_quote _ (Nat.mod_lt _ (by decide)) hm.symm
      · exact h hm
    simp only [Nat.toDigitsCore]
    split
    · exact hd
    · exact ih _ _ hd

theorem number_quote_free (n : Nat) : '"' ∉ number n := by
  unfold number Nat.toDigits
  exact toDigitsCore_quote_free _ _ _ (by simp)

theorem scanLine_unterminated (f : QString) (hf : '"' ∉ f) :
    ∀ (cur : QString) (acc : QStringList),
      scanLine (f ++ ['"']) true cur acc = acc ++ [cur ++ f] := by
  induction f with
  | nil => intro cur acc; simp [scanLine, quoteCloses]
  | cons c f ih =>
    intro cur acc
    have hq' : '"' ∉ f := fun h => hf (List.mem_cons_of_mem _ h)
    have hc : c ≠ '"' := fun h => hf (by simp [h])
    have hstep : scanLine ((c :: f) ++ ['"']) true cur acc
        = scanLine (f ++ ['"']) true (cur ++ [c]) acc := by
      simp only [List.cons_append, scanLine, hc, if_false]
      rfl
    rw [hstep, ih hq']
    simp

theorem writeRow_cons_cons (f g : QString) (rest : QStringList) :
    writeRow (f :: g :: rest) = '"' :: (f ++ '"' :: ',' :: writeRow (g :: rest)) := by
  simp [writeRow, join]

theorem writeRow_singleton (f : QString) : writeRow [f] = '"' :: (f ++ ['"']) := by
  simp [writeRow, join]

theorem scanLine_writeRow (rowData : QStringList) :
    rowData ≠ [] → (∀ f ∈ rowData, '"' ∉ f) →
    ∀ acc : QStringList, scanLine (writeRow rowData) false [] acc = acc ++ rowData := by
  induction rowData with
  | nil => intro h; exact absurd rfl h
  | cons f rest ih =>
    intro _ hq acc
    have hf : '"' ∉ f := hq f (List.mem_cons_self _ _)
    cases rest with
    | nil =>
      have hopen : scanLine (writeRow [f]) false [] acc = scanLine (f ++ ['"']) true [] acc := by
        rw [writeRow_singleton]; simp [scanLine]
      rw [hopen, scanLine_unterminated f hf]
      simp
    | cons g rest =>
      have hopen : scanLine (writeRow (f :: g :: rest)) false [] acc
          = scanLine (f ++ '"' :: ',' :: writeRow (g :: rest)) true [] acc := by
        rw [writeRow_cons_cons]; simp [scanLine]
      rw [hopen, scanLine_quoted f hf,
        ih (by simp) (fun f' hf' => hq f' (List.mem_cons_of_mem _ hf'))]
      simp

theorem writeRow_eq_concat (rowData : QStringList) (h : rowData ≠ []) :
    ∃ body, writeRow rowData = '"' :: (body ++ ['"']) := by
  induction rowData with
  | nil => exact absurd rfl h
  | cons f rest ih =>
    cases rest with
    | nil => exact ⟨f, writeRow_singleton f⟩
    | cons g rest =>
      obtain ⟨body, hb⟩ := ih (by simp)
      refine ⟨f ++ '"' :: ',' :: '"' :: body, ?_⟩
      rw [writeRow_cons_cons, hb]
      simp

theorem trimmed_writeRow (rowData : QStringList) (h : rowData ≠ []) :
    trimmed (writeRow rowData) = writeRow rowData := by
  obtain ⟨body, hb⟩ := writeRow_eq_concat rowData h
  rw [hb, trimmed_eq_rdropWhile, List.dropWhile_cons_of_neg (by simp [isSpace])]
  have hc : '"' :: (body ++ ['"']) = ('"' :: body) ++ ['"'] := by simp
  rw [hc, List.rdropWhile_concat_neg]
  simp [isSpace]

/-- C13: for every non-empty list of fields without a double quote, the line `writeRow` writes
(every field wrapped in double quotes, joined by commas) is tokenized by `getRow` with an empty
merge plan to exactly the original list, whatever commas, spaces or empty fields it has; so a
data line of `save`, the row number followed by the row, is tokenized to the row number followed
by the fields of the row. -/
theorem getRow_writeRow :
    (∀ rowData : QStringList, rowData ≠ [] → (∀ f ∈ rowData, '"' ∉ f) →
      getRow (writeRow rowData) [] = some (true, rowData)) ∧
    (∀ (ii : Nat) (rowData : QStringList), (∀ f ∈ rowData, '"' ∉ f) →
      getRow (writeRow (number (ii + 1) :: rowData)) []
        = some (true, number (ii + 1) :: rowData)) := by
  have h1 : ∀ rowData : QStringList, rowData ≠ [] → (∀ f ∈ rowData, '"' ∉ f) →
      getRow (writeRow rowData) [] = some (true, rowData) := by
    intro rowData hne hq
    obtain ⟨body, hb⟩ := writeRow_eq_concat rowData hne
    have hnn : writeRow rowData ≠ [] := by rw [hb]; simp
    simp only [getRow, trimmed_writeRow rowData hne, scanLine_writeRow rowData hne hq]
    simp [hnn]
  refine ⟨h1, ?_⟩
  intro ii rowData hq
  apply h1 _ (by simp)
  intro f hf
  rcases List.mem_cons.1 hf with hf | hf
  · rw [hf]; exact number_quote_free _
  · exact hq f hf

/-- Witness of C13: a row with an empty field, a field with a comma and a field with spaces at
both ends, and the data line `save` writes for it as row 12. -/
theorem getRow_writeRow_witness :
    ([[], "a,b".toList, " x ".toList] : QStringList) ≠ [] ∧
    (∀ f ∈ ([[], "a,b".toList, " x ".toList] : QStringList), '"' ∉ f) ∧
    writeRow [[], "a,b".toList, " x ".toList] = "\"\",\"a,b\",\" x \"".toList ∧
    getRow (writeRow [[], "a,b".toList, " x ".toList]) []
      = some (true, [[], "a,b".toList, " x ".toList]) ∧
    (saveLines ["Name".toList] (List.replicate 12 ["Al".toList])).getLast?
      = some "\"12\",\"Al\"".toList ∧
    getRow (writeRow (number (11 + 1) :: ["Al".toList])) []
      = some (true, ["12".toList, "Al".toList]) :=
  ⟨by decide, by decide, by decide,
    getRow_writeRow.1 [[], "a,b".toList, " x ".toList] (by decide) (by decide),
    by decide, by decide⟩

/-! ## Loading: the search for the header line, reloading, the extra-column table -/

theorem findFirstLine_blank (fuel : Nat) :
    ∀ lines : List QString, (∀ l ∈ lines, trimmed l = []) → findFirstLine fuel lines = none := by
  induction fuel with
  | zero => intro lines _; rfl
  | succ fuel ih =>
    intro lines h
    cases lines with
    | nil =>
      have h0 : (trimmed (([] : List QString).headD [])).isEmpty = true := by decide
      simp only [findFirstLine, h0, if_true, List.tail_nil]
      exact ih [] (by simp)
    | cons l ls =>
      have h0 : (trimmed ((l :: ls).headD [])).isEmpty = true := by
        simp [h l (List.mem_cons_self _ _)]
      simp only [findFirstLine, h0, if_true, List.tail_cons]
      exact ih ls (fun l' hl' => h l' (List.mem_cons_of_mem _ hl'))

theorem findFirstLine_some (lines : List QString) (h : ∃ l ∈ lines, trimmed l ≠ []) :
    ∃ r, findFirstLine lines.length lines = some r := by
  induction lines with
  | nil => obtain ⟨l, hl, -⟩ := h; simp at hl
  | cons l ls ih =>
    by_cases hb : trimmed l = []
    · have h0 : (trimmed ((l :: ls).headD [])).isEmpty = true := by simp [hb]
      simp only [List.length_cons, findFirstLine, h0, if_true, List.tail_cons]
      apply ih
      obtain ⟨l', hl', hne⟩ := h
      rcases List.mem_cons.1 hl' with hl' | hl'
      · rw [hl'] at hne; exact absurd hb hne
      · exact ⟨l', hl', hne⟩
    · have h0 : (trimmed ((l :: ls).headD [])).isEmpty = false := by
        cases ht : trimmed l with
        | nil => exact absurd ht hb
        | cons _ _ => simp [ht]
      exact ⟨(trimmed l, ls), by simp [findFirstLine, hb]⟩

/-- C18, the code on a file without a non-blank line: the search for the header line goes on
for every number of iterations (`loadFile` never returns, no format error is reported); on a
file with a non-blank line `loadFile` returns once the search has as many iterations as the file
has lines. -/
theorem loadFile_blank {H : Type} (lines : List QString) (d : SFileData H) :
    ((∀ l ∈ lines, trimmed l = []) → ∀ fuel, SFileData.loadFile fuel lines d = none) ∧
    ((∃ l ∈ lines, trimmed l ≠ []) → ∃ r, SFileData.loadFile lines.length lines d = some r) := by
  constructor
  · intro h fuel
    simp [SFileData.loadFile, findFirstLine_blank fuel lines h]
  · intro h
    obtain ⟨r, hr⟩ := findFirstLine_some lines h
    unfold SFileData.loadFile
    rw [hr]
    simp only
    split
    · exact ⟨_, rfl⟩
    · split
      · exact ⟨_, rfl⟩
      · split
        · exact ⟨_, rfl⟩
        · exact ⟨_, rfl⟩

/-- Witness of C18: the empty file and a file of two blank lines are never loaded, whatever the
number of iterations; the file with the one line `Name` is loaded. -/
theorem loadFile_blank_witness :
    (∀ fuel, SFileData.loadFile fuel [] ({} : SFileData QStringList) = none) ∧
    (∀ fuel, SFileData.loadFile fuel [[], "  ".toList] ({} : SFileData QStringList) = none) ∧
    (∃ r, SFileData.loadFile 1 ["Name".toList] ({} : SFileData QStringList) = some r) :=
  ⟨(loadFile_blank [] {}).1 (by decide), (loadFile_blank [[], "  ".toList] {}).1 (by decide),
    (loadFile_blank ["Name".toList] {}).2 (by decide)⟩

/-- C15, the code at the failing input: `clear` empties the rows, the fingerprint maps, the
header info and the important columns of every dataset and keeps its extra-column table. After
the files `Name,Remarks` have been compared, comparing the files `Name,Ext` in the same window
leaves column 1 in the extra-column table of the left side, the merged header `Name`, `Ext`,
`Ext`, `Ext` and the merged row `Al`, `100`, `100`, `100`; in a new window the same files give
an empty extra-column table, the merged header `Name`, `Ext` and the merged row `Al`, `100`. -/
theorem clear_keeps_extra_columns :
    (∀ (H : Type) (d : SFileData H),
      d.clear.rows = [] ∧ d.clear.header = [] ∧ d.clear.fRowToMD5 = [] ∧ d.clear.fMD5ToRow = [] ∧
      d.clear.fHeaderInfo = [] ∧ d.clear.fImportantCols = [] ∧
      d.clear.fExtraUnimportantCols = d.fExtraUnimportantCols) ∧
    (loaded ["Name,Remarks", "Al,x"]).clear.fExtraUnimportantCols = [(1, [])] ∧
    ((CMainWindow.loadFiles idealMd5 1 ["Name,Remarks".toList, "Al,x".toList]
        ["Name,Remarks".toList, "Al,x".toList] {}).bind
      (CMainWindow.loadFiles idealMd5 1 ["Name,Ext".toList, "Al,100".toList]
        ["Name,Ext".toList, "Al,100".toList])).map (fun w => w.fLHS.fExtraUnimportantCols)
      = some [(1, [])] ∧
    ((CMainWindow.loadFiles idealMd5 1 ["Name,Remarks".toList, "Al,x".toList]
        ["Name,Remarks".toList, "Al,x".toList] {}).bind
      (CMainWindow.loadFiles idealMd5 1 ["Name,Ext".toList, "Al,100".toList]
        ["Name,Ext".toList, "Al,100".toList])).map (fun w => w.fMerged.fHeaderInfo)
      = some ["Name".toList, "Ext".toList, "Ext".toList, "Ext".toList] ∧
    ((CMainWindow.loadFiles idealMd5 1 ["Name,Remarks".toList, "Al,x".toList]
        ["Name,Remarks".toList, "Al,x".toList] {}).bind
      (CMainWindow.loadFiles idealMd5 1 ["Name,Ext".toList, "Al,100".toList]
        ["Name,Ext".toList, "Al,100".toList])).map (fun w => w.fMerged.fData)
      = some [(["Al".toList, "100".toList, "100".toList, "100".toList], false, false)] ∧
    (CMainWindow.loadFiles idealMd5 1 ["Name,Ext".toList, "Al,100".toList]
        ["Name,Ext".toList, "Al,100".toList] {}).map (fun w => w.fLHS.fExtraUnimportantCols)
      = some [] ∧
    (CMainWindow.loadFiles idealMd5 1 ["Name,Ext".toList, "Al,100".toList]
        ["Name,Ext".toList, "Al,100".toList] {}).map (fun w => w.fMerged.fHeaderInfo)
      = some ["Name".toList, "Ext".toList] ∧
    (CMainWindow.loadFiles idealMd5 1 ["Name,Ext".toList, "Al,100".toList]
        ["Name,Ext".toList, "Al,100".toList] {}).map (fun w => w.fMerged.fData)
      = some [(["Al".toList, "100".toList], false, false)] := by
  refine ⟨fun H d => ⟨rfl, rfl, rfl, rfl, rfl, rfl, rfl⟩, ?_, ?_, ?_, ?_, ?_, ?_, ?_⟩ <;> decide

/-- C19, the code at the failing input: for the header `First Name`, `Last Name`, `Call Type`
the classifier records the default `Private Call` for column 2, the index of `Call Type` before
`Last Name` leaves the header, while the working header `Name`, `Call Type` has the two columns 0
and 1. In the loaded dataset the label of the extra column is empty, the empty `Call Type` cell
of the first row (column 1) gets no default, and the extra field of the second row is the default
instead of its `Call Type` value `Group`. With `Call Type` before the two name columns the
recorded index is the column of the working header. -/
theorem classifyHeader_extra_index :
    (classifyHeader ["First Name".toList, "Last Name".toList, "Call Type".toList] []).headerRow
      = ["Name".toList, "Call Type".toList] ∧
    (classifyHeader ["First Name".toList, "Last Name".toList, "Call Type".toList]
      []).fExtraUnimportantCols = [(2, "Private Call".toList)] ∧
    (loaded ["First Name,Last Name,Call Type", "Al,Jones,", "Bo,Smith,Group"]).rows
      = [["Al Jones".toList, []], ["Bo Smith".toList, "Group".toList]] ∧
    (loaded ["First Name,Last Name,Call Type", "Al,Jones,", "Bo,Smith,Group"]).getExtraColumns
      = [[]] ∧
    (loaded ["First Name,Last Name,Call Type", "Al,Jones,", "Bo,Smith,Group"]).getData 0 1
      = [] ∧
    (loaded ["First Name,Last Name,Call Type", "Al,Jones,", "Bo,Smith,Group"]).getExtraData 1
      = ["Private Call".toList] ∧
    (classifyHeader ["Call Type".toList, "First Name".toList, "Last Name".toList] []).headerRow
      = ["Call Type".toList, "Name".toList] ∧
    (classifyHeader ["Call Type".toList, "First Name".toList, "Last Name".toList]
      []).fExtraUnimportantCols = [(0, "Private Call".toList)] := by
  refine ⟨?_, ?_, ?_, ?_, ?_, ?_, ?_, ?_⟩ <;> decide

/-! ## The re-projection of the raw fields -/

theorem mapFind_eq_none_of_forall_ne {β : Type} (q : Nat) (l : List (Nat × β))
    (h : ∀ e ∈ l, e.1 ≠ q) : mapFind q l = none := by
  induction l with
  | nil => rfl
  | cons e rest ih =>
    obtain ⟨k, v⟩ := e
    have hk : q ≠ k := fun hq => h (k, v) (List.mem_cons_self _ _) hq.symm
    simp only [mapFind, hk, if_false]
    exact ih (fun e he => h e (List.mem_cons_of_mem _ he))

theorem eq_of_sorted_of_mapFind_eq {β : Type} (l1 : List (Nat × β)) :
    ∀ l2 : List (Nat × β), l1.Pairwise (fun a b => a.1 < b.1) →
      l2.Pairwise (fun a b => a.1 < b.1) → (∀ q, mapFind q l1 = mapFind q l2) → l1 = l2 := by
  induction l1 with
  | nil =>
    intro l2 _ _ h
    cases l2 with
    | nil => rfl
    | cons e r =>
      have := h e.1
      simp [mapFind] at this
  | cons e1 r1 ih =>
    intro l2 h1 h2 h
    cases l2 with
    | nil =>
      have := h e1.1
      simp [mapFind] at this
    | cons e2 r2 =>
      rw [List.pairwise_cons] at h1 h2
      have n1 : ∀ q, q ≤ e1.1 → mapFind q r1 = none := fun q hq =>
        mapFind_eq_none_of_forall_ne q r1 (fun e he => by have := h1.1 e he; omega)
      have n2 : ∀ q, q ≤ e2.1 → mapFind q r2 = none := fun q hq =>
        mapFind_eq_none_of_forall_ne q r2 (fun e he => by have := h2.1 e he; omega)
      have hk : e1.1 = e2.1 := by
        rcases Nat.lt_trichotomy e1.1 e2.1 with hlt | heq | hgt
        · have := h e1.1
          have hne : e1.1 ≠ e2.1 := by omega
          simp [mapFind, hne, n2 e1.1 (by omega)] at this
        · exact heq
        · have := h e2.1
          have hne : e2.1 ≠ e1.1 := by omega
          simp [mapFind, hne, n1 e2.1 (by omega)] at this
      have hv : e1.2 = e2.2 := by
        have := h e1.1
        simpa [mapFind, hk] using this
      have he : e1 = e2 := Prod.ext hk hv
      rw [he, ih r2 h1.2 h2.2 ?_]
      intro q
      by_cases hq : q = e1.1
      · rw [n1 q (by omega), n2 q (by omega)]
      · have := h q
        have hq2 : q ≠ e2.1 := by omega
        simpa [mapFind, hq, hq2] using this

theorem mapFind_filter_key {β : Type} (p : Nat → Bool) (q : Nat) (l : List (Nat × β)) :
    mapFind q (l.filter (fun e => p e.1)) = if p q = true then mapFind q l else none := by
  induction l with
  | nil => simp [mapFind]
  | cons e rest ih =>
    obtain ⟨k, v⟩ := e
    by_cases hk : q = k
    · subst hk
      by_cases hp : p q = true
      · simp [List.filter_cons, hp, mapFind]
      · simp only [List.filter_cons, hp, if_false, ih, Bool.false_eq_true]
    · by_cases hp : p k = true
      · simp only [List.filter_cons, hp, if_true, mapFind, hk, if_false, ih]
      · simp only [List.filter_cons, hp, if_false, mapFind, hk, ih, Bool.false_eq_true]

theorem mapFind_map_key {β : Type} (g : Nat → β) (q : Nat) (L : List Nat) :
    mapFind q (L.map (fun k => (k, g k))) = if q ∈ L then some (g q) else none := by
  induction L with
  | nil => simp [mapFind]
  | cons k rest ih =>
    by_cases hk : q = k
    · subst hk; simp [mapFind]
    · simp only [List.map_cons, mapFind, hk, if_false, ih, List.mem_cons, false_or]

theorem mapFind_projectField_uncovered (P : TMergedType) (hP : planClosed P) (ii : Nat)
    (f : QString) (m : List (Nat × QStringList)) (q : Nat) (hq : mapFind q P = none) :
    mapFind q (projectField P ii f m) = if q = ii then some [f] else mapFind q m := by
  unfold projectField
  cases hf : mapFind ii P with
  | none => simp only [mapFind_mapInsert]
  | some v =>
    obtain ⟨c, p⟩ := v
    have hc : q ≠ c := by
      intro h
      rw [h] at hq
      exact hP ii c p hf hq
    have hi : q ≠ ii := by
      intro h
      rw [h, hf] at hq
      exact absurd hq (by simp)
    simp only [mapFind_mapInsert, hc, hi, if_false]

theorem mapFind_projectFields_uncovered (P : TMergedType) (hP : planClosed P)
    (fields : QStringList) :
    ∀ (ii : Nat) (m : List (Nat × QStringList)) (q : Nat), mapFind q P = none →
      mapFind q (projectFields P ii fields m)
        = if ii ≤ q ∧ q < ii + fields.length then some [fields.getD (q - ii) []]
          else mapFind q m := by
  induction fields with
  | nil =>
    intro ii m q _
    have h : ¬ (ii ≤ q ∧ q < ii) := by omega
    simp only [projectFields, List.length_nil, Nat.add_zero]
    rw [if_neg h]
  | cons f rest ih =>
    intro ii m q hq
    simp only [projectFields, List.length_cons]
    rw [ih (ii + 1) _ q hq, mapFind_projectField_uncovered P hP ii f m q hq]
    by_cases h1 : q = ii
    · subst h1
      have a1 : ¬ (q + 1 ≤ q ∧ q < q + 1 + rest.length) := by omega
      have a2 : q ≤ q ∧ q < q + (rest.length + 1) := by omega
      simp [a1, a2]
    · by_cases h2 : ii + 1 ≤ q ∧ q < ii + 1 + rest.length
      · have a2 : ii ≤ q ∧ q < ii + (rest.length + 1) := by omega
        have a3 : q - ii = (q - (ii + 1)) + 1 := by omega
        simp only [h2, a2, and_self, if_true, a3, List.getD_cons_succ]
      · have a2 : ¬ (ii ≤ q ∧ q < ii + (rest.length + 1)) := by omega
        simp only [h2, a2, if_false, h1]

theorem sorted_projectField (P : TMergedType) (ii : Nat) (f : QString)
    (m : List (Nat × QStringList)) (hs : (m.map Prod.fst).Sorted (· < ·)) :
    ((projectField P ii f m).map Prod.fst).Sorted (· < ·) := by
  unfold projectField
  split
  · exact sorted_mapInsert _ _ _ hs
  · exact sorted_mapInsert _ _ _ hs

theorem sorted_projectFields (P : TMergedType) (fields : QStringList) :
    ∀ (ii : Nat) (m : List (Nat × QStringList)), (m.map Prod.fst).Sorted (· < ·) →
      ((projectFields P ii fields m).map Prod.fst).Sorted (· < ·) := by
  induction fields with
  | nil => intro ii m hs; exact hs
  | cons f rest ih =>
    intro ii m hs
    simp only [projectFields]
    exact ih _ _ (sorted_projectField P ii f m hs)

theorem projectFields_filter_uncovered (P : TMergedType) (hP : planClosed P)
    (fields : QStringList) :
    (projectFields P 0 fields []).filter (fun e => (mapFind e.1 P).isNone)
      = ((List.range fields.length).filter (fun k => (mapFind k P).isNone)).map
          (fun k => (k, [fields.getD k []])) := by
  apply eq_of_sorted_of_mapFind_eq
  · apply List.Pairwise.filter
    have hs := sorted_projectFields P fields 0 [] (by simp)
    unfold List.Sorted at hs
    rw [List.pairwise_map] at hs
    exact hs
  · rw [List.pairwise_map]
    exact (List.pairwise_lt_range _).filter _
  · intro q
    rw [mapFind_filter_key (fun k => (mapFind k P).isNone) q,
      mapFind_map_key (fun k => [fields.getD k []]) q]
    by_cases hq : (mapFind q P).isNone = true
    · have hq' : mapFind q P = none := Option.isNone_iff_eq_none.1 hq
      rw [mapFind_projectFields_uncovered P hP fields 0 [] q hq']
      by_cases hn : q < fields.length
      · simp [hq, hn, mapFind]
      · simp [hq, hn, mapFind]
    · simp [hq]

/-! ## The merge plans of `loadFile` -/

theorem classifyColumn_merged (st : SHeaderState) (ii : Nat)
    (h : ∀ k v, mapFind k st.merged = some v → v = (k, 0)) :
    ∀ k v, mapFind k (classifyColumn st ii).merged = some v → v = (k, 0) := by
  unfold classifyColumn
  split_ifs
  · intro k v hk
    simp only [mapFind_umapInsert] at hk
    split_ifs at hk with e
    · rw [e]
      exact (Option.some.inj hk).symm
    · exact h k v hk
  all_goals exact h

theorem foldl_classifyColumn_merged (L : List Nat) :
    ∀ st : SHeaderState, (∀ k v, mapFind k st.merged = some v → v = (k, 0)) →
      ∀ k v, mapFind k (L.foldl classifyColumn st).merged = some v → v = (k, 0) := by
  induction L with
  | nil => intro st h; exact h
  | cons ii rest ih =>
    intro st h
    exact ih _ (classifyColumn_merged st ii h)

theorem planClosed_mergeLastName (st : SHeaderState)
    (h : ∀ k v, mapFind k st.merged = some v → v = (k, 0)) :
    planClosed (mergeLastName st).merged := by
  have hc : planClosed st.merged := by
    intro k c p hk
    have e := h k (c, p) hk
    have ec : c = k := congrArg Prod.fst e
    rw [ec, hk]
    simp
  unfold mergeLastName
  split
  · exact hc
  · rename_i first rest hm
    split
    · exact hc
    · rename_i ii hi
      have hfirst : mapFind first.1 st.merged = some first.2 := by
        rw [hm]
        simp [mapFind]
      have e1 : first.2.1 = first.1 := by
        have := h _ _ hfirst
        rw [this]
      intro k c p hk
      simp only [mapFind_umapInsert] at hk ⊢
      split_ifs at hk with e
      · have ec : c = first.1 := by
          have := congrArg Prod.fst (Option.some.inj hk)
          simp only at this
          rw [← this, e1]
        split_ifs
        · simp
        · rw [ec, hfirst]
          simp
      · have ec : c = k := congrArg Prod.fst (h k (c, p) hk)
        rw [ec, if_neg e, hk]
        simp

theorem planClosed_classifyHeader (headerRow : QStringList)
    (fExtraUnimportantCols : List (Nat × QString)) :
    planClosed (classifyHeader headerRow fExtraUnimportantCols).merged := by
  unfold classifyHeader
  apply planClosed_mergeLastName
  apply foldl_classifyColumn_merged
  intro k v hk
  simp [mapFind] at hk

/-! ## C16: the fields outside the merge groups -/

/-- Claim C16, counterexample: with the plan of the header `First Name,Last Name,Ext,Note`
(columns 0 and 1 grouped at 0), the raw field ` 100 ` of column 2, which no group covers, is in
the re-projected row as `100`: its leading and trailing spaces are gone. -/
theorem getRow_uncovered_counterexample :
    (classifyHeader ["First Name".toList, "Last Name".toList, "Ext".toList, "Note".toList]
      []).merged = [(0, (0, 0)), (1, (0, 1))] ∧
    scanLine "Al,Jones, 100 ,x".toList false [] []
      = ["Al".toList, "Jones".toList, " 100 ".toList, "x".toList] ∧
    mapFind 2 ([(0, (0, 0)), (1, (0, 1))] : TMergedType) = none ∧
    getRow "Al,Jones, 100 ,x".toList [(0, (0, 0)), (1, (0, 1))]
      = some (true, ["Al Jones".toList, "100".toList, "x".toList]) ∧
    " 100 ".toList ∉ ["Al Jones".toList, "100".toList, "x".toList] := by
  decide

/-- Claim C16, amended: for a non-empty merge plan that places every group at the index of one of
its own raw columns (as the plans of `loadFile` do) and a line that is not blank, `getRow` gives
the cells of the re-projection in ascending key order; the cells at the keys no group covers are
exactly the trimmed raw fields of the uncovered columns, in the order of the raw line, so these
trimmed fields are a subsequence of the row. -/
theorem getRow_uncovered (mergedData : TMergedType) (hP : planClosed mergedData)
    (hne : mergedData ≠ []) (currLine : QString) (hl : trimmed currLine ≠ []) :
    getRow currLine mergedData
      = some (true, (projectFields mergedData 0 (scanLine (trimmed currLine) false [] []) []).map
          (fun ii => trimmed (join " ".toList ii.2))) ∧
    ((projectFields mergedData 0 (scanLine (trimmed currLine) false [] []) []).map
      Prod.fst).Sorted (· < ·) ∧
    ((projectFields mergedData 0 (scanLine (trimmed currLine) false [] []) []).filter
        (fun ii => (mapFind ii.1 mergedData).isNone)).map
        (fun ii => trimmed (join " ".toList ii.2))
      = ((List.range (scanLine (trimmed currLine) false [] []).length).filter
          (fun k => (mapFind k mergedData).isNone)).map
          (fun k => trimmed ((scanLine (trimmed currLine) false [] []).getD k [])) ∧
    List.Sublist
      (((List.range (scanLine (trimmed currLine) false [] []).length).filter
          (fun k => (mapFind k mergedData).isNone)).map
          (fun k => trimmed ((scanLine (trimmed currLine) false [] []).getD k [])))
      ((projectFields mergedData 0 (scanLine (trimmed currLine) false [] []) []).map
          (fun ii => trimmed (join " ".toList ii.2))) := by
  have hcells :
      ((projectFields mergedData 0 (scanLine (trimmed currLine) false [] []) []).filter
          (fun ii => (mapFind ii.1 mergedData).isNone)).map
          (fun ii => trimmed (join " ".toList ii.2))
        = ((List.range (scanLine (trimmed currLine) false [] []).length).filter
            (fun k => (mapFind k mergedData).isNone)).map
            (fun k => trimmed ((scanLine (trimmed currLine) false [] []).getD k [])) := by
    rw [projectFields_filter_uncovered mergedData hP, List.map_map]
    rfl
  refine ⟨by simp [getRow, hl, hne], sorted_projectFields mergedData _ 0 [] (by simp), hcells, ?_⟩
  rw [← hcells]
  exact List.Sublist.map _ (List.filter_sublist _)

/-- Witness of C16 at the plan of `First Name,Last Name,Ext,Note` and the line
`Al,Jones, 100 ,x`: the trimmed fields `100`, `x` of the uncovered columns 2 and 3. -/
theorem getRow_uncovered_witness :
    planClosed [(0, (0, 0)), (1, (0, 1))] ∧
    ([(0, (0, 0)), (1, (0, 1))] : TMergedType) ≠ [] ∧
    trimmed "Al,Jones, 100 ,x".toList ≠ [] ∧
    ((List.range (scanLine (trimmed "Al,Jones, 100 ,x".toList) false [] []).length).filter
        (fun k => (mapFind k ([(0, (0, 0)), (1, (0, 1))] : TMergedType)).isNone)).map
        (fun k => trimmed ((scanLine (trimmed "Al,Jones, 100 ,x".toList) false [] []).getD k []))
      = ["100".toList, "x".toList] ∧
    List.Sublist
      (((List.range (scanLine (trimmed "Al,Jones, 100 ,x".toList) false [] []).length).filter
          (fun k => (mapFind k ([(0, (0, 0)), (1, (0, 1))] : TMergedType)).isNone)).map
          (fun k => trimmed ((scanLine (trimmed "Al,Jones, 100 ,x".toList) false [] []).getD k [])))
      ((projectFields [(0, (0, 0)), (1, (0, 1))] 0
          (scanLine (trimmed "Al,Jones, 100 ,x".toList) false [] []) []).map
          (fun ii => trimmed (join " ".toList ii.2))) :=
  ⟨planClosed_classifyHeader
      ["First Name".toList, "Last Name".toList, "Ext".toList, "Note".toList] [],
    by decide, by decide, by decide,
    (getRow_uncovered [(0, (0, 0)), (1, (0, 1))]
      (planClosed_classifyHeader
        ["First Name".toList, "Last Name".toList, "Ext".toList, "Note".toList] [])
      (by decide) "Al,Jones, 100 ,x".toList (by decide)).2.2.2⟩

/-! ## The re-projection under the plan of one name pair -/

theorem projectFields_append (P : TMergedType) (xs ys : QStringList) :
    ∀ (ii : Nat) (m : List (Nat × QStringList)),
      projectFields P ii (xs ++ ys) m
        = projectFields P (ii + xs.length) ys (projectFields P ii xs m) := by
  induction xs with
  | nil => intro ii m; rfl
  | cons f rest ih =>
    intro ii m
    show projectFields P (ii + 1) (rest ++ ys) (projectField P ii f m)
      = projectFields P (ii + (rest.length + 1)) ys
          (projectFields P (ii + 1) rest (projectField P ii f m))
    rw [ih, Nat.add_assoc, Nat.add_comm 1]

theorem projectFields_take_succ (P : TMergedType) (fields : QStringList) (k : Nat)
    (hk : k < fields.length) :
    projectFields P 0 (fields.take (k + 1)) []
      = projectField P k (fields.getD k []) (projectFields P 0 (fields.take k) []) := by
  have hlen : (fields.take k).length = k := by
    rw [List.length_take]
    omega
  rw [List.take_succ, projectFields_append, hlen, List.getD_eq_getElem _ _ hk,
    List.getElem?_eq_getElem hk]
  simp [projectFields]

theorem mapFind_projectField_name (i j : Nat) (k : Nat) (f : QString)
    (m : List (Nat × QStringList)) (q : Nat) :
    mapFind q (projectField [(i, (i, 0)), (j, (i, 1))] k f m)
      = if k = i then
          (if q = i then
            some ((((mapFind i m).getD []) ++
              List.replicate (0 + 1 - ((mapFind i m).getD []).length) []).set 0 f)
          else mapFind q m)
        else if k = j then
          (if q = i then
            some ((((mapFind i m).getD []) ++
              List.replicate (1 + 1 - ((mapFind i m).getD []).length) []).set 1 f)
          else mapFind q m)
        else (if q = k then some [f] else mapFind q m) := by
  unfold projectField
  by_cases h1 : k = i
  · simp only [mapFind, h1, if_true, mapFind_mapInsert]
  · by_cases h2 : k = j
    · subst h2
      simp only [mapFind, h1, if_true, if_false, mapFind_mapInsert]
    · simp only [mapFind, h1, h2, if_false, mapFind_mapInsert]

theorem mapFind_first_take (i j : Nat) (hij : i ≠ j) (fields : QStringList) :
    ∀ k, k ≤ fields.length →
      mapFind i (projectFields [(i, (i, 0)), (j, (i, 1))] 0 (fields.take k) [])
        = if i < k then
            (if j < k then some [fields.getD i [], fields.getD j []]
             else some [fields.getD i []])
          else (if j < k then some [[], fields.getD j []] else none) := by
  intro k
  induction k with
  | zero => intro _; simp [projectFields, mapFind]
  | succ k ih =>
    intro hk
    rw [projectFields_take_succ _ _ _ (by omega), mapFind_projectField_name, ih (by omega)]
    by_cases h1 : k = i
    · subst h1
      have a1 : ¬ k < k := by omega
      have a2 : k < k + 1 := by omega
      by_cases h3 : j < k
      · have a3 : j < k + 1 := by omega
        simp only [a1, a2, a3, h3, if_true, if_false]
        rfl
      · have a3 : ¬ j < k + 1 := by omega
        simp only [a1, a2, a3, h3, if_true, if_false]
        rfl
    · by_cases h2 : k = j
      · subst h2
        have a1 : ¬ k < k := by omega
        have a2 : k < k + 1 := by omega
        by_cases h3 : i < k
        · have a3 : i < k + 1 := by omega
          simp only [h1, a1, a2, a3, h3, if_true, if_false]
          rfl
        · have a3 : ¬ i < k + 1 := by omega
          simp only [h1, a1, a2, a3, h3, if_true, if_false]
          rfl
      · have a1 : (i < k + 1) = (i < k) := by
          apply propext; constructor <;> intro h <;> omega
        have a2 : (j < k + 1) = (j < k) := by
          apply propext; constructor <;> intro h <;> omega
        have a3 : i ≠ k := fun h => h1 h.symm
        simp only [h1, h2, a1, a2, a3, if_false]

theorem mapFind_last_take (i j : Nat) (hij : i ≠ j) (fields : QStringList) :
    ∀ k, k ≤ fields.length →
      mapFind j (projectFields [(i, (i, 0)), (j, (i, 1))] 0 (fields.take k) []) = none := by
  intro k
  induction k with
  | zero => intro _; simp [projectFields, mapFind]
  | succ k ih =>
    intro hk
    rw [projectFields_take_succ _ _ _ (by omega), mapFind_projectField_name, ih (by omega)]
    have a0 : j ≠ i := fun h => hij h.symm
    by_cases h1 : k = i
    · simp only [h1, a0, if_true, if_false]
    · by_cases h2 : k = j
      · simp only [h1, h2, a0, if_true, if_false]
      · have a3 : j ≠ k := fun h => h2 h.symm
        simp only [h1, h2, a3, if_false]

theorem planClosed_name (i j : Nat) : planClosed [(i, (i, 0)), (j, (i, 1))] := by
  intro k c p hk
  have hc : c = i := by
    simp only [mapFind] at hk
    split_ifs at hk
    · exact (congrArg Prod.fst (Option.some.inj hk)).symm
    · exact (congrArg Prod.fst (Option.some.inj hk)).symm
  rw [hc]
  simp [mapFind]

theorem projectFields_name (i j : Nat) (hij : i ≠ j) (fields : QStringList)
    (hi : i < fields.length) (hj : j < fields.length) :
    projectFields [(i, (i, 0)), (j, (i, 1))] 0 fields []
      = ((List.range fields.length).filter (fun q => decide (q ≠ j))).map
          (fun q => (q, if q = i then [fields.getD i [], fields.getD j []]
                        else [fields.getD q []])) := by
  apply eq_of_sorted_of_mapFind_eq
  · have hs := sorted_projectFields [(i, (i, 0)), (j, (i, 1))] fields 0 [] (by simp)
    unfold List.Sorted at hs
    rw [List.pairwise_map] at hs
    exact hs
  · rw [List.pairwise_map]
    exact (List.pairwise_lt_range _).filter _
  · intro q
    rw [mapFind_map_key (fun q => if q = i then [fields.getD i [], fields.getD j []]
        else [fields.getD q []]) q]
    by_cases hqj : q = j
    · subst hqj
      have := mapFind_last_take i q hij fields fields.length (le_refl _)
      rw [List.take_length] at this
      rw [this]
      simp
    · by_cases hqi : q = i
      · subst hqi
        have := mapFind_first_take q j hij fields fields.length (le_refl _)
        rw [List.take_length] at this
        rw [this]
        simp [hi, hj, hqj]
      · have hq : mapFind q ([(i, (i, 0)), (j, (i, 1))] : TMergedType) = none := by
          simp [mapFind, hqi, hqj]
        rw [mapFind_projectFields_uncovered _ (planClosed_name i j) fields 0 [] q hq]
        by_cases hlt : q < fields.length
        · simp [hlt, hqi, hqj, mapFind]
        · simp [hlt, mapFind]

/-! ## The header with one name pair -/

theorem map_getD_range {α : Type} (d : α) (l : List α) :
    (List.range l.length).map (fun q => l.getD q d) = l := by
  induction l with
  | nil => rfl
  | cons a l ih =>
    rw [List.length_cons, List.range_succ_eq_map, List.map_cons, List.map_map]
    exact congrArg (List.cons a) ih

theorem eraseIdx_eq_map_filter {α : Type} (d : α) (l : List α) :
    ∀ j, l.eraseIdx j
      = ((List.range l.length).filter (fun q => decide (q ≠ j))).map (fun q => l.getD q d) := by
  induction l with
  | nil => intro j; rfl
  | cons a l ih =>
    intro j
    rw [List.length_cons, List.range_succ_eq_map]
    cases j with
    | zero =>
      have hf : (List.map Nat.succ (List.range l.length)).filter (fun q => decide (q ≠ 0))
          = List.map Nat.succ (List.range l.length) := by
        apply List.filter_eq_self.2
        intro q hq
        obtain ⟨r, -, rfl⟩ := List.mem_map.1 hq
        simp
      have h0 : ¬ (decide ((0 : Nat) ≠ 0) = true) := by simp
      rw [List.eraseIdx_cons_zero, List.filter_cons, if_neg h0, hf, List.map_map]
      exact (map_getD_range d l).symm
    | succ j =>
      rw [List.eraseIdx_cons_succ, List.filter_cons]
      have h0 : decide ((0 : Nat) ≠ j + 1) = true := by simp
      rw [if_pos h0, List.map_cons, List.filter_map, List.map_map, ih j]
      have hp : ((fun q => decide (q ≠ j + 1)) ∘ Nat.succ) = (fun q => decide (q ≠ j)) := by
        funext q
        simp
      rw [hp]
      rfl

theorem getD_set_ne (l : QStringList) (i k : Nat) (a : QString) (h : i ≠ k) :
    (l.set i a).getD k [] = l.getD k [] := by
  simp [List.getElem?_set, h]

theorem getD_set_self (l : QStringList) (i : Nat) (a : QString) (h : i < l.length) :
    (l.set i a).getD i [] = a := by
  simp [List.getElem?_set, h]

theorem classifyColumn_other (st : SHeaderState) (ii : Nat)
    (h : toLower (st.headerRow.getD ii []) ≠ "first name".toList) :
    (classifyColumn st ii).headerRow = st.headerRow ∧
    (classifyColumn st ii).merged = st.merged := by
  unfold classifyColumn
  rw [if_neg h]
  split_ifs <;> exact ⟨rfl, rfl⟩

theorem classifyColumn_first (st : SHeaderState) (ii : Nat)
    (h : toLower (st.headerRow.getD ii []) = "first name".toList) :
    (classifyColumn st ii).headerRow = st.headerRow.set ii "Name".toList ∧
    (classifyColumn st ii).merged = umapInsert ii (ii, 0) st.merged := by
  unfold classifyColumn
  rw [if_pos h]
  exact ⟨rfl, rfl⟩

theorem foldl_classifyColumn_name (header : QStringList) (extra : List (Nat × QString))
    (i : Nat)
    (hfi : toLower (header.getD i []) = "first name".toList)
    (hui : ∀ k, k < header.length → toLower (header.getD k []) = "first name".toList → k = i) :
    ∀ k, k ≤ header.length →
      ((List.range k).foldl classifyColumn
          { headerRow := header, merged := [], fExtraUnimportantCols := extra }).headerRow
        = (if i < k then header.set i "Name".toList else header) ∧
      ((List.range k).foldl classifyColumn
          { headerRow := header, merged := [], fExtraUnimportantCols := extra }).merged
        = (if i < k then [(i, (i, 0))] else []) := by
  intro k
  induction k with
  | zero => intro _; simp
  | succ k ih =>
    intro hk
    obtain ⟨e1, e2⟩ := ih (by omega)
    rw [List.range_succ, List.foldl_append, List.foldl_cons, List.foldl_nil]
    by_cases h1 : k = i
    · subst h1
      have a1 : ¬ k < k := by omega
      have a2 : k < k + 1 := by omega
      rw [if_neg a1] at e1 e2
      obtain ⟨c1, c2⟩ := classifyColumn_first _ k (by rw [e1]; exact hfi)
      rw [c1, c2, e1, e2, if_pos a2, if_pos a2]
      exact ⟨rfl, rfl⟩
    · have a3 : i ≠ k := fun h => h1 h.symm
      have a1 : i < k + 1 ↔ i < k := by omega
      have hother : toLower (header.getD k []) ≠ "first name".toList :=
        fun h => h1 (hui k (by omega) h)
      have htest : toLower
          (((List.range k).foldl classifyColumn
            { headerRow := header, merged := [],
              fExtraUnimportantCols := extra }).headerRow.getD k [])
          ≠ "first name".toList := by
        rw [e1]
        split_ifs
        · rw [getD_set_ne _ _ _ _ a3]; exact hother
        · exact hother
      obtain ⟨c1, c2⟩ := classifyColumn_other _ k htest
      rw [c1, c2, e1, e2]
      refine ⟨?_, ?_⟩ <;> simp only [a1]

theorem findIdx_last_name (header : QStringList) (i j : Nat) (hij : i ≠ j)
    (hj : j < header.length)
    (hfj : toLower (header.getD j []) = "last name".toList)
    (huj : ∀ k, k < header.length → toLower (header.getD k []) = "last name".toList → k = j) :
    (header.set i "Name".toList).findIdx? (fun name => toLower name = "last name".toList)
      = some j := by
  rw [List.findIdx?_eq_some_iff_getElem]
  have hj' : j < (header.set i "Name".toList).length := by
    rw [List.length_set]; exact hj
  refine ⟨hj', ?_, ?_⟩
  · rw [← List.getD_eq_getElem _ [] hj', getD_set_ne _ _ _ _ hij]
    simpa using hfj
  · intro k hk
    have hk' : k < (header.set i "Name".toList).length := by omega
    rw [← List.getD_eq_getElem _ [] hk']
    by_cases hki : i = k
    · subst hki
      rw [getD_set_self _ _ _ (by rw [List.length_set] at hk'; exact hk')]
      decide
    · rw [getD_set_ne _ _ _ _ hki]
      intro h
      have := huj k (by rw [List.length_set] at hk'; exact hk') (by simpa using h)
      omega

theorem classifyHeader_name (header : QStringList) (extra : List (Nat × QString))
    (i j : Nat) (hi : i < header.length)
    (hfi : toLower (header.getD i []) = "first name".toList)
    (hui : ∀ k, k < header.length → toLower (header.getD k []) = "first name".toList → k = i)
    (hj : j < header.length)
    (hfj : toLower (header.getD j []) = "last name".toList)
    (huj : ∀ k, k < header.length → toLower (header.getD k []) = "last name".toList → k = j) :
    i ≠ j ∧
    (classifyHeader header extra).headerRow = (header.set i "Name".toList).eraseIdx j ∧
    (classifyHeader header extra).merged = [(i, (i, 0)), (j, (i, 1))] := by
  have hij : i ≠ j := by
    intro h
    subst h
    rw [hfi] at hfj
    exact absurd hfj (by decide)
  have hji : j ≠ i := fun h => hij h.symm
  obtain ⟨e1, e2⟩ := foldl_classifyColumn_name header extra i hfi hui header.length (le_refl _)
  rw [if_pos hi] at e1 e2
  have hfind := findIdx_last_name header i j hij hj hfj huj
  refine ⟨hij, ?_, ?_⟩
  · unfold classifyHeader mergeLastName
    simp only [e1, e2, hfind]
  · unfold classifyHeader mergeLastName
    simp only [e1, e2, hfind, umapInsert, hji, if_false]

/-! ## C14: one first-name and one last-name column -/

theorem projectFields_name_cells (i j : Nat) (hij : i ≠ j) (fields : QStringList)
    (hi : i < fields.length) (hj : j < fields.length) :
    (projectFields [(i, (i, 0)), (j, (i, 1))] 0 fields []).map
        (fun ii => trimmed (join " ".toList ii.2))
      = ((fields.set i (fields.getD i [] ++ ' ' :: fields.getD j [])).eraseIdx j).map
          trimmed := by
  rw [projectFields_name i j hij fields hi hj, eraseIdx_eq_map_filter [], List.length_set,
    List.map_map, List.map_map]
  apply List.map_congr_left
  intro q _
  by_cases hq : q = i
  · subst hq
    simp only [Function.comp, if_true, getD_set_self _ _ _ hi]
    show trimmed (fields.getD q [] ++ [' '] ++ fields.getD j []) = _
    rw [List.append_assoc]
    rfl
  · have hq' : i ≠ q := fun h => hq h.symm
    simp only [Function.comp, hq, if_false, getD_set_ne _ _ _ _ hq']
    rfl

/-- C14: for a header with exactly one column named `first name` (at `i`) and exactly one named
`last name` (at `j`), compared in lower case, the working header is the raw header with entry
`i` renamed to `Name` and entry `j` removed, the merge plan groups `i` and `j` at `i`, and every
non-blank line with as many raw fields as the raw header gives the row of the raw fields with
field `i` replaced by field `i`, one space, field `j`, and field `j` removed, every cell trimmed:
a row of the working header's length. -/
theorem classifyHeader_name_pair (header : QStringList) (extra : List (Nat × QString))
    (i j : Nat) (hi : i < header.length)
    (hfi : toLower (header.getD i []) = "first name".toList)
    (hui : ∀ k, k < header.length → toLower (header.getD k []) = "first name".toList → k = i)
    (hj : j < header.length)
    (hfj : toLower (header.getD j []) = "last name".toList)
    (huj : ∀ k, k < header.length → toLower (header.getD k []) = "last name".toList → k = j) :
    (classifyHeader header extra).headerRow = (header.set i "Name".toList).eraseIdx j ∧
    (classifyHeader header extra).merged = [(i, (i, 0)), (j, (i, 1))] ∧
    ∀ (currLine : QString) (fields : QStringList), trimmed currLine ≠ [] →
      scanLine (trimmed currLine) false [] [] = fields → fields.length = header.length →
      getRow currLine (classifyHeader header extra).merged
        = some (true,
            ((fields.set i (fields.getD i [] ++ ' ' :: fields.getD j [])).eraseIdx j).map
              trimmed) ∧
      (((fields.set i (fields.getD i [] ++ ' ' :: fields.getD j [])).eraseIdx j).map
          trimmed).length = (classifyHeader header extra).headerRow.length := by
  obtain ⟨hij, e1, e2⟩ := classifyHeader_name header extra i j hi hfi hui hj hfj huj
  refine ⟨e1, e2, ?_⟩
  intro currLine fields hl hs hlen
  rw [e1, e2]
  constructor
  · have hne : ([(i, (i, 0)), (j, (i, 1))] : TMergedType) ≠ [] := by simp
    have hg : getRow currLine [(i, (i, 0)), (j, (i, 1))]
        = some (true, (projectFields [(i, (i, 0)), (j, (i, 1))] 0
            (scanLine (trimmed currLine) false [] []) []).map
            (fun ii => trimmed (join " ".toList ii.2))) := by
      simp [getRow, hl]
    rw [hg, hs, projectFields_name_cells i j hij fields (by omega) (by omega)]
  · rw [List.length_map, List.length_eraseIdx, List.length_eraseIdx, List.length_set,
      List.length_set, hlen]

/-- Witness of C14 at the header `First Name,Last Name,Ext` and the line `Al,Jones,100`: the
working header is `Name`, `Ext` and the row is `Al Jones`, `100`, also in the loaded dataset. -/
theorem classifyHeader_name_pair_witness :
    (classifyHeader ["First Name".toList, "Last Name".toList, "Ext".toList] []).headerRow
      = ["Name".toList, "Ext".toList] ∧
    getRow "Al,Jones,100".toList
        (classifyHeader ["First Name".toList, "Last Name".toList, "Ext".toList] []).merged
      = some (true, ["Al Jones".toList, "100".toList]) ∧
    (loaded ["First Name,Last Name,Ext", "Al,Jones,100"]).getHeaders
      = ["Name".toList, "Ext".toList] ∧
    (loaded ["First Name,Last Name,Ext", "Al,Jones,100"]).rows
      = [["Al Jones".toList, "100".toList]] :=
  ⟨(classifyHeader_name_pair ["First Name".toList, "Last Name".toList, "Ext".toList] [] 0 1
      (by decide) (by decide) (by decide) (by decide) (by decide) (by decide)).1,
    ((classifyHeader_name_pair ["First Name".toList, "Last Name".toList, "Ext".toList] [] 0 1
      (by decide) (by decide) (by decide) (by decide) (by decide) (by decide)).2.2
      "Al,Jones,100".toList ["Al".toList, "Jones".toList, "100".toList]
      (by decide) (by decide) (by decide)).1,
    by decide, by decide⟩

end CompareCSV
